import Mathlib

/-!
Z80 snapshot codec (`Main/Emulator/z80snapshot.cpp`)

A shallow embedding of the snapshot loader and saver of the emulator, and the
properties of its run-length decoder, header codec and page loop.

Conventions of the embedding

* A byte is a `Nat`; a store into a `uint8_t`/`uint16_t` object that can
  truncate is written with an explicit `% 256` / `% 65536`.
* A `uint8_t*` is modelled by `Mem`, the map from an offset (counted from the
  pointer) to the byte stored there; `buffer1`, `buffer2` and `RamBuffer` are
  taken to be disjoint.  A `Mem` has no end of its own.  The scratch buffers
  are declared `uint8_t buffer1[0x4000]`, `buffer2[0x4000]`: every `f_read`
  of the loaders goes to `buffer1` and is recorded with the offset of its
  buffer and the number of bytes it stored (`FIL.reads`), and `allInBuffer`
  says of such a record that no transfer stored past offset `0x4000`.  A run
  whose record is not `allInBuffer` overruns `buffer1` in the source, so what
  the embedding computes for it does not carry over to the program; the
  theorems on successful loads state `allInBuffer` of the run.
* Loops are structural recursions on a fuel argument.  For the decoder loop
  and the chunked transfers a lemma shows that the fuel handed over by the
  caller is never what ends the loop (the transfers need a positive sector
  size for that); the page loop of `LoadZ80Snapshot` really can spin forever.
-/

set_option autoImplicit false

namespace Z80Snapshot

/-! ## Memory -/

/-- Bytes reached through a `uint8_t*`: offset from the pointer to the byte there. -/
abbrev Mem := Nat → Nat

/-- The memory image whose first bytes are `l` (zero beyond). -/
def ofList (l : List Nat) : Mem := fun i => l.getD i 0

/-- The `n` bytes found at offsets `off, off+1, ..` of `m`. -/
def slice (m : Mem) (off n : Nat) : List Nat := (List.range n).map (fun i => m (off + i))

/-- Consecutive byte stores of `bytes` at `&m[off]`. -/
def store (m : Mem) (off : Nat) (bytes : List Nat) : Mem :=
  fun a => if off ≤ a ∧ a < off + bytes.length then bytes.getD (a - off) 0 else m a

/-- The call `memcpy(&dst[d], &src[s], n)`. -/
def memcpy (dst : Mem) (d : Nat) (src : Mem) (s n : Nat) : Mem :=
  fun a => if d ≤ a ∧ a < d + n then src (s + (a - d)) else dst a

/-! ## Run-length decoder -/

/-- The inner `for (int j = 0; j < repeat; j++)` loop of `DecompressPage`, as a recursion
on the iterations left.  Result: the bytes stored through `memory`, the new value of the
`uint16_t size`, and whether the `return` inside the loop was taken. -/
def DecompressPage.run (maxSize value : Nat) : Nat → Nat → List Nat × Nat × Bool
  | 0, size => ([], size, false)
  | n + 1, size =>
    let size1 := (size + 1) % 65536
    if maxSize > 0 ∧ size1 ≥ maxSize then ([value], size1, true)
    else
      let r := DecompressPage.run maxSize value n size1
      (value :: r.1, r.2.1, r.2.2)

/-- The outer `for (int i = 0; i < pageLength; i++)` loop of `DecompressPage`, from the
state `(i, size)`; the result is the sequence of bytes stored through `memory`.
The source compares `i < pageLength - 4` in `int`, where the right side can be negative;
over `Nat` that is `i + 4 < pageLength`. -/
def DecompressPage.loop (page : Mem) (pageLength : Nat) (isCompressed : Bool) (maxSize : Nat) :
    Nat → Nat → Nat → List Nat
  | 0, _, _ => []
  | fuel + 1, i, size =>
    if i < pageLength then
      if i + 4 < pageLength ∧ page i = 0x00 ∧ page (i + 1) = 0xED ∧ page (i + 2) = 0xED
          ∧ page (i + 3) = 0x00 then
        []
      else if i + 4 < pageLength ∧ isCompressed = true ∧ page i = 0xED ∧ page (i + 1) = 0xED then
        let r := DecompressPage.run maxSize (page (i + 3)) (page (i + 2)) size
        if r.2.2 then r.1
        else r.1 ++ DecompressPage.loop page pageLength isCompressed maxSize fuel (i + 4) r.2.1
      else
        let size1 := (size + 1) % 65536
        if maxSize > 0 ∧ size1 ≥ maxSize then [page i]
        else page i :: DecompressPage.loop page pageLength isCompressed maxSize fuel (i + 1) size1
    else []

/-- The function `DecompressPage(page, pageLength, isCompressed, maxSize, destMemory)`:
the bytes it stores at `destMemory[0]`, `destMemory[1]`, .. in that order.  Every
iteration advances `i`, so `pageLength` iterations are enough. -/
def DecompressPage (page : Mem) (pageLength : Nat) (isCompressed : Bool) (maxSize : Nat) :
    List Nat :=
  DecompressPage.loop page pageLength isCompressed maxSize pageLength 0 0

/-- What `DecompressPage` stores for a raw record with the 16384-byte payload `P`. -/
def rawDecode (P : List Nat) : List Nat := DecompressPage (ofList P) 0x4000 false 0

/-- The four bytes of `page` at offset `i` are the end marker `00 ED ED 00`. -/
def endMarkerAt (page : Mem) (i : Nat) : Prop :=
  page i = 0x00 ∧ page (i + 1) = 0xED ∧ page (i + 2) = 0xED ∧ page (i + 3) = 0x00

/-- The indices read by the end-marker test `page[i] == 0x00 && page[i + 1] == 0xED &&
page[i + 2] == 0xED && page[i + 3] == 0x00`: `&&` goes from left to right and stops at the
first operand that is false. -/
def DecompressPage.markerReads (page : Mem) (i : Nat) : List Nat :=
  i :: if page i = 0x00 then
    (i + 1) :: if page (i + 1) = 0xED then
      (i + 2) :: if page (i + 2) = 0xED then [i + 3] else []
    else []
  else []

/-- The indices read by the escape test `isCompressed && page[i] == 0xED &&
page[i + 1] == 0xED`. -/
def DecompressPage.escapeReads (page : Mem) (isCompressed : Bool) (i : Nat) : List Nat :=
  if isCompressed = true then i :: if page i = 0xED then [i + 1] else [] else []

/-- The loop of `DecompressPage` once more, now returning next to the bytes stored the
indices at which `page` is read, in the order of the reads: the two tests inside
`if (i < pageLength - 4)`, the count and value bytes `page[i + 2]`, `page[i + 3]` of an
escape, and `page[i]` of a literal. -/
def DecompressPage.traced (page : Mem) (pageLength : Nat) (isCompressed : Bool) (maxSize : Nat) :
    Nat → Nat → Nat → List Nat × List Nat
  | 0, _, _ => ([], [])
  | fuel + 1, i, size =>
    if i < pageLength then
      if i + 4 < pageLength ∧ page i = 0x00 ∧ page (i + 1) = 0xED ∧ page (i + 2) = 0xED
          ∧ page (i + 3) = 0x00 then
        ([], DecompressPage.markerReads page i)
      else if i + 4 < pageLength ∧ isCompressed = true ∧ page i = 0xED ∧ page (i + 1) = 0xED then
        let r := DecompressPage.run maxSize (page (i + 3)) (page (i + 2)) size
        let here := DecompressPage.markerReads page i
          ++ DecompressPage.escapeReads page isCompressed i ++ [i + 2, i + 3]
        if r.2.2 then (r.1, here)
        else
          let t := DecompressPage.traced page pageLength isCompressed maxSize fuel (i + 4) r.2.1
          (r.1 ++ t.1, here ++ t.2)
      else
        let here :=
          (if i + 4 < pageLength then
            DecompressPage.markerReads page i ++ DecompressPage.escapeReads page isCompressed i
          else []) ++ [i]
        let size1 := (size + 1) % 65536
        if maxSize > 0 ∧ size1 ≥ maxSize then ([page i], here)
        else
          let t := DecompressPage.traced page pageLength isCompressed maxSize fuel (i + 1) size1
          (page i :: t.1, here ++ t.2)
    else ([], [])

/-- The indices at which `DecompressPage` reads its source page. -/
def DecompressPage.reads (page : Mem) (pageLength : Nat) (isCompressed : Bool) (maxSize : Nat) :
    List Nat :=
  (DecompressPage.traced page pageLength isCompressed maxSize pageLength 0 0).2

/-! ## Header codec -/

/-- The packed `struct FileHeader` (34 bytes), field by field in declaration order. -/
structure FileHeader where
  A : Nat
  F : Nat
  BC : Nat
  HL : Nat
  Version : Nat
  SP : Nat
  InterruptRegister : Nat
  RefreshRegister : Nat
  Flags1 : Nat
  DE : Nat
  BC_Dash : Nat
  DE_Dash : Nat
  HL_Dash : Nat
  A_Dash : Nat
  F_Dash : Nat
  IY : Nat
  IX : Nat
  InterruptFlipFlop : Nat
  IFF2 : Nat
  Flags2 : Nat
  AdditionalBlockLength : Nat
  PC : Nat

/-- Modelled from the spec: the CPU register file `_zxCpu` (`Z80_STATE`, declared in
`z80emu.h`, which is not part of the source file).  `A`, `F` are `registers.byte[..]`,
`BC` .. `IY` are `registers.word[..]`, `altBC` .. `altAF` are `alternates[..]` (16 bit), and
`i`, `r`, `pc`, `iff1`, `iff2`, `im` are the plain integer members of those names. -/
structure Z80_STATE where
  A : Nat
  F : Nat
  BC : Nat
  DE : Nat
  HL : Nat
  SP : Nat
  IX : Nat
  IY : Nat
  altBC : Nat
  altDE : Nat
  altHL : Nat
  altAF : Nat
  i : Nat
  r : Nat
  pc : Nat
  iff1 : Nat
  iff2 : Nat
  im : Nat

/-- Modelled from the spec: the video settings reached through `_spectrumScreen`
(`SpectrumScreen.h` is not part of the source file): pixel buffer, attribute buffer, their
sizes `_pixelCount` and `_attributeCount`, and the border colour `*Settings.BorderColor`. -/
structure SpectrumScreen where
  Pixels : Mem
  pixelCount : Nat
  Attributes : Mem
  attributeCount : Nat
  BorderColor : Nat

/-- Modelled from the spec: what the source takes from outside the file, namely the FatFs
sector size `_MIN_SS`, the colour-space transforms `FromSpectrumColor` / `ToSpectrumColor`
and the display call `ShowScreenshot`, which is handed a buffer and acts on the screen. -/
structure Env where
  MIN_SS : Nat
  FromSpectrumColor : Nat → Nat
  ToSpectrumColor : Nat → Nat
  ShowScreenshot : Mem → SpectrumScreen → SpectrumScreen

/-- The local `borderColor` of `ReadState` as a function of the header handed in: bits 1-3
of the flags byte, after the `255 -> 1` replacement.  `ReadState_BorderColor` shows that this
is the index `ReadState` passes to `FromSpectrumColor`. -/
def ReadState.borderColor (header : FileHeader) : Nat :=
  ((if header.Flags1 = 255 then 1 else header.Flags1) &&& 0x0E) >>> 1

/-- The function `ReadState(header)`: the header after the `Flags1` fix-up, the new CPU
state and the new video settings. -/
def ReadState (env : Env) (header : FileHeader) (cpu : Z80_STATE) (screen : SpectrumScreen) :
    FileHeader × Z80_STATE × SpectrumScreen :=
  let header := if header.Flags1 = 255 then { header with Flags1 := 1 } else header
  let cpu := { cpu with
    A := header.A
    F := header.F
    BC := header.BC
    HL := header.HL
    SP := header.SP
    i := header.InterruptRegister
    r := (header.RefreshRegister &&& 0x7F) ||| ((header.Flags1 &&& 0x01) <<< 7)
    im := header.Flags2 &&& 0x3
    DE := header.DE
    altBC := header.BC_Dash
    altDE := header.DE_Dash
    altHL := header.HL_Dash
    altAF := (header.F_Dash ||| (header.A_Dash <<< 8)) % 65536
    IY := header.IY
    IX := header.IX
    iff1 := header.InterruptFlipFlop
    iff2 := header.IFF2
    pc := header.PC }
  let borderColor := (header.Flags1 &&& 0x0E) >>> 1
  (header, cpu, { screen with BorderColor := env.FromSpectrumColor borderColor })

/-- The function `SaveState(header)`.  Stores of an `int` member into an 8 or 16 bit field
truncate. -/
def SaveState (header : FileHeader) (cpu : Z80_STATE) (screen : SpectrumScreen) : FileHeader :=
  { header with
    Version := 0
    AdditionalBlockLength := 54
    A := cpu.A
    F := cpu.F
    BC := cpu.BC
    HL := cpu.HL
    SP := cpu.SP
    InterruptRegister := cpu.i % 256
    RefreshRegister := cpu.r % 256
    DE := cpu.DE
    BC_Dash := cpu.altBC
    DE_Dash := cpu.altDE
    HL_Dash := cpu.altHL
    F_Dash := cpu.altAF &&& 0xFF
    A_Dash := ((cpu.altAF &&& 0xFF00) >>> 8) % 256
    IY := cpu.IY
    IX := cpu.IX
    InterruptFlipFlop := cpu.iff1 % 256
    IFF2 := cpu.iff2 % 256
    PC := cpu.pc % 65536
    Flags1 := (((cpu.r &&& 0x80) >>> 7) ||| ((screen.BorderColor &&& 0x07) <<< 1)) % 256
    Flags2 := (cpu.im &&& 0x03) % 256 }

/-! ## Storage -/

/-- Modelled from the spec: the result code of a FatFs transfer (`ff.h` is not part of the
source file); the source only tests it against `FR_OK`. -/
inductive FRESULT where
  | FR_OK
  | FR_DISK_ERR
  deriving DecidableEq

/-- The places where the loaders call `f_read`: the 34-byte header, the extension block
together with the first page header, a chunk of a page body (or of the bare screen image
of `LoadScreenshot`), and the 3-byte header of the next page. -/
inductive Site where
  | header
  | extension
  | body
  | nextPage
  deriving DecidableEq

/-- One call of `f_read` as its caller sees it: where in the code it is made, the number of
bytes asked for, the number transferred, the result code, and the offset in `buffer1` of the
buffer handed over (all reads of the loaders go to `buffer1`, which holds `0x4000` bytes). -/
structure Transfer where
  site : Site
  requested : Nat
  transferred : Nat
  result : FRESULT
  offset : Nat
  deriving DecidableEq

/-- Modelled from the spec: the open file `FIL` on block storage (FatFs is not part of the
source file), as a finite byte stream.  `input` holds the bytes from the read position to
the end of the file, `output` the bytes written so far, `room` the number of bytes the
medium still takes, `faultAfter` the number of transfers the device completes before it
reports an error (`none`: it never does), and `reads` records the `f_read` calls made. -/
structure FIL where
  input : List Nat
  output : List Nat
  room : Nat
  faultAfter : Option Nat
  reads : List Transfer

/-- Modelled from the spec: `f_read(file, &buffer1[offset], btr, &bytesRead)` returns the
result code, the bytes placed in the buffer (`min btr remaining` of them; none on a device
error) and the file afterwards.  The call is recorded with the offset of its buffer, so that
a transfer that would run past the `0x4000` bytes of `buffer1` shows in the record. -/
def f_read (file : FIL) (site : Site) (offset : Nat) (btr : Nat) : FRESULT × List Nat × FIL :=
  if file.faultAfter = some 0 then
    (.FR_DISK_ERR, [],
      { file with reads := file.reads ++ [⟨site, btr, 0, .FR_DISK_ERR, offset⟩] })
  else
    (.FR_OK, file.input.take btr,
      { file with
        input := file.input.drop btr
        faultAfter := file.faultAfter.map (fun n => n - 1)
        reads := file.reads ++ [⟨site, btr, (file.input.take btr).length, .FR_OK, offset⟩] })

/-- Modelled from the spec: `f_write(file, buffer, btw, &bytesWritten)` for the bytes `data`
taken from the buffer: result code, number of bytes written (`min btw room`; none on a
device error) and the file afterwards. -/
def f_write (file : FIL) (data : List Nat) : FRESULT × Nat × FIL :=
  if file.faultAfter = some 0 then (.FR_DISK_ERR, 0, file)
  else
    (.FR_OK, min data.length file.room,
      { file with
        output := file.output ++ data.take file.room
        room := file.room - data.length
        faultAfter := file.faultAfter.map (fun n => n - 1) })

/-- The call moved fewer bytes than were asked for. -/
def Transfer.short (t : Transfer) : Prop := t.transferred < t.requested

instance (t : Transfer) : Decidable t.short := by
  unfold Transfer.short
  infer_instance

/-- No call in the record came up short. -/
def allComplete (log : List Transfer) : Prop := ∀ t ∈ log, ¬ t.short

/-- The record of a run that returned `res`: either no call came up short, or only the last
one did, and then `res` is success exactly when that call was the read of the next page
header and the device reported no error. -/
def shortOnlyLast (log : List Transfer) (res : Option Bool) : Prop :=
  allComplete log ∨
    ∃ pre t, log = pre ++ [t] ∧ allComplete pre ∧ t.short
      ∧ res = some (decide (t.site = .nextPage ∧ t.result = .FR_OK))

/-- The transfer stayed inside `buffer1`, declared `uint8_t buffer1[0x4000]`: the bytes it
stored lie below offset `0x4000`. -/
def Transfer.inBuffer (t : Transfer) : Prop := t.offset + t.transferred ≤ 0x4000

instance (t : Transfer) : Decidable t.inBuffer := by
  unfold Transfer.inBuffer
  infer_instance

/-- No call in the record stored past the end of `buffer1`. -/
def allInBuffer (log : List Transfer) : Prop := ∀ t ∈ log, t.inBuffer

instance (log : List Transfer) : Decidable (allInBuffer log) := by
  unfold allInBuffer
  infer_instance

/-- Everything the snapshot routines read or change: the globals `_zxCpu`,
`_spectrumScreen`, `RamBuffer`, the two scratch buffers handed in by the caller and the
file. -/
structure Machine where
  cpu : Z80_STATE
  screen : SpectrumScreen
  RamBuffer : Mem
  buffer1 : Mem
  buffer2 : Mem
  file : FIL

/-! ## Header layout -/

/-- The 16-bit little-endian value at offset `off`. -/
def rd16 (m : Mem) (off : Nat) : Nat := m off + 256 * m (off + 1)

/-- The cast `(FileHeader*) buffer1`, read: the fields of the packed struct at the start of
`m` (little-endian). -/
def FileHeader.read (m : Mem) : FileHeader :=
  { A := m 0, F := m 1, BC := rd16 m 2, HL := rd16 m 4, Version := rd16 m 6, SP := rd16 m 8,
    InterruptRegister := m 10, RefreshRegister := m 11, Flags1 := m 12, DE := rd16 m 13,
    BC_Dash := rd16 m 15, DE_Dash := rd16 m 17, HL_Dash := rd16 m 19, A_Dash := m 21,
    F_Dash := m 22, IY := rd16 m 23, IX := rd16 m 25, InterruptFlipFlop := m 27, IFF2 := m 28,
    Flags2 := m 29, AdditionalBlockLength := rd16 m 30, PC := rd16 m 32 }

/-- The two bytes of a 16-bit field, low byte first. -/
def le16 (v : Nat) : List Nat := [v % 256, v / 256 % 256]

/-- The cast `(FileHeader*) buffer1`, written: the 34 bytes of the packed struct. -/
def FileHeader.bytes (h : FileHeader) : List Nat :=
  [h.A % 256, h.F % 256] ++ le16 h.BC ++ le16 h.HL ++ le16 h.Version ++ le16 h.SP
    ++ [h.InterruptRegister % 256, h.RefreshRegister % 256, h.Flags1 % 256]
    ++ le16 h.DE ++ le16 h.BC_Dash ++ le16 h.DE_Dash ++ le16 h.HL_Dash
    ++ [h.A_Dash % 256, h.F_Dash % 256] ++ le16 h.IY ++ le16 h.IX
    ++ [h.InterruptFlipFlop % 256, h.IFF2 % 256, h.Flags2 % 256]
    ++ le16 h.AdditionalBlockLength ++ le16 h.PC

/-! ## Loading -/

/-- The chunked read `do { .. } while (readResult == FR_OK && remainingBytesInPage > 0)` that
brings a page body into `buffer1`, starting at `&buffer1[offset]`.  `some false` is the
`return false` inside it, `some true` its normal end; `none` means the iterations handed
over were used up.  Each chunk is recorded with its offset in `buffer1`, so that a body
longer than the `0x4000` bytes of the buffer shows in the record (`allInBuffer` fails). -/
def readChunks (env : Env) : Nat → FIL → Mem → Nat → Nat → Option Bool × FIL × Mem
  | 0, file, buffer1, _, _ => (none, file, buffer1)
  | fuel + 1, file, buffer1, offset, remainingBytesInPage =>
    let bytesToRead :=
      if remainingBytesInPage < env.MIN_SS then remainingBytesInPage else env.MIN_SS
    let r := f_read file .body offset bytesToRead
    let buffer1 := store buffer1 offset r.2.1
    if r.1 ≠ .FR_OK ∨ r.2.1.length ≠ bytesToRead then (some false, r.2.2, buffer1)
    else if remainingBytesInPage - r.2.1.length > 0 then
      readChunks env fuel r.2.2 buffer1 (offset + r.2.1.length)
        (remainingBytesInPage - r.2.1.length)
    else (some true, r.2.2, buffer1)

/-- How one pass through the body of the page loop ends. -/
inductive Step where
  | ret (result : Bool) (m : Machine)
  | again (m : Machine) (pageSize pageNumber : Nat)
  | stuck (m : Machine)

/-- The state a pass through the loop body leaves behind. -/
def Step.machine : Step → Machine
  | .ret _ m => m
  | .again m _ _ => m
  | .stuck m => m

/-- One pass through the body of the `do { .. } while (pageSize > 0)` loop of
`LoadZ80Snapshot`, entered with `pageSize` and `pageNumber`.  A `continue` inside a
`do .. while` goes to the loop test, with `pageSize` as the pass has left it. -/
def LoadZ80Snapshot.body (env : Env) (m : Machine) (pageSize pageNumber : Nat) : Step :=
  let isCompressed := decide (pageSize ≠ 0xFFFF)
  let pageSize := if isCompressed = false then 0x4000 else pageSize
  if pageNumber = 8 ∨ pageNumber = 4 ∨ pageNumber = 5 then
    let rd := readChunks env (pageSize + 1) m.file m.buffer1 0 pageSize
    match rd.1 with
    | none => .stuck { m with file := rd.2.1, buffer1 := rd.2.2 }
    | some false => .ret false { m with file := rd.2.1, buffer1 := rd.2.2 }
    | some true =>
      let out := DecompressPage rd.2.2 pageSize isCompressed 0
      -- `memory` is `buffer2` for page 8, else a place in `RamBuffer`
      let buffer2 := if pageNumber = 8 then store m.buffer2 0 out else m.buffer2
      let RamBuffer :=
        if pageNumber = 8 then m.RamBuffer
        else if pageNumber = 4 then store m.RamBuffer (0x8000 - 0x5B00) out
        else store m.RamBuffer (0xC000 - 0x5B00) out
      -- `if (pageNumber == 8)`: show the screen, then copy 0x5B00..0x7FFF into RAM
      let screen := if pageNumber = 8 then env.ShowScreenshot buffer2 m.screen else m.screen
      let RamBuffer :=
        if pageNumber = 8 then memcpy RamBuffer 0 buffer2 0x1B00 0x2500 else RamBuffer
      let r := f_read rd.2.1 .nextPage 0 3
      let m : Machine :=
        { cpu := m.cpu, screen := screen, RamBuffer := RamBuffer,
          buffer1 := store rd.2.2 0 r.2.1, buffer2 := buffer2, file := r.2.2 }
      if r.1 ≠ .FR_OK then .ret false m
      else
        let pageSize :=
          if r.2.1.length = 3 then (m.buffer1 0 ||| (m.buffer1 1 <<< 8)) % 65536 else 0
        let pageNumber := if r.2.1.length = 3 then m.buffer1 2 else pageNumber
        if pageSize > 0 then .again m pageSize pageNumber else .ret true m
  else if pageSize > 0 then .again m pageSize pageNumber
  else .ret true m

/-- The page loop of `LoadZ80Snapshot`, at most `fuel` passes; `none` when they are used up
without reaching a `return`. -/
def LoadZ80Snapshot.loop (env : Env) : Nat → Machine → Nat → Nat → Option Bool × Machine
  | 0, m, _, _ => (none, m)
  | fuel + 1, m, pageSize, pageNumber =>
    match LoadZ80Snapshot.body env m pageSize pageNumber with
    | .ret result m => (some result, m)
    | .again m pageSize pageNumber => LoadZ80Snapshot.loop env fuel m pageSize pageNumber
    | .stuck m => (none, m)

/-- The function `zx::LoadZ80Snapshot(file, buffer1, buffer2)`, with at most `fuel` passes
through its page loop: the value returned (`none`: no `return` reached) and the state
left behind.  The number of bytes of the second read is `AdditionalBlockLength - 2 + 3`,
computed in `int`; the page header is taken from its last three bytes (for an
`AdditionalBlockLength` below 2 the source would index before `buffer1`).  The second read
stores at `buffer1[0]` on; when it is longer than `0x4000` bytes the record of reads shows
it (`allInBuffer` fails). -/
def LoadZ80Snapshot (env : Env) (fuel : Nat) (m : Machine) : Option Bool × Machine :=
  let r := f_read m.file .header 0 34
  let m := { m with file := r.2.2, buffer1 := store m.buffer1 0 r.2.1 }
  if r.1 ≠ .FR_OK ∨ r.2.1.length ≠ 34 then (some false, m)
  else
    let st := ReadState env (FileHeader.read m.buffer1) m.cpu m.screen
    let m := { m with
      cpu := st.2.1
      screen := st.2.2
      buffer1 := if (FileHeader.read m.buffer1).Flags1 = 255 then store m.buffer1 12 [1]
        else m.buffer1 }
    let bytesToRead := st.1.AdditionalBlockLength + 3 - 2
    let r := f_read m.file .extension 0 bytesToRead
    let m := { m with file := r.2.2, buffer1 := store m.buffer1 0 r.2.1 }
    if r.1 ≠ .FR_OK ∨ r.2.1.length ≠ bytesToRead then (some false, m)
    else
      let pageSize :=
        (m.buffer1 (bytesToRead - 3) ||| (m.buffer1 (bytesToRead - 3 + 1) <<< 8)) % 65536
      let pageNumber := m.buffer1 (bytesToRead - 3 + 2)
      LoadZ80Snapshot.loop env fuel m pageSize pageNumber

/-- The page length that `LoadScreenFromZ80Snapshot` hands to `DecompressPage`:
`if (pageSize > 6912) pageSize = 6912;`. -/
def LoadScreenFromZ80Snapshot.decodeLength (pageSize : Nat) : Nat :=
  if pageSize > 6912 then 6912 else pageSize

/-- One pass through the body of the `do { .. } while (pageSize > 0)` loop of
`LoadScreenFromZ80Snapshot`, together with the offsets of `buffer1` that the `DecompressPage`
call of the pass reads and the offsets it stores to (both empty when the pass makes no such
call).  Every page body is read into `buffer1`, whatever its number; for page 8 the call is
`DecompressPage(buffer1, pageSize, isCompressed, 6912, buffer2)` with
`buffer2 = &buffer1[0x2000]` and `pageSize` clamped to 6912, run here with the instrumented
decoder, and the result is shown.  The decoder's output is taken first and stored
afterwards; `LoadScreenFromZ80Snapshot_decode_in_buffer` shows that no offset it reads is
one it stores to. -/
def LoadScreenFromZ80Snapshot.bodyTraced (env : Env) (m : Machine)
    (pageSize pageNumber : Nat) : Step × List Nat × List Nat :=
  let isCompressed := decide (pageSize ≠ 0xFFFF)
  let pageSize := if isCompressed = false then 0x4000 else pageSize
  let rd := readChunks env (pageSize + 1) m.file m.buffer1 0 pageSize
  match rd.1 with
  | none => (.stuck { m with file := rd.2.1, buffer1 := rd.2.2 }, [], [])
  | some false => (.ret false { m with file := rd.2.1, buffer1 := rd.2.2 }, [], [])
  | some true =>
    -- inside `if (pageNumber == 8)`
    let buffer2 := 0x2000
    let pageSize := LoadScreenFromZ80Snapshot.decodeLength pageSize
    let decoded := DecompressPage.traced rd.2.2 pageSize isCompressed 6912 pageSize 0 0
    let buffer1 := if pageNumber = 8 then store rd.2.2 buffer2 decoded.1 else rd.2.2
    let screen :=
      if pageNumber = 8 then env.ShowScreenshot (fun a => buffer1 (buffer2 + a)) m.screen
      else m.screen
    let reads := if pageNumber = 8 then decoded.2 else []
    let writes :=
      if pageNumber = 8 then (List.range decoded.1.length).map (fun j => buffer2 + j) else []
    -- after the `if`
    let r := f_read rd.2.1 .nextPage 0 3
    let m : Machine :=
      { cpu := m.cpu, screen := screen, RamBuffer := m.RamBuffer,
        buffer1 := store buffer1 0 r.2.1, buffer2 := m.buffer2, file := r.2.2 }
    let pageSize :=
      if r.2.1.length = 3 then (m.buffer1 0 ||| (m.buffer1 1 <<< 8)) % 65536 else 0
    let pageNumber := if r.2.1.length = 3 then m.buffer1 2 else pageNumber
    (if r.1 ≠ .FR_OK then .ret false m
      else if pageSize > 0 then .again m pageSize pageNumber else .ret true m,
      reads, writes)

/-- One pass through the body of the `do { .. } while (pageSize > 0)` loop of
`LoadScreenFromZ80Snapshot`: how it ends and the state it leaves. -/
def LoadScreenFromZ80Snapshot.body (env : Env) (m : Machine) (pageSize pageNumber : Nat) :
    Step :=
  (LoadScreenFromZ80Snapshot.bodyTraced env m pageSize pageNumber).1

/-- The page loop of `LoadScreenFromZ80Snapshot`, at most `fuel` passes. -/
def LoadScreenFromZ80Snapshot.loop (env : Env) :
    Nat → Machine → Nat → Nat → Option Bool × Machine
  | 0, m, _, _ => (none, m)
  | fuel + 1, m, pageSize, pageNumber =>
    match LoadScreenFromZ80Snapshot.body env m pageSize pageNumber with
    | .ret result m => (some result, m)
    | .again m pageSize pageNumber =>
      LoadScreenFromZ80Snapshot.loop env fuel m pageSize pageNumber
    | .stuck m => (none, m)

/-- The function `zx::LoadScreenFromZ80Snapshot(file, buffer1)`, with at most `fuel` passes
through its page loop.  The header is read but not handed to `ReadState`.  Reads longer than
the `0x4000` bytes of `buffer1` show in the record of reads (`allInBuffer` fails). -/
def LoadScreenFromZ80Snapshot (env : Env) (fuel : Nat) (m : Machine) : Option Bool × Machine :=
  let r := f_read m.file .header 0 34
  let m := { m with file := r.2.2, buffer1 := store m.buffer1 0 r.2.1 }
  if r.1 ≠ .FR_OK ∨ r.2.1.length ≠ 34 then (some false, m)
  else
    let bytesToRead := (FileHeader.read m.buffer1).AdditionalBlockLength + 3 - 2
    let r := f_read m.file .extension 0 bytesToRead
    let m := { m with file := r.2.2, buffer1 := store m.buffer1 0 r.2.1 }
    if r.1 ≠ .FR_OK ∨ r.2.1.length ≠ bytesToRead then (some false, m)
    else
      let pageSize :=
        (m.buffer1 (bytesToRead - 3) ||| (m.buffer1 (bytesToRead - 3 + 1) <<< 8)) % 65536
      let pageNumber := m.buffer1 (bytesToRead - 3 + 2)
      LoadScreenFromZ80Snapshot.loop env fuel m pageSize pageNumber

/-- The function `zx::LoadScreenshot(file, buffer1)`: the chunked read of 6912 bytes into
`buffer1` (the same loop as for a page body), then `ShowScreenshot(buffer1)`. -/
def LoadScreenshot (env : Env) (m : Machine) : Option Bool × Machine :=
  let rd := readChunks env (6912 + 1) m.file m.buffer1 0 6912
  match rd.1 with
  | some true =>
    (some true,
      { m with file := rd.2.1, buffer1 := rd.2.2, screen := env.ShowScreenshot rd.2.2 m.screen })
  | r => (r, { m with file := rd.2.1, buffer1 := rd.2.2 })

/-! ## Saving -/

/-- The chunked write `do { .. } while (writeResult == FR_OK && remainingBytesInPage > 0)` of
`SaveZ80Snapshot`, sending the bytes of `buffer` from `offset` on.  The wait on
`BSP_SD_GetCardState()` after each chunk has no effect on the data and is left out. -/
def writeChunks (env : Env) : Nat → FIL → Mem → Nat → Nat → Option Bool × FIL
  | 0, file, _, _, _ => (none, file)
  | fuel + 1, file, buffer, offset, remainingBytesInPage =>
    let bytesToWrite :=
      if remainingBytesInPage < env.MIN_SS then remainingBytesInPage else env.MIN_SS
    let w := f_write file (slice buffer offset bytesToWrite)
    if w.1 ≠ .FR_OK ∨ w.2.1 ≠ bytesToWrite then (some false, w.2.2)
    else if remainingBytesInPage - w.2.1 > 0 then
      writeChunks env fuel w.2.2 buffer (offset + w.2.1) (remainingBytesInPage - w.2.1)
    else (some true, w.2.2)

/-- The contents of `buffer2` after `case 8:` of `SaveZ80Snapshot`: pixels, transformed
attributes (stored as bytes), then `RamBuffer[0..0x2500)` at offset `0x1B00`. -/
def SaveZ80Snapshot.screenPage (env : Env) (m : Machine) : Mem :=
  let buffer := memcpy m.buffer2 0 m.screen.Pixels 0 m.screen.pixelCount
  let buffer : Mem := fun a =>
    if m.screen.pixelCount ≤ a ∧ a < m.screen.pixelCount + m.screen.attributeCount then
      env.ToSpectrumColor (m.screen.Attributes (a - m.screen.pixelCount)) % 256
    else buffer a
  memcpy buffer 0x1B00 m.RamBuffer 0 0x2500

/-- The body of `for (int i = 0; i < 3; i++)` in `SaveZ80Snapshot` for the page
`pageNumber`; `some false` is a `return false`, `some true` the end of the body.  The local
`pageSize` is the constant `0x4000`, so the record header is always `FF FF pageNumber` (the
`else` branch that would store the size is never taken). -/
def SaveZ80Snapshot.page (env : Env) (m : Machine) (pageNumber : Nat) : Option Bool × Machine :=
  let pageSize := 0x4000
  let m := { m with buffer1 := store m.buffer1 0 [0xFF, 0xFF, pageNumber] }
  let w := f_write m.file (slice m.buffer1 0 3)
  let m := { m with file := w.2.2 }
  if w.1 ≠ .FR_OK ∨ w.2.1 ≠ 3 then (some false, m)
  else
    let m := if pageNumber = 8 then { m with buffer2 := SaveZ80Snapshot.screenPage env m } else m
    let buffer := if pageNumber = 8 then m.buffer2 else m.RamBuffer
    let offset :=
      if pageNumber = 8 then 0 else if pageNumber = 4 then 0x8000 - 0x5B00 else 0xC000 - 0x5B00
    let wr := writeChunks env (pageSize + 1) m.file buffer offset pageSize
    (wr.1, { m with file := wr.2 })

/-- The pages `pages[i..]` of the `for` loop of `SaveZ80Snapshot`. -/
def SaveZ80Snapshot.pages (env : Env) (m : Machine) : List Nat → Option Bool × Machine
  | [] => (some true, m)
  | pageNumber :: rest =>
    match SaveZ80Snapshot.page env m pageNumber with
    | (some true, m) => SaveZ80Snapshot.pages env m rest
    | (r, m) => (r, m)

/-- The function `zx::SaveZ80Snapshot(file, buffer1, buffer2)`. -/
def SaveZ80Snapshot (env : Env) (m : Machine) : Option Bool × Machine :=
  let header := SaveState (FileHeader.read m.buffer1) m.cpu m.screen
  let m := { m with buffer1 := store m.buffer1 0 header.bytes }
  let m := { m with
    buffer1 := store m.buffer1 34 (List.replicate (header.AdditionalBlockLength - 2) 0) }
  let bytesToWrite := 34 + header.AdditionalBlockLength - 2
  let w := f_write m.file (slice m.buffer1 0 bytesToWrite)
  let m := { m with file := w.2.2 }
  if w.1 ≠ .FR_OK ∨ w.2.1 ≠ bytesToWrite then (some false, m)
  else SaveZ80Snapshot.pages env m [8, 4, 5]

/-- The payload `SaveZ80Snapshot` writes for page `pageNumber` from the state `m`. -/
def SaveZ80Snapshot.payload (env : Env) (m : Machine) (pageNumber : Nat) : List Nat :=
  if pageNumber = 8 then slice (SaveZ80Snapshot.screenPage env m) 0 0x4000
  else if pageNumber = 4 then slice m.RamBuffer (0x8000 - 0x5B00) 0x4000
  else slice m.RamBuffer (0xC000 - 0x5B00) 0x4000

/-! ## Sample data -/

/-- The CPU state used to exercise the header round trip. -/
def sampleCpu : Z80_STATE :=
  { A := 0x12, F := 0x34, BC := 0x5678, DE := 0x9ABC, HL := 0xDEF0, SP := 0xFFFE, IX := 0x1111,
    IY := 0x5C3A, altBC := 0x2222, altDE := 0x3333, altHL := 0x4444, altAF := 0xA55A, i := 0x3F,
    r := 0xC5, pc := 0x8000, iff1 := 1, iff2 := 1, im := 2 }

/-- The all-zero CPU state. -/
def zeroCpu : Z80_STATE :=
  { A := 0, F := 0, BC := 0, DE := 0, HL := 0, SP := 0, IX := 0, IY := 0, altBC := 0,
    altDE := 0, altHL := 0, altAF := 0, i := 0, r := 0, pc := 0, iff1 := 0, iff2 := 0, im := 0 }

/-- The all-zero header. -/
def zeroHeader : FileHeader :=
  { A := 0, F := 0, BC := 0, HL := 0, Version := 0, SP := 0, InterruptRegister := 0,
    RefreshRegister := 0, Flags1 := 0, DE := 0, BC_Dash := 0, DE_Dash := 0, HL_Dash := 0,
    A_Dash := 0, F_Dash := 0, IY := 0, IX := 0, InterruptFlipFlop := 0, IFF2 := 0, Flags2 := 0,
    AdditionalBlockLength := 0, PC := 0 }

/-- A blank screen with the geometry of the Spectrum (6144 pixel bytes, 768 attributes). -/
def blankScreen : SpectrumScreen :=
  { Pixels := fun _ => 0, pixelCount := 0x1800, Attributes := fun _ => 0,
    attributeCount := 0x300, BorderColor := 5 }

/-- Collaborators with 512-byte sectors, identity colour transforms and a display call that
leaves the video settings alone. -/
def plainEnv : Env :=
  { MIN_SS := 512, FromSpectrumColor := fun c => c, ToSpectrumColor := fun c => c,
    ShowScreenshot := fun _ s => s }

/-- A file to read `l` from: no device fault, nothing written, no call made yet. -/
def fileOf (l : List Nat) : FIL :=
  { input := l, output := [], room := 0, faultAfter := none, reads := [] }

/-- An empty file on a medium with room for `room` bytes. -/
def blankFile (room : Nat) : FIL :=
  { input := [], output := [], room := room, faultAfter := none, reads := [] }

/-- A machine about to load from the stream `l`: zeroed CPU, blank screen, and scratch
buffers and RAM filled with recognisable bytes. -/
def loadMachine (l : List Nat) : Machine :=
  { cpu := zeroCpu, screen := blankScreen, RamBuffer := fun _ => 0xAA, buffer1 := fun _ => 0xBB,
    buffer2 := fun _ => 0xCC, file := fileOf l }

/-- An 86-byte header area (all zero except the extended-length field, which is 54). -/
def header54 : List Nat := List.replicate 30 0 ++ [54, 0, 0, 0] ++ List.replicate 52 0

/-- The 34-byte header used in the examples: all zero, extended-length field 54. -/
def sampleHeader : List Nat := List.replicate 30 0 ++ [54, 0, 0, 0]

/-- A raw page record: `FF FF`, the page number, the payload. -/
def rawRecord (pageNumber : Nat) (payload : List Nat) : List Nat :=
  [0xFF, 0xFF, pageNumber] ++ payload

/-- A 16384-byte payload that starts with the end marker `00 ED ED 00`. -/
def markedPayload : List Nat := 0x00 :: 0xED :: 0xED :: 0x00 :: List.replicate 16380 0

/-- A stream whose first page record has the unknown identifier 3 and length 1: header area,
then `01 00 03` and the payload byte `55`. -/
def unknownPageStream : List Nat := header54 ++ [1, 0, 3, 0x55]

/-- A stream with a one-byte compressed page 8 after which the file ends. -/
def onePageStream : List Nat := header54 ++ [1, 0, 8, 0x55]

/-- A stream that ends inside the body of its first page: 5 bytes announced, 4 present. -/
def truncatedStream : List Nat := header54 ++ [5, 0, 8, 0xED, 0xED, 3, 7]

/-- A machine about to save: zeroed CPU, blank screen, zeroed scratch buffers, the RAM image
`ram`, and an empty file on a medium with room for `room` bytes. -/
def saveMachine (ram : Mem) (room : Nat) : Machine :=
  { cpu := zeroCpu, screen := blankScreen, RamBuffer := ram, buffer1 := fun _ => 0,
    buffer2 := fun _ => 0, file := blankFile room }

/-- A RAM image that is zero except for `ED ED` at 0x2501, 0x2502, so that page 4 (from
0x2500 on) begins with `00 ED ED 00`. -/
def markedRam : Mem := fun a => if a = 0x2501 ∨ a = 0x2502 then 0xED else 0

/-- A RAM image filled with the byte `01`. -/
def onesRam : Mem := fun _ => 1

/-- A stream in the older layout with extended-length field 23: a 34-byte header, 21 further
bytes, and a one-byte compressed page 8 after which the file ends. -/
def length23Stream : List Nat :=
  List.replicate 30 0 ++ [23, 0, 0, 0] ++ List.replicate 21 0 ++ [1, 0, 8, 0x55]

/-- A 34-byte header, all zero, with extended-length field 23. -/
def header23 : List Nat := List.replicate 30 0 ++ [23, 0, 0, 0]

/-- A page record as it lies in the stream: the two bytes of the length field, the page
number and the body. -/
structure PageRecord where
  lo : Nat
  hi : Nat
  id : Nat
  body : List Nat

/-- The length field of a record as the loaders read it. -/
def PageRecord.size (r : PageRecord) : Nat := (r.lo ||| (r.hi <<< 8)) % 65536

/-- The number of body bytes the loaders read for a record: 16384 for the length field
`0xFFFF`, else the length field. -/
def PageRecord.bodyLength (r : PageRecord) : Nat := if r.size = 0xFFFF then 0x4000 else r.size

/-- A record with a non-zero length field whose body is wholly there. -/
def PageRecord.complete (r : PageRecord) : Prop := 0 < r.size ∧ r.body.length = r.bodyLength

/-- The body of the record fits `buffer1`, into which the loaders read it. -/
def PageRecord.fits (r : PageRecord) : Prop := r.bodyLength ≤ 0x4000

/-- The bytes of a record. -/
def PageRecord.bytes (r : PageRecord) : List Nat := r.lo :: r.hi :: r.id :: r.body

/-- The bytes of a sequence of records. -/
def recordsBytes : List PageRecord → List Nat
  | [] => []
  | r :: rs => r.bytes ++ recordsBytes rs

/-- A stream with a complete page 8 followed by a page 4 that announces 5 bytes and has 2. -/
def screenThenTruncated : List Nat := header54 ++ [1, 0, 8, 0x55] ++ [5, 0, 4, 1, 2]

/-! ## Lemmas on the decoder -/

theorem slice_succ (m : Mem) (off n : Nat) :
    slice m off (n + 1) = m off :: slice m (off + 1) n := by
  simp only [slice, List.range_succ_eq_map, List.map_cons, List.map_map, Nat.add_zero]
  congr 1
  apply List.map_congr_left
  intro a _
  simp only [Function.comp, Nat.succ_eq_add_one]
  congr 1
  omega

theorem slice_zero (m : Mem) (off : Nat) : slice m off 0 = [] := rfl

theorem length_slice (m : Mem) (off n : Nat) : (slice m off n).length = n := by
  simp [slice]

theorem DecompressPage.run_uncapped (v n size : Nat) :
    (DecompressPage.run 0 v n size).1 = List.replicate n v
      ∧ (DecompressPage.run 0 v n size).2.2 = false := by
  induction n generalizing size with
  | zero => simp [DecompressPage.run]
  | succ n ih => simp [DecompressPage.run, ih, List.replicate_succ]

theorem DecompressPage.run_capped (k v : Nat) (hk : k ≤ 65535) (n size : Nat) (hs : size < k) :
    DecompressPage.run k v n size =
      if size + n < k then (List.replicate n v, size + n, false)
      else (List.replicate (k - size) v, k, true) := by
  induction n generalizing size with
  | zero => simp [DecompressPage.run, hs]
  | succ n ih =>
    have h1 : (size + 1) % 65536 = size + 1 := Nat.mod_eq_of_lt (by omega)
    simp only [DecompressPage.run, h1]
    by_cases hge : size + 1 ≥ k
    · have hk' : k = size + 1 := by omega
      subst hk'
      simp
    · rw [if_neg (by omega), ih (size + 1) (by omega)]
      by_cases hlt : size + (n + 1) < k
      · rw [if_pos (by omega), if_pos hlt]
        simp [List.replicate_succ]
        omega
      · rw [if_neg (by omega), if_neg hlt]
        have : k - size = (k - (size + 1)) + 1 := by omega
        simp [this, List.replicate_succ]

/-- Without a cap the counter `size` has no influence on what is stored. -/
theorem DecompressPage.loop_uncapped_size (page : Mem) (L : Nat) (c : Bool) :
    ∀ fuel i s s0, DecompressPage.loop page L c 0 fuel i s
      = DecompressPage.loop page L c 0 fuel i s0 := by
  intro fuel
  induction fuel with
  | zero => intros; rfl
  | succ fuel ih =>
    intro i s s0
    simp only [DecompressPage.loop, Nat.lt_irrefl, false_and, if_false,
      (DecompressPage.run_uncapped _ _ _).1, (DecompressPage.run_uncapped _ _ _).2]
    rw [ih (i + 4) _ 0, ih (i + 1) _ 0]
    rw [ih (i + 4) (DecompressPage.run 0 (page (i + 3)) (page (i + 2)) s0).2.1 0,
      ih (i + 1) ((s0 + 1) % 65536) 0]

/-- One iteration of the outer loop when no cap is set. -/
theorem DecompressPage.loop_uncapped_succ (page : Mem) (L : Nat) (c : Bool) (fuel i s : Nat) :
    DecompressPage.loop page L c 0 (fuel + 1) i s =
      if i < L then
        if i + 4 < L ∧ page i = 0x00 ∧ page (i + 1) = 0xED ∧ page (i + 2) = 0xED
            ∧ page (i + 3) = 0x00 then []
        else if i + 4 < L ∧ c = true ∧ page i = 0xED ∧ page (i + 1) = 0xED then
          List.replicate (page (i + 2)) (page (i + 3))
            ++ DecompressPage.loop page L c 0 fuel (i + 4) 0
        else page i :: DecompressPage.loop page L c 0 fuel (i + 1) 0
      else [] := by
  simp only [DecompressPage.loop, Nat.lt_irrefl, false_and, if_false, Bool.false_eq_true,
    (DecompressPage.run_uncapped _ _ _).1, (DecompressPage.run_uncapped _ _ _).2]
  rw [DecompressPage.loop_uncapped_size page L c fuel (i + 4) _ 0,
    DecompressPage.loop_uncapped_size page L c fuel (i + 1) _ 0]

/-- With a cap `k` the loop stores the first `k - size` bytes of what it stores uncapped. -/
theorem DecompressPage.loop_capped (page : Mem) (L : Nat) (c : Bool) (k : Nat)
    (hk : k ≤ 65535) :
    ∀ fuel i size, size < k →
      DecompressPage.loop page L c k fuel i size
        = (DecompressPage.loop page L c 0 fuel i 0).take (k - size) := by
  intro fuel
  induction fuel with
  | zero => intros; simp [DecompressPage.loop]
  | succ fuel ih =>
    intro i size hs
    rw [DecompressPage.loop_uncapped_succ]
    simp only [DecompressPage.loop]
    by_cases hi : i < L
    · rw [if_pos hi, if_pos hi]
      by_cases ht : i + 4 < L ∧ page i = 0x00 ∧ page (i + 1) = 0xED ∧ page (i + 2) = 0xED
          ∧ page (i + 3) = 0x00
      · rw [if_pos ht, if_pos ht, List.take_nil]
      · rw [if_neg ht, if_neg ht]
        by_cases he : i + 4 < L ∧ c = true ∧ page i = 0xED ∧ page (i + 1) = 0xED
        · rw [if_pos he, if_pos he, DecompressPage.run_capped k _ hk _ _ hs]
          by_cases hlt : size + page (i + 2) < k
          · rw [if_pos hlt]
            simp only [Bool.false_eq_true, if_false]
            have hlen : (List.replicate (page (i + 2)) (page (i + 3))).length ≤ k - size := by
              rw [List.length_replicate]; omega
            have hsub : k - size - page (i + 2) = k - (size + page (i + 2)) := by omega
            rw [ih (i + 4) _ hlt, List.take_append_eq_append_take, List.length_replicate,
              List.take_of_length_le hlen, hsub]
          · rw [if_neg hlt]
            simp only [if_true]
            have hsub : k - size - page (i + 2) = 0 := by omega
            have hmin : min (k - size) (page (i + 2)) = k - size := by omega
            rw [List.take_append_eq_append_take, List.length_replicate, List.take_replicate,
              hsub, List.take_zero, List.append_nil, hmin]
        · rw [if_neg he, if_neg he]
          have h1 : (size + 1) % 65536 = size + 1 := Nat.mod_eq_of_lt (by omega)
          simp only [h1]
          by_cases hge : size + 1 ≥ k
          · have hk1 : k - size = 1 := by omega
            rw [if_pos ⟨by omega, hge⟩, hk1]
            rfl
          · have hk1 : k - size = (k - (size + 1)) + 1 := by omega
            rw [if_neg (by omega), ih (i + 1) _ (by omega), hk1, List.take_succ_cons]
    · rw [if_neg hi, if_neg hi, List.take_nil]

/-- Fuel beyond `pageLength - i` is never used. -/
theorem DecompressPage.loop_fuel_succ (page : Mem) (L : Nat) (c : Bool) (k : Nat) :
    ∀ fuel i size, L ≤ i + fuel →
      DecompressPage.loop page L c k (fuel + 1) i size
        = DecompressPage.loop page L c k fuel i size := by
  intro fuel
  induction fuel with
  | zero =>
    intro i size h
    simp only [DecompressPage.loop]
    rw [if_neg (by omega)]
  | succ fuel ih =>
    intro i size h
    rw [DecompressPage.loop]
    conv_rhs => rw [DecompressPage.loop]
    dsimp only
    rw [ih (i + 4) _ (by omega), ih (i + 1) _ (by omega)]

theorem DecompressPage.loop_fuel_add (page : Mem) (L : Nat) (c : Bool) (k : Nat)
    (fuel i size : Nat) (h : L ≤ i + fuel) (extra : Nat) :
    DecompressPage.loop page L c k (fuel + extra) i size
      = DecompressPage.loop page L c k fuel i size := by
  induction extra with
  | zero => rfl
  | succ e ih =>
    rw [← Nat.add_assoc, DecompressPage.loop_fuel_succ page L c k (fuel + e) i size (by omega), ih]

/-- The decoder reads `page` only below `pageLength`. -/
theorem DecompressPage.loop_congr (p q : Mem) (L : Nat) (c : Bool) (k : Nat)
    (hpq : ∀ j, j < L → p j = q j) :
    ∀ fuel i size, DecompressPage.loop p L c k fuel i size
      = DecompressPage.loop q L c k fuel i size := by
  intro fuel
  induction fuel with
  | zero => intros; rfl
  | succ fuel ih =>
    intro i size
    simp only [DecompressPage.loop]
    by_cases hi : i < L
    · rw [if_pos hi, if_pos hi]
      by_cases h4 : i + 4 < L
      · rw [hpq i hi, hpq (i + 1) (by omega), hpq (i + 2) (by omega), hpq (i + 3) (by omega),
          ih, ih]
      · simp only [h4, false_and, if_false]
        rw [hpq i hi, ih]
    · rw [if_neg hi, if_neg hi]

theorem DecompressPage_congr (p q : Mem) (L : Nat) (c : Bool) (k : Nat)
    (hpq : ∀ j, j < L → p j = q j) : DecompressPage p L c k = DecompressPage q L c k :=
  DecompressPage.loop_congr p q L c k hpq L 0 0

/-- A raw page in which the end-marker test never fires is copied to the end. -/
theorem DecompressPage.loop_raw (page : Mem) (L : Nat)
    (hno : ∀ j, j + 4 < L → ¬ endMarkerAt page j) :
    ∀ fuel i s, L ≤ i + fuel →
      DecompressPage.loop page L false 0 fuel i s = slice page i (L - i) := by
  intro fuel
  induction fuel with
  | zero =>
    intro i s h
    have h0 : L - i = 0 := by omega
    rw [h0]; rfl
  | succ fuel ih =>
    intro i s h
    rw [DecompressPage.loop_uncapped_succ]
    by_cases hi : i < L
    · have hL : L - i = (L - (i + 1)) + 1 := by omega
      rw [if_pos hi, if_neg (fun hh => hno i hh.1 hh.2), if_neg (by simp), ih (i + 1) 0 (by omega),
        hL, slice_succ]
    · have h0 : L - i = 0 := by omega
      rw [if_neg hi, h0]; rfl

theorem slice_ofList (l : List Nat) (n : Nat) (h : n ≤ l.length) :
    slice (ofList l) 0 n = l.take n := by
  apply List.ext_getElem
  · simp [slice, h]
  · intro i h1 h2
    simp only [slice, length_slice, List.length_map, List.length_range] at h1
    have hi : i < l.length := by omega
    simp [slice, ofList, List.getElem?_eq_getElem hi]

theorem endMarkerAt_contained (l : List Nat) (i : Nat) (hi : i + 3 < l.length)
    (h : endMarkerAt (ofList l) i) : [0x00, 0xED, 0xED, 0x00] <:+: l := by
  obtain ⟨h0, h1, h2, h3⟩ := h
  simp only [ofList] at h0 h1 h2 h3
  rw [List.getD_eq_getElem l 0 (show i < l.length by omega)] at h0
  rw [List.getD_eq_getElem l 0 (show i + 1 < l.length by omega)] at h1
  rw [List.getD_eq_getElem l 0 (show i + 2 < l.length by omega)] at h2
  rw [List.getD_eq_getElem l 0 (show i + 3 < l.length by omega)] at h3
  refine ⟨l.take i, l.drop (i + 4), ?_⟩
  have hd : l.drop i = 0x00 :: 0xED :: 0xED :: 0x00 :: l.drop (i + 4) := by
    rw [List.drop_eq_getElem_cons (show i < l.length by omega), h0,
      List.drop_eq_getElem_cons (show i + 1 < l.length by omega), h1,
      List.drop_eq_getElem_cons (show i + 1 + 1 < l.length by omega), h2,
      List.drop_eq_getElem_cons (show i + 1 + 1 + 1 < l.length by omega), h3]
  calc l.take i ++ [0x00, 0xED, 0xED, 0x00] ++ l.drop (i + 4)
      = l.take i ++ (0x00 :: 0xED :: 0xED :: 0x00 :: l.drop (i + 4)) := by simp
    _ = l.take i ++ l.drop i := by rw [hd]
    _ = l := List.take_append_drop i l

/-- A raw page without the end marker, given as a list, is copied whole. -/
theorem DecompressPage_raw_uncapped (l : List Nat)
    (hno : ¬ [0x00, 0xED, 0xED, 0x00] <:+: l) :
    DecompressPage (ofList l) l.length false 0 = l := by
  have h := DecompressPage.loop_raw (ofList l) l.length
    (fun j hj hm => hno (endMarkerAt_contained l j (by omega) hm)) l.length 0 0 (by omega)
  rw [DecompressPage, h, Nat.sub_zero, slice_ofList l l.length (Nat.le_refl _), List.take_length]

/-- An end marker with at least one byte after it stops the decoder at once. -/
theorem DecompressPage_endMarker_stops (rest : List Nat) (hne : rest ≠ []) (c : Bool)
    (maxSize : Nat) :
    DecompressPage (ofList (0x00 :: 0xED :: 0xED :: 0x00 :: rest)) (4 + rest.length) c maxSize
      = [] := by
  have hpos : 0 < rest.length := List.length_pos.mpr hne
  obtain ⟨n, hn⟩ : ∃ n, 4 + rest.length = n + 1 := ⟨3 + rest.length, by omega⟩
  rw [DecompressPage, hn, DecompressPage.loop, ← hn]
  rw [if_pos (by omega), if_pos ⟨by omega, by simp [ofList], by simp [ofList], by simp [ofList],
    by simp [ofList]⟩]

/-! ## Properties of the decoder -/

/-- C3 (code defect): the 4-byte page `ED ED n v` is not expanded.  At `i = 0` the guard
`i < pageLength - 4` is `0 < 0`, so the escape test is skipped for the whole page and the
four bytes are stored verbatim; in particular `ED ED 05 00` does not give five zero bytes
and `ED ED 02 ED` does not give two `ED` bytes. -/
theorem DecompressPage_escape_at_page_end :
    (∀ n v : Nat, DecompressPage (ofList [0xED, 0xED, n, v]) 4 true 0 = [0xED, 0xED, n, v])
      ∧ DecompressPage (ofList [0xED, 0xED, 5, 0]) 4 true 0 ≠ List.replicate 5 0
      ∧ DecompressPage (ofList [0xED, 0xED, 2, 0xED]) 4 true 0 ≠ List.replicate 2 0xED := by
  refine ⟨?_, by decide, by decide⟩
  intro n v
  simp [DecompressPage, DecompressPage.loop, ofList]

/-- C4: a raw page is not decoded verbatim when it contains the end marker.  The raw 5-byte
page `00 ED ED 00 01` is not copied; the decoder stops at the marker in its first four
bytes and stores nothing, although the page is not compressed. -/
theorem DecompressPage_raw_not_verbatim :
    DecompressPage (ofList [0x00, 0xED, 0xED, 0x00, 0x01]) 5 false 0 = []
      ∧ ¬ (DecompressPage (ofList [0x00, 0xED, 0xED, 0x00, 0x01])
            [0x00, 0xED, 0xED, 0x00, 0x01].length false 0
          = [0x00, 0xED, 0xED, 0x00, 0x01].take [0x00, 0xED, 0xED, 0x00, 0x01].length) := by
  constructor <;> decide

/-- Raw pages free of the end marker: a raw page (`isCompressed = false`) that nowhere contains the four
consecutive bytes `00 ED ED 00` is decoded to its first `N` bytes, where `N` is the page
length when `maxSize = 0` and the smaller of page length and `maxSize` otherwise. -/
theorem DecompressPage_raw_verbatim (l : List Nat) (maxSize : Nat) (hL : l.length ≤ 65535)
    (hm : maxSize ≤ 65535) (hno : ¬ [0x00, 0xED, 0xED, 0x00] <:+: l) :
    DecompressPage (ofList l) l.length false maxSize
      = l.take (if maxSize = 0 then l.length else min l.length maxSize) := by
  by_cases h0 : maxSize = 0
  · subst h0
    rw [DecompressPage_raw_uncapped l hno, if_pos rfl, List.take_length]
  · have hcap := DecompressPage.loop_capped (ofList l) l.length false maxSize hm l.length 0 0
      (by omega)
    have hraw := DecompressPage_raw_uncapped l hno
    rw [DecompressPage] at hraw
    rw [DecompressPage, hcap, hraw, if_neg h0, Nat.sub_zero]
    have hlen : l.length ≤ 65535 := hL
    rw [List.take_eq_take]
    omega

/-- A marker-free raw page under a cap: with cap 2 the raw page `01 02 03` gives `01 02`. -/
theorem DecompressPage_raw_verbatim_witness :
    DecompressPage (ofList [1, 2, 3]) [1, 2, 3].length false 2
      = [1, 2, 3].take (if 2 = 0 then [1, 2, 3].length else min [1, 2, 3].length 2) :=
  DecompressPage_raw_verbatim [1, 2, 3] 2 (by decide) (by decide) (by decide)

/-- C5 (code defect): the page that consists of the end marker `00 ED ED 00` alone does not
stop the decoder.  The marker is only looked for while `i < pageLength - 4`, which needs
five bytes from `i` on; with exactly four the bytes are stored verbatim, whatever
`isCompressed` is. -/
theorem DecompressPage_endMarker_at_page_end :
    ∀ c : Bool, DecompressPage (ofList [0x00, 0xED, 0xED, 0x00]) 4 c 0
      = [0x00, 0xED, 0xED, 0x00] := by
  decide

/-- C6: with a cap `1 ≤ k ≤ 65535` the decoder stores exactly the first `k` bytes of what it
stores without a cap (all of it when that is shorter), so never more than `k` bytes. -/
theorem DecompressPage_output_cap (page : Mem) (pageLength : Nat) (isCompressed : Bool)
    (k : Nat) (h1 : 1 ≤ k) (h2 : k ≤ 65535) :
    DecompressPage page pageLength isCompressed k
        = (DecompressPage page pageLength isCompressed 0).take k
      ∧ (DecompressPage page pageLength isCompressed k).length ≤ k := by
  have h := DecompressPage.loop_capped page pageLength isCompressed k h2 pageLength 0 0
    (by omega)
  rw [Nat.sub_zero] at h
  refine ⟨h, ?_⟩
  rw [DecompressPage, h, List.length_take]
  exact Nat.min_le_left _ _

/-- C6 at a concrete page: the run `ED ED 09 02` after a literal `01`, capped at 4 bytes, is
cut inside the run. -/
theorem DecompressPage_output_cap_witness :
    DecompressPage (ofList [1, 0xED, 0xED, 9, 2, 3]) 6 true 4
        = (DecompressPage (ofList [1, 0xED, 0xED, 9, 2, 3]) 6 true 0).take 4
      ∧ (DecompressPage (ofList [1, 0xED, 0xED, 9, 2, 3]) 6 true 4).length ≤ 4 :=
  DecompressPage_output_cap (ofList [1, 0xED, 0xED, 9, 2, 3]) 6 true 4 (by decide) (by decide)

/-! ## Properties of the header codec -/

set_option maxRecDepth 100000 in
theorem flags1_bits : ∀ r, r < 256 → ∀ b, b < 8 →
    (((r &&& 0x80) >>> 7) ||| (b <<< 1)) % 256 ≠ 255 ∧
    ((r % 256) &&& 0x7F) ||| (((((r &&& 0x80) >>> 7) ||| (b <<< 1)) % 256) &&& 0x01) <<< 7 = r ∧
    (((((r &&& 0x80) >>> 7) ||| (b <<< 1)) % 256) &&& 0x0E) >>> 1 = b ∧
    (((r &&& 0x80) >>> 7) ||| (b <<< 1)) % 256 ≤ 15 := by
  decide

theorem altAF_bytes (af : Nat) (h : af < 65536) :
    ((af &&& 0xFF) ||| ((((af &&& 0xFF00) >>> 8) % 256) <<< 8)) % 65536 = af := by
  apply Nat.eq_of_testBit_eq
  intro i
  have e1 : (65536 : Nat) = 2 ^ 16 := by norm_num
  have e2 : (256 : Nat) = 2 ^ 8 := by norm_num
  have e3 : (0xFF : Nat) = 2 ^ 8 - 1 := by norm_num
  have e4 : (0xFF00 : Nat) = (2 ^ 8 - 1) <<< 8 := by decide
  rw [e1, e2, e3, e4]
  simp only [Nat.testBit_mod_two_pow, Nat.testBit_or, Nat.testBit_and, Nat.testBit_shiftLeft,
    Nat.testBit_shiftRight, Nat.testBit_two_pow_sub_one]
  by_cases h16 : i < 16
  · by_cases h8 : i < 8
    · simp [h16, h8]
    · have h88 : 8 + (i - 8) = i := by omega
      have h89 : i - 8 < 8 := by omega
      have h8le : 8 ≤ i := by omega
      simp [h16, h8, h88, h89, h8le]
  · have : af.testBit i = false := Nat.testBit_lt_two_pow (lt_of_lt_of_le h (by
      rw [e1]; exact Nat.pow_le_pow_right (by norm_num) (by omega)))
    simp [h16, this]

theorem im_bits : ∀ m, m ≤ 2 → ((m &&& 0x03) % 256) &&& 0x3 = m := by decide

/-- C7: `ReadState` applied to the header written by `SaveState` gives back the CPU state:
every field it covers (A, F, BC, DE, HL, SP, IX, IY, I, the full R, IM, the alternate
pairs, IFF1, IFF2, PC) has its original value, provided I, R, IFF1, IFF2 fit in 8 bits, PC
and the 16-bit alternate AF in 16 bits, and the interrupt mode is 0, 1 or 2. -/
theorem ReadState_SaveState (env : Env) (cpu cpu0 : Z80_STATE) (screen screen0 : SpectrumScreen)
    (header0 : FileHeader) (hAF : cpu.altAF < 65536)
    (hi : cpu.i < 256) (hr : cpu.r < 256) (hiff1 : cpu.iff1 < 256) (hiff2 : cpu.iff2 < 256)
    (hpc : cpu.pc < 65536) (him : cpu.im ≤ 2) :
    (ReadState env (SaveState header0 cpu screen) cpu0 screen0).2.1 = cpu := by
  have hb : screen.BorderColor &&& 0x07 < 8 := Nat.lt_succ_of_le Nat.and_le_right
  obtain ⟨hne, hrr, _, _⟩ := flags1_bits cpu.r hr _ hb
  have hflag : (SaveState header0 cpu screen).Flags1 ≠ 255 := hne
  cases cpu with
  | mk A F BC DE HL SP IX IY altBC altDE altHL altAF i r pc iff1 iff2 im =>
    simp only [ReadState, if_neg hflag]
    simp only [SaveState] at hrr ⊢
    simp only at hAF hi hr hiff1 hiff2 hpc him hrr
    rw [hrr, altAF_bytes altAF hAF, im_bits im him, Nat.mod_eq_of_lt hi, Nat.mod_eq_of_lt hiff1,
      Nat.mod_eq_of_lt hiff2, Nat.mod_eq_of_lt hpc]

/-- C7 at a concrete CPU state (R = 0xC5 has bit 7 set, IM = 2). -/
theorem ReadState_SaveState_witness :
    (ReadState plainEnv (SaveState zeroHeader sampleCpu blankScreen) zeroCpu blankScreen).2.1
      = sampleCpu :=
  ReadState_SaveState plainEnv sampleCpu zeroCpu blankScreen blankScreen zeroHeader
    (by decide) (by decide) (by decide) (by decide) (by decide) (by decide) (by decide)

/-- C8: a flags byte of `0xFF` is read exactly like `0x01`: header, CPU state and video
settings come out the same, bit 7 of R is set, and the border index handed to
`FromSpectrumColor` is 0. -/
theorem ReadState_flags_sentinel (env : Env) (header : FileHeader) (cpu : Z80_STATE)
    (screen : SpectrumScreen) :
    ReadState env { header with Flags1 := 0xFF } cpu screen
        = ReadState env { header with Flags1 := 0x01 } cpu screen
      ∧ (ReadState env { header with Flags1 := 0xFF } cpu screen).2.1.r.testBit 7 = true
      ∧ ReadState.borderColor { header with Flags1 := 0xFF } = 0
      ∧ (ReadState env { header with Flags1 := 0xFF } cpu screen).2.2.BorderColor
          = env.FromSpectrumColor 0 := by
  refine ⟨by simp [ReadState], ?_, by simp [ReadState.borderColor], by simp [ReadState]⟩
  simp only [ReadState, if_true, Nat.testBit_or]
  have h : ((1 &&& 0x01) <<< 7 : Nat).testBit 7 = true := by decide
  rw [h, Bool.or_true]

/-! ## Lemmas on storage and the page loop -/

theorem store_apply_lt (m : Mem) (off : Nat) (l : List Nat) (a : Nat) (h : a < off) :
    store m off l a = m a := by
  simp only [store]
  rw [if_neg (by omega)]

theorem store_apply_ge (m : Mem) (off : Nat) (l : List Nat) (a : Nat) (h : off + l.length ≤ a) :
    store m off l a = m a := by
  simp only [store]
  rw [if_neg (by omega)]

theorem store_apply_in (m : Mem) (off : Nat) (l : List Nat) (a : Nat) (h1 : off ≤ a)
    (h2 : a < off + l.length) : store m off l a = l.getD (a - off) 0 := by
  simp only [store]
  rw [if_pos ⟨h1, h2⟩]

theorem store_apply_off (m : Mem) (off : Nat) (l : List Nat) (i : Nat) (h : i < l.length) :
    store m off l (off + i) = l.getD i 0 := by
  rw [store_apply_in _ _ _ _ (by omega) (by omega)]
  congr 1
  omega

theorem store_store_append (m : Mem) (off : Nat) (a b : List Nat) :
    store (store m off a) (off + a.length) b = store m off (a ++ b) := by
  funext x
  by_cases h1 : x < off
  · rw [store_apply_lt _ _ _ _ (by omega), store_apply_lt _ _ _ _ h1, store_apply_lt _ _ _ _ h1]
  · by_cases h2 : x < off + a.length
    · rw [store_apply_lt _ _ _ _ h2, store_apply_in _ _ _ _ (by omega) h2,
        store_apply_in _ _ _ _ (by omega) (by rw [List.length_append]; omega),
        List.getD_append _ _ _ _ (by omega)]
    · by_cases h3 : x < off + a.length + b.length
      · rw [store_apply_in _ _ _ _ (by omega) h3,
          store_apply_in _ _ _ _ (by omega) (by rw [List.length_append]; omega),
          List.getD_append_right _ _ _ _ (by omega)]
        congr 1
        omega
      · rw [store_apply_ge _ _ _ _ (by omega), store_apply_ge _ _ _ _ (by omega),
          store_apply_ge _ _ _ _ (by rw [List.length_append]; omega)]

theorem store_nil (m : Mem) (off : Nat) : store m off [] = m := by
  funext x
  simp [store]

theorem slice_eq_of_forall (m : Mem) (off : Nat) (l : List Nat)
    (h : ∀ i, i < l.length → m (off + i) = l.getD i 0) : slice m off l.length = l := by
  apply List.ext_getElem
  · exact length_slice m off l.length
  · intro i h1 h2
    simp only [slice, List.getElem_map, List.getElem_range]
    rw [h i h2, List.getD_eq_getElem l 0 h2]

theorem slice_getD (m : Mem) (off n i : Nat) (h : i < n) :
    (slice m off n).getD i 0 = m (off + i) := by
  rw [List.getD_eq_getElem _ 0 (by rw [length_slice]; exact h)]
  simp [slice]

theorem slice_store (m : Mem) (off : Nat) (l : List Nat) : slice (store m off l) off l.length = l :=
  slice_eq_of_forall _ _ _ (fun i hi => by
    rw [store_apply_in _ _ _ _ (by omega) (by omega)]
    congr 1
    omega)

theorem slice_congr (m m' : Mem) (off off' n : Nat)
    (h : ∀ i, i < n → m (off + i) = m' (off' + i)) : slice m off n = slice m' off' n := by
  simp only [slice]
  apply List.map_congr_left
  intro a ha
  exact h a (List.mem_range.mp ha)

/-! ### `f_read` on a device without fault -/

theorem f_read_ok (file : FIL) (site : Site) (off n : Nat) (h : file.faultAfter = none) :
    (f_read file site off n).1 = .FR_OK ∧ (f_read file site off n).2.1 = file.input.take n
      ∧ (f_read file site off n).2.2.input = file.input.drop n
      ∧ (f_read file site off n).2.2.faultAfter = none := by
  simp [f_read, h]

/-- A page body that is fully present is read chunk by chunk into `buffer1`. -/
theorem readChunks_complete (env : Env) (hss : 0 < env.MIN_SS) :
    ∀ fuel (file : FIL) (buf : Mem) (off n : Nat), file.faultAfter = none →
      n ≤ file.input.length → n < fuel →
      (readChunks env fuel file buf off n).1 = some true
        ∧ (readChunks env fuel file buf off n).2.1.input = file.input.drop n
        ∧ (readChunks env fuel file buf off n).2.1.faultAfter = none
        ∧ (readChunks env fuel file buf off n).2.2 = store buf off (file.input.take n) := by
  intro fuel
  induction fuel with
  | zero => intro file buf off n _ _ h; omega
  | succ fuel ih =>
    intro file buf off n hf hn hfuel
    by_cases hlt : env.MIN_SS < n
    · have hc : (if n < env.MIN_SS then n else env.MIN_SS) = env.MIN_SS := by
        rw [if_neg (by omega)]
      obtain ⟨r1, r2, r3, r4⟩ := f_read_ok file .body off env.MIN_SS hf
      have hlen : (List.take env.MIN_SS file.input).length = env.MIN_SS := by
        rw [List.length_take]; omega
      simp only [readChunks, hc]
      rw [r1, r2, hlen, if_neg (by simp), if_pos (by omega)]
      obtain ⟨i1, i2, i3, i4⟩ := ih (f_read file Site.body off env.MIN_SS).2.2
        (store buf off (List.take env.MIN_SS file.input)) (off + env.MIN_SS) (n - env.MIN_SS)
        r4 (by rw [r3, List.length_drop]; omega) (by omega)
      refine ⟨i1, ?_, i3, ?_⟩
      · rw [i2, r3, List.drop_drop]
        congr 1
        omega
      · rw [i4, r3]
        have hl : off + env.MIN_SS = off + (List.take env.MIN_SS file.input).length := by
          rw [hlen]
        rw [hl, store_store_append]
        have hsplit : List.take n file.input
            = List.take env.MIN_SS file.input
              ++ List.take (n - env.MIN_SS) (List.drop env.MIN_SS file.input) := by
          rw [← List.take_add]
          congr 1
          omega
        rw [hsplit]
    · have hc : (if n < env.MIN_SS then n else env.MIN_SS) = n := by
        split_ifs <;> omega
      obtain ⟨r1, r2, r3, r4⟩ := f_read_ok file .body off n hf
      have hlen : (List.take n file.input).length = n := by
        rw [List.length_take]; omega
      simp only [readChunks, hc]
      rw [r1, r2, hlen, if_neg (by simp), if_neg (by omega)]
      exact ⟨rfl, r3, r4, rfl⟩

/-- One pass over a raw record: the 16384 payload bytes `P` are read, what the decoder makes
of them is stored at the place of page `pn`, and the next three bytes decide how the loop
goes on. -/
theorem LoadZ80Snapshot.body_raw (env : Env) (hss : 0 < env.MIN_SS) (m : Machine) (pn : Nat) (P rest : List Nat)
    (hpn : pn = 8 ∨ pn = 4 ∨ pn = 5) (hf : m.file.faultAfter = none)
    (hin : m.file.input = P ++ rest) (hlen : P.length = 0x4000) :
    ∃ m' : Machine,
      LoadZ80Snapshot.body env m 0xFFFF pn
          = (if (if (rest.take 3).length = 3 then
                  (ofList (rest.take 3) 0 ||| (ofList (rest.take 3) 1 <<< 8)) % 65536 else 0) > 0
              then
                Step.again m'
                  (if (rest.take 3).length = 3 then
                    (ofList (rest.take 3) 0 ||| (ofList (rest.take 3) 1 <<< 8)) % 65536 else 0)
                  (if (rest.take 3).length = 3 then ofList (rest.take 3) 2 else pn)
            else Step.ret true m')
        ∧ m'.file.input = rest.drop 3 ∧ m'.file.faultAfter = none
        ∧ m'.buffer2 = (if pn = 8 then store m.buffer2 0 (rawDecode P) else m.buffer2)
        ∧ m'.RamBuffer = (if pn = 8 then memcpy m.RamBuffer 0 (store m.buffer2 0 (rawDecode P)) 0x1B00 0x2500
            else if pn = 4 then store m.RamBuffer 0x2500 (rawDecode P)
            else store m.RamBuffer 0x6500 (rawDecode P)) := by
  obtain ⟨c1, c2, c3, c4⟩ := readChunks_complete env hss (0x4000 + 1) m.file m.buffer1 0 0x4000 hf
    (by rw [hin, List.length_append, hlen]; omega) (by omega)
  have htake : m.file.input.take 0x4000 = P := by rw [hin, ← hlen, List.take_left]
  have hdrop : m.file.input.drop 0x4000 = rest := by rw [hin, ← hlen, List.drop_left]
  rw [htake] at c4
  rw [hdrop] at c2
  have hdec : DecompressPage (store m.buffer1 0 P) 0x4000 false 0 = rawDecode P := by
    refine DecompressPage_congr _ (ofList P) 0x4000 false 0 ?_
    intro j hj
    rw [store_apply_in _ _ _ _ (by omega) (by omega)]
    rfl
  obtain ⟨q1, q2, q3, q4⟩ := f_read_ok (readChunks env (0x4000 + 1) m.file m.buffer1 0 0x4000).2.1
    .nextPage 0 3 c3
  rw [c2] at q2 q3
  have hb : ∀ i, i < 3 → (rest.take 3).length = 3 →
      store (store m.buffer1 0 P) 0 (rest.take 3) i = ofList (rest.take 3) i := by
    intro i hi hl
    rw [store_apply_in _ _ _ _ (by omega) (by omega)]
    rfl
  have hpn' : pn = 8 ∨ pn = 4 ∨ pn = 5 := hpn
  simp only [LoadZ80Snapshot.body, ne_eq, not_true_eq_false, decide_False, if_true, hpn', c1, c4,
    hdec, q1, q2, if_false]
  by_cases hl : (rest.take 3).length = 3
  · simp only [hl, if_true, hb 0 (by omega) hl, hb 1 (by omega) hl, hb 2 (by omega) hl]
    refine Exists.intro ?w ⟨?h1, ?h2, ?h3, ?h4, ?h5⟩
    case h1 => exact rfl
    case h2 => exact q3
    case h3 => exact q4
    case h4 => exact rfl
    case h5 => rcases hpn with rfl | rfl | rfl <;> simp
  · simp only [hl, if_false]
    refine Exists.intro ?w ⟨?h1, ?h2, ?h3, ?h4, ?h5⟩
    case h1 => exact rfl
    case h2 => exact q3
    case h3 => exact q4
    case h4 => exact rfl
    case h5 => rcases hpn with rfl | rfl | rfl <;> simp

/-- A raw record followed by the three bytes `a b c` of another page header. -/
theorem LoadZ80Snapshot.body_raw_next (env : Env) (hss : 0 < env.MIN_SS) (m : Machine) (pn : Nat)
    (P : List Nat) (a b c : Nat) (rest : List Nat)
    (hpn : pn = 8 ∨ pn = 4 ∨ pn = 5) (hf : m.file.faultAfter = none)
    (hin : m.file.input = P ++ a :: b :: c :: rest) (hlen : P.length = 0x4000) :
    ∃ m' : Machine,
      LoadZ80Snapshot.body env m 0xFFFF pn
          = (if (a ||| (b <<< 8)) % 65536 > 0 then Step.again m' ((a ||| (b <<< 8)) % 65536) c
            else Step.ret true m')
        ∧ m'.file.input = rest ∧ m'.file.faultAfter = none
        ∧ m'.buffer2 = (if pn = 8 then store m.buffer2 0 (rawDecode P) else m.buffer2)
        ∧ m'.RamBuffer = (if pn = 8 then memcpy m.RamBuffer 0 (store m.buffer2 0 (rawDecode P)) 0x1B00 0x2500
            else if pn = 4 then store m.RamBuffer 0x2500 (rawDecode P)
            else store m.RamBuffer 0x6500 (rawDecode P)) := by
  obtain ⟨m', h1, h2, h3, h4, h5⟩ :=
    LoadZ80Snapshot.body_raw env hss m pn P (a :: b :: c :: rest) hpn hf hin hlen
  refine ⟨m', ?_, ?_, h3, h4, h5⟩
  · rw [h1]
    simp [ofList]
  · rw [h2]
    rfl

/-- A raw record followed by fewer than three bytes: the loop ends with success. -/
theorem LoadZ80Snapshot.body_raw_last (env : Env) (hss : 0 < env.MIN_SS) (m : Machine) (pn : Nat)
    (P rest : List Nat) (hrest : rest.length < 3)
    (hpn : pn = 8 ∨ pn = 4 ∨ pn = 5) (hf : m.file.faultAfter = none)
    (hin : m.file.input = P ++ rest) (hlen : P.length = 0x4000) :
    ∃ m' : Machine,
      LoadZ80Snapshot.body env m 0xFFFF pn = Step.ret true m'
        ∧ m'.buffer2 = (if pn = 8 then store m.buffer2 0 (rawDecode P) else m.buffer2)
        ∧ m'.RamBuffer = (if pn = 8 then memcpy m.RamBuffer 0 (store m.buffer2 0 (rawDecode P)) 0x1B00 0x2500
            else if pn = 4 then store m.RamBuffer 0x2500 (rawDecode P)
            else store m.RamBuffer 0x6500 (rawDecode P)) := by
  obtain ⟨m', h1, _, _, h4, h5⟩ :=
    LoadZ80Snapshot.body_raw env hss m pn P rest hpn hf hin hlen
  refine ⟨m', ?_, h4, h5⟩
  rw [h1]
  have hl : ¬ (rest.take 3).length = 3 := by
    rw [List.length_take]; omega
  simp only [hl, if_false]
  rfl

theorem LoadZ80Snapshot.loop_again (env : Env) (fuel : Nat) (m m' : Machine)
    (ps pn ps' pn' : Nat) (h : LoadZ80Snapshot.body env m ps pn = Step.again m' ps' pn') :
    LoadZ80Snapshot.loop env (fuel + 1) m ps pn = LoadZ80Snapshot.loop env fuel m' ps' pn' := by
  simp only [LoadZ80Snapshot.loop, h]

theorem LoadZ80Snapshot.loop_ret (env : Env) (fuel : Nat) (m m' : Machine) (ps pn : Nat)
    (r : Bool) (h : LoadZ80Snapshot.body env m ps pn = Step.ret r m') :
    LoadZ80Snapshot.loop env (fuel + 1) m ps pn = (some r, m') := by
  simp only [LoadZ80Snapshot.loop, h]

/-- The two header reads of `LoadZ80Snapshot` on a stream that starts with a 34-byte header
declaring 54 extension bytes, the 52 bytes that remain of them and a page header `a b c`. -/
theorem LoadZ80Snapshot.start (env : Env) (fuel : Nat) (m : Machine)
    (hdr ext : List Nat) (a b c : Nat) (rest : List Nat)
    (hf : m.file.faultAfter = none) (hhdr : hdr.length = 34)
    (h30 : hdr.getD 30 0 = 54) (h31 : hdr.getD 31 0 = 0) (hext : ext.length = 52)
    (hin : m.file.input = hdr ++ ext ++ a :: b :: c :: rest) :
    ∃ m0 : Machine,
      LoadZ80Snapshot env fuel m
          = LoadZ80Snapshot.loop env fuel m0 ((a ||| (b <<< 8)) % 65536) c
        ∧ m0.file.input = rest ∧ m0.file.faultAfter = none
        ∧ m0.buffer2 = m.buffer2 ∧ m0.RamBuffer = m.RamBuffer := by
  obtain ⟨r1, r2, r3, r4⟩ := f_read_ok m.file .header 0 34 hf
  have hin' : m.file.input = hdr ++ (ext ++ a :: b :: c :: rest) := by
    rw [hin, List.append_assoc]
  have ht : m.file.input.take 34 = hdr := by rw [hin', ← hhdr, List.take_left]
  have hd : m.file.input.drop 34 = ext ++ a :: b :: c :: rest := by
    rw [hin', ← hhdr, List.drop_left]
  rw [ht] at r2
  rw [hd] at r3
  obtain ⟨s1, s2, s3, s4⟩ := f_read_ok (f_read m.file .header 0 34).2.2 .extension 0 55 r4
  rw [r3] at s2 s3
  have ht2 : (ext ++ a :: b :: c :: rest).take 55 = ext ++ [a, b, c] := by
    have : ext ++ a :: b :: c :: rest = (ext ++ [a, b, c]) ++ rest := by simp
    rw [this]
    exact List.take_left' (by simp [hext])
  have hd2 : (ext ++ a :: b :: c :: rest).drop 55 = rest := by
    have : ext ++ a :: b :: c :: rest = (ext ++ [a, b, c]) ++ rest := by simp
    rw [this]
    exact List.drop_left' (by simp [hext])
  rw [ht2] at s2
  rw [hd2] at s3
  have habl : (FileHeader.read (store m.buffer1 0 hdr)).AdditionalBlockLength = 54 := by
    simp only [FileHeader.read, rd16]
    rw [store_apply_in _ _ _ _ (by omega) (by omega), store_apply_in _ _ _ _ (by omega) (by omega)]
    simp only [Nat.sub_zero]
    rw [h30, h31]
  have habl' : FileHeader.AdditionalBlockLength
      (ReadState env (FileHeader.read (store m.buffer1 0 hdr)) m.cpu m.screen).1 + 3 - 2 = 55 := by
    simp only [ReadState]
    split_ifs <;> simp only [habl]
  have hbytes : ∀ (X : Mem) (i : Nat), i < 3 →
      store X 0 (ext ++ [a, b, c]) (52 + i) = [a, b, c].getD i 0 := by
    intro X i hi
    rw [store_apply_in _ _ _ _ (by omega) (by simp [hext]; omega),
      List.getD_append_right _ _ _ _ (by omega)]
    congr 1
    omega
  have e0 := fun X => hbytes X 0 (by omega)
  have e1 := fun X => hbytes X 1 (by omega)
  have e2 := fun X => hbytes X 2 (by omega)
  simp only [Nat.reduceAdd] at e0 e1 e2
  simp only [LoadZ80Snapshot, r1, r2, hhdr, habl', s1, s2, ne_eq, not_true_eq_false, or_self,
    if_false, List.length_append, hext, List.length_cons, List.length_nil, Nat.reduceAdd,
    Nat.reduceSub, e0, e1, e2]
  refine Exists.intro ?w ⟨?h1, ?h2, ?h3, ?h4, ?h5⟩
  case h1 => exact rfl
  case h2 => exact s3
  case h3 => exact s4
  case h4 => exact rfl
  case h5 => exact rfl

theorem pageSize_raw : (0xFF ||| (0xFF <<< 8)) % 65536 = 0xFFFF := by decide

/-- The load of a stream with three raw records 8, 4, 5, followed by fewer than three bytes
or by a header with length field 0. -/
theorem LoadZ80Snapshot.three_raw_pages (env : Env) (m : Machine) (fuel : Nat)
    (hdr ext P8 P4 P5 tail : List Nat) (hss : 0 < env.MIN_SS) (hfuel : 3 ≤ fuel)
    (hf : m.file.faultAfter = none) (hhdr : hdr.length = 34)
    (h30 : hdr.getD 30 0 = 54) (h31 : hdr.getD 31 0 = 0) (hext : ext.length = 52)
    (h8 : P8.length = 0x4000) (h4 : P4.length = 0x4000) (h5 : P5.length = 0x4000)
    (htail : tail.length < 3 ∨ ∃ id rest, tail = 0 :: 0 :: id :: rest)
    (hin : m.file.input = hdr ++ ext ++ 0xFF :: 0xFF :: 8 :: (P8 ++ 0xFF :: 0xFF :: 4 ::
      (P4 ++ 0xFF :: 0xFF :: 5 :: (P5 ++ tail)))) :
    (LoadZ80Snapshot env fuel m).1 = some true
      ∧ (LoadZ80Snapshot env fuel m).2.buffer2 = store m.buffer2 0 (rawDecode P8)
      ∧ (LoadZ80Snapshot env fuel m).2.RamBuffer
          = store (store (memcpy m.RamBuffer 0 (store m.buffer2 0 (rawDecode P8)) 0x1B00 0x2500)
              0x2500 (rawDecode P4)) 0x6500 (rawDecode P5) := by
  obtain ⟨f, rfl⟩ : ∃ f, fuel = f + 3 := ⟨fuel - 3, by omega⟩
  obtain ⟨m0, e0, i0, f0, b0, r0⟩ := LoadZ80Snapshot.start env (f + 3) m hdr ext 0xFF 0xFF 8 _
    hf hhdr h30 h31 hext hin
  obtain ⟨m1, e1, i1, f1, b1, r1⟩ := LoadZ80Snapshot.body_raw_next env hss m0 8 P8 0xFF 0xFF 4 _
    (Or.inl rfl) f0 i0 h8
  obtain ⟨m2, e2, i2, f2, b2, r2⟩ := LoadZ80Snapshot.body_raw_next env hss m1 4 P4 0xFF 0xFF 5 _
    (Or.inr (Or.inl rfl)) f1 i1 h4
  rw [pageSize_raw] at e0 e1 e2
  rw [if_pos (by decide)] at e1 e2
  rw [e0, LoadZ80Snapshot.loop_again env (f + 2) m0 m1 _ _ _ _ e1,
    LoadZ80Snapshot.loop_again env (f + 1) m1 m2 _ _ _ _ e2]
  have hb2 : m2.buffer2 = store m.buffer2 0 (rawDecode P8) := by
    rw [b2, if_neg (by decide), b1, if_pos rfl, b0]
  have hr2 : m2.RamBuffer
      = store (memcpy m.RamBuffer 0 (store m.buffer2 0 (rawDecode P8)) 0x1B00 0x2500) 0x2500
          (rawDecode P4) := by
    rw [r2, if_neg (by decide), if_pos rfl, r1, if_pos rfl, b0, r0]
  rcases htail with hshort | ⟨id, rest, rfl⟩
  · obtain ⟨m3, e3, b3, r3⟩ := LoadZ80Snapshot.body_raw_last env hss m2 5 P5 tail hshort
      (Or.inr (Or.inr rfl)) f2 i2 h5
    rw [LoadZ80Snapshot.loop_ret env f m2 m3 _ _ _ e3]
    refine ⟨rfl, ?_, ?_⟩
    · show m3.buffer2 = _
      rw [b3, if_neg (by decide), hb2]
    · show m3.RamBuffer = _
      rw [r3, if_neg (by decide), if_neg (by decide), hr2]
  · obtain ⟨m3, e3, _, _, b3, r3⟩ := LoadZ80Snapshot.body_raw_next env hss m2 5 P5 0 0 id rest
      (Or.inr (Or.inr rfl)) f2 i2 h5
    rw [if_neg (by decide)] at e3
    rw [LoadZ80Snapshot.loop_ret env f m2 m3 _ _ _ e3]
    refine ⟨rfl, ?_, ?_⟩
    · show m3.buffer2 = _
      rw [b3, if_neg (by decide), hb2]
    · show m3.RamBuffer = _
      rw [r3, if_neg (by decide), if_neg (by decide), hr2]

theorem rawDecode_eq_self (P : List Nat) (hlen : P.length = 0x4000)
    (hno : ¬ [0x00, 0xED, 0xED, 0x00] <:+: P) : rawDecode P = P := by
  have h := DecompressPage_raw_uncapped P hno
  rw [hlen] at h
  exact h

theorem rawDecode_markedPayload : rawDecode markedPayload = [] := by
  have h := DecompressPage_endMarker_stops (List.replicate 16380 0)
    (by
      intro h
      have := congrArg List.length h
      rw [List.length_replicate] at this
      exact absurd this (by decide)) false 0
  rw [List.length_replicate] at h
  exact h

/-- A list without the byte `ED` does not contain the end marker. -/
theorem no_endMarker_of_no_ED (l : List Nat) (h : ∀ x ∈ l, x ≠ 0xED) :
    ¬ [0x00, 0xED, 0xED, 0x00] <:+: l := by
  intro hinf
  exact h 0xED (hinf.subset (by simp)) rfl

theorem memcpy_apply_in (dst : Mem) (d : Nat) (src : Mem) (s n a : Nat) (h1 : d ≤ a)
    (h2 : a < d + n) : memcpy dst d src s n a = src (s + (a - d)) := by
  simp only [memcpy]
  rw [if_pos ⟨h1, h2⟩]

theorem memcpy_apply_out (dst : Mem) (d : Nat) (src : Mem) (s n a : Nat)
    (h : a < d ∨ d + n ≤ a) : memcpy dst d src s n a = dst a := by
  simp only [memcpy]
  rw [if_neg (by omega)]

theorem getD_drop (l : List Nat) (n i : Nat) : (l.drop n).getD i 0 = l.getD (n + i) 0 := by
  simp [List.getElem?_drop]

/-- The RAM image left by three raw pages, read back in its three parts. -/
theorem ram_after_three_pages (ram b2 : Mem) (P8 P4 P5 : List Nat) (h8 : P8.length = 0x4000)
    (h4 : P4.length = 0x4000) (h5 : P5.length = 0x4000) :
    slice (store (store (memcpy ram 0 (store b2 0 P8) 0x1B00 0x2500) 0x2500 P4) 0x6500 P5) 0 0x2500
        = P8.drop 0x1B00
      ∧ slice (store (store (memcpy ram 0 (store b2 0 P8) 0x1B00 0x2500) 0x2500 P4) 0x6500 P5)
          0x2500 0x4000 = P4
      ∧ slice (store (store (memcpy ram 0 (store b2 0 P8) 0x1B00 0x2500) 0x2500 P4) 0x6500 P5)
          0x6500 0x4000 = P5 := by
  refine ⟨?_, ?_, ?_⟩
  · have hl : (P8.drop 0x1B00).length = 0x2500 := by rw [List.length_drop, h8]
    refine Eq.trans (congrArg _ hl.symm) (slice_eq_of_forall _ _ _ ?_)
    intro i hi
    rw [hl] at hi
    have e : 0x1B00 + (0 + i - 0) = 0 + (0x1B00 + i) := by omega
    rw [store_apply_lt _ _ _ _ (by omega), store_apply_lt _ _ _ _ (by omega),
      memcpy_apply_in _ _ _ _ _ _ (by omega) (by omega), e,
      store_apply_off _ _ _ _ (by omega), getD_drop]
  · refine Eq.trans (congrArg _ h4.symm) (slice_eq_of_forall _ _ _ ?_)
    intro i hi
    rw [h4] at hi
    rw [store_apply_lt _ _ _ _ (by omega), store_apply_off _ _ _ _ (by omega)]
  · refine Eq.trans (congrArg _ h5.symm) (slice_eq_of_forall _ _ _ ?_)
    intro i hi
    rw [h5] at hi
    rw [store_apply_off _ _ _ _ (by omega)]

/-! ## Properties of the loader -/

/-- C1: the end-to-end load loses a raw page that contains the end marker.  A stream of the
stated form whose page-8 payload begins with `00 ED ED 00` is loaded with success, yet the
screen buffer `buffer2` is left as it was (here every byte `CC`) instead of holding the
payload: the decoder looks for the marker in pages that are not compressed too. -/
theorem LoadZ80Snapshot_marked_payload_lost :
    (LoadZ80Snapshot plainEnv 3 (loadMachine (sampleHeader ++ List.replicate 52 0
        ++ rawRecord 8 markedPayload ++ rawRecord 4 (List.replicate 16384 0)
        ++ rawRecord 5 (List.replicate 16384 0)))).1 = some true
      ∧ slice (LoadZ80Snapshot plainEnv 3 (loadMachine (sampleHeader ++ List.replicate 52 0
          ++ rawRecord 8 markedPayload ++ rawRecord 4 (List.replicate 16384 0)
          ++ rawRecord 5 (List.replicate 16384 0)))).2.buffer2 0 0x4000 ≠ markedPayload := by
  have h := LoadZ80Snapshot.three_raw_pages plainEnv
    (loadMachine (sampleHeader ++ List.replicate 52 0
        ++ rawRecord 8 markedPayload ++ rawRecord 4 (List.replicate 16384 0)
        ++ rawRecord 5 (List.replicate 16384 0))) 3 sampleHeader (List.replicate 52 0)
    markedPayload (List.replicate 16384 0) (List.replicate 16384 0) [] (by decide)
    (Nat.le_refl 3) rfl (by decide) (by decide) (by decide) (List.length_replicate _ _)
    (by simp only [markedPayload, List.length_cons, List.length_replicate])
    (List.length_replicate _ _) (List.length_replicate _ _)
    (Or.inl (by decide))
    (by simp only [loadMachine, fileOf, rawRecord, List.append_assoc, List.cons_append,
      List.nil_append, List.append_nil])
  refine ⟨h.1, ?_⟩
  rw [h.2.1, rawDecode_markedPayload, store_nil]
  intro hc
  have h0 := congrArg (fun l => l.getD 0 0) hc
  simp only [slice_getD _ 0 0x4000 0 (by decide)] at h0
  exact absurd h0 (by decide)

/-- Load of three raw pages free of the end marker: on a device without fault, a stream made of a 34-byte header with
extended-length field 54, 52 further bytes, the raw records 8, 4, 5 with 16384-byte
payloads `P8`, `P4`, `P5` none of which contains `00 ED ED 00`, and then either nothing or a
record with length field 0, is loaded with success; afterwards `buffer2` holds `P8`,
`RamBuffer[0..0x2500)` holds `P8[0x1B00..0x4000)`, `RamBuffer[0x2500..0x6500)` holds `P4`
and `RamBuffer[0x6500..0xA500)` holds `P5`. -/
theorem LoadZ80Snapshot_end_to_end (env : Env) (m : Machine) (fuel : Nat)
    (hdr ext P8 P4 P5 tail : List Nat) (hss : 0 < env.MIN_SS) (hfuel : 3 ≤ fuel)
    (hf : m.file.faultAfter = none) (hhdr : hdr.length = 34)
    (h30 : hdr.getD 30 0 = 54) (h31 : hdr.getD 31 0 = 0) (hext : ext.length = 52)
    (h8 : P8.length = 16384) (h4 : P4.length = 16384) (h5 : P5.length = 16384)
    (hn8 : ¬ [0x00, 0xED, 0xED, 0x00] <:+: P8) (hn4 : ¬ [0x00, 0xED, 0xED, 0x00] <:+: P4)
    (hn5 : ¬ [0x00, 0xED, 0xED, 0x00] <:+: P5)
    (htail : tail = [] ∨ ∃ id rest, tail = 0 :: 0 :: id :: rest)
    (hin : m.file.input = hdr ++ ext ++ rawRecord 8 P8 ++ rawRecord 4 P4 ++ rawRecord 5 P5
      ++ tail) :
    (LoadZ80Snapshot env fuel m).1 = some true
      ∧ slice (LoadZ80Snapshot env fuel m).2.buffer2 0 0x4000 = P8
      ∧ slice (LoadZ80Snapshot env fuel m).2.RamBuffer 0 0x2500 = P8.drop 0x1B00
      ∧ slice (LoadZ80Snapshot env fuel m).2.RamBuffer 0x2500 0x4000 = P4
      ∧ slice (LoadZ80Snapshot env fuel m).2.RamBuffer 0x6500 0x4000 = P5 := by
  have htail' : tail.length < 3 ∨ ∃ id rest, tail = 0 :: 0 :: id :: rest := by
    rcases htail with rfl | h
    · exact Or.inl (by decide)
    · exact Or.inr h
  obtain ⟨r1, r2, r3⟩ := LoadZ80Snapshot.three_raw_pages env m fuel hdr ext P8 P4 P5 tail hss
    hfuel hf hhdr h30 h31 hext h8 h4 h5 htail'
    (by simp only [hin, rawRecord, List.append_assoc, List.cons_append, List.nil_append])
  rw [rawDecode_eq_self P8 h8 hn8] at r2 r3
  rw [rawDecode_eq_self P4 h4 hn4, rawDecode_eq_self P5 h5 hn5] at r3
  refine ⟨r1, ?_, ?_⟩
  · rw [r2]
    have := slice_store m.buffer2 0 P8
    rw [h8] at this
    exact this
  · rw [r3]
    exact ram_after_three_pages m.RamBuffer m.buffer2 P8 P4 P5 h8 h4 h5

/-- The load of three marker-free raw pages on a concrete stream: payloads of all `01`, all `02`, all `03`, then the end
of the stream. -/
theorem LoadZ80Snapshot_end_to_end_witness :
    (LoadZ80Snapshot plainEnv 3 (loadMachine (sampleHeader ++ List.replicate 52 0
        ++ rawRecord 8 (List.replicate 16384 1) ++ rawRecord 4 (List.replicate 16384 2)
        ++ rawRecord 5 (List.replicate 16384 3) ++ []))).1 = some true
      ∧ slice (LoadZ80Snapshot plainEnv 3 (loadMachine (sampleHeader ++ List.replicate 52 0
        ++ rawRecord 8 (List.replicate 16384 1) ++ rawRecord 4 (List.replicate 16384 2)
        ++ rawRecord 5 (List.replicate 16384 3) ++ []))).2.buffer2 0 0x4000
          = List.replicate 16384 1
      ∧ slice (LoadZ80Snapshot plainEnv 3 (loadMachine (sampleHeader ++ List.replicate 52 0
        ++ rawRecord 8 (List.replicate 16384 1) ++ rawRecord 4 (List.replicate 16384 2)
        ++ rawRecord 5 (List.replicate 16384 3) ++ []))).2.RamBuffer 0 0x2500
          = (List.replicate 16384 1).drop 0x1B00
      ∧ slice (LoadZ80Snapshot plainEnv 3 (loadMachine (sampleHeader ++ List.replicate 52 0
        ++ rawRecord 8 (List.replicate 16384 1) ++ rawRecord 4 (List.replicate 16384 2)
        ++ rawRecord 5 (List.replicate 16384 3) ++ []))).2.RamBuffer 0x2500 0x4000
          = List.replicate 16384 2
      ∧ slice (LoadZ80Snapshot plainEnv 3 (loadMachine (sampleHeader ++ List.replicate 52 0
        ++ rawRecord 8 (List.replicate 16384 1) ++ rawRecord 4 (List.replicate 16384 2)
        ++ rawRecord 5 (List.replicate 16384 3) ++ []))).2.RamBuffer 0x6500 0x4000
          = List.replicate 16384 3 :=
  LoadZ80Snapshot_end_to_end plainEnv _ 3 sampleHeader (List.replicate 52 0)
    (List.replicate 16384 1) (List.replicate 16384 2) (List.replicate 16384 3) []
    (by decide) (Nat.le_refl 3) rfl (by decide) (by decide) (by decide)
    (List.length_replicate _ _) (List.length_replicate _ _) (List.length_replicate _ _)
    (List.length_replicate _ _)
    (no_endMarker_of_no_ED _ (fun x hx => by rw [List.eq_of_mem_replicate hx]; decide))
    (no_endMarker_of_no_ED _ (fun x hx => by rw [List.eq_of_mem_replicate hx]; decide))
    (no_endMarker_of_no_ED _ (fun x hx => by rw [List.eq_of_mem_replicate hx]; decide))
    (Or.inl rfl) rfl

/-- With an unknown page number and a non-zero size the page loop never leaves: the
`continue` reaches the loop test with `pageSize` still positive, and nothing was read. -/
theorem LoadZ80Snapshot.loop_unknown_page (env : Env) (m : Machine) (pageNumber : Nat)
    (hpn : ¬ (pageNumber = 8 ∨ pageNumber = 4 ∨ pageNumber = 5)) :
    ∀ fuel pageSize, pageSize ≠ 0 →
      LoadZ80Snapshot.loop env fuel m pageSize pageNumber = (none, m) := by
  intro fuel
  induction fuel with
  | zero => intros; rfl
  | succ fuel ih =>
    intro pageSize hps
    have hbody : LoadZ80Snapshot.body env m pageSize pageNumber
        = Step.again m (if decide (pageSize ≠ 0xFFFF) = false then 0x4000 else pageSize)
            pageNumber := by
      simp only [LoadZ80Snapshot.body, if_neg hpn]
      rw [if_pos]
      split_ifs <;> omega
    rw [LoadZ80Snapshot.loop_again env fuel m m _ _ _ _ hbody]
    apply ih
    split_ifs <;> omega

/-- C10 (code defect): on the stream whose first page record is `01 00 03` (identifier 3,
length 1) `LoadZ80Snapshot` reaches no `return`, however many passes of the page loop are
allowed: the record is not skipped, the loop spins on it without reading. -/
theorem LoadZ80Snapshot_unknown_page_hangs :
    ∀ fuel, (LoadZ80Snapshot plainEnv fuel (loadMachine unknownPageStream)).1 = none := by
  intro fuel
  obtain ⟨m0, e0, _, _, _, _⟩ := LoadZ80Snapshot.start plainEnv fuel
    (loadMachine unknownPageStream) sampleHeader (List.replicate 52 0) 1 0 3 [0x55] rfl
    (by decide) (by decide) (by decide) (by decide) (by decide)
  rw [e0, LoadZ80Snapshot.loop_unknown_page plainEnv m0 3 (by decide) fuel _ (by decide)]

/-- With a positive sector size the chunked read needs no more than `n + 1` iterations. -/
theorem readChunks_terminates (env : Env) (hss : 0 < env.MIN_SS) :
    ∀ fuel (file : FIL) (buf : Mem) (off n : Nat), n < fuel →
      (readChunks env fuel file buf off n).1 ≠ none := by
  intro fuel
  induction fuel with
  | zero => intro file buf off n h; omega
  | succ fuel ih =>
    intro file buf off n hfuel
    simp only [readChunks]
    have hcn : n ≤ env.MIN_SS ∨ (if n < env.MIN_SS then n else env.MIN_SS) = env.MIN_SS := by
      split_ifs <;> omega
    have hcle : (if n < env.MIN_SS then n else env.MIN_SS) ≤ n := by split_ifs <;> omega
    have hc0 : n ≤ env.MIN_SS → (if n < env.MIN_SS then n else env.MIN_SS) = n := by
      intro h; split_ifs <;> omega
    generalize (if n < env.MIN_SS then n else env.MIN_SS) = c at hcn hcle hc0
    by_cases hfail : (f_read file .body off c).1 ≠ .FR_OK ∨ (f_read file .body off c).2.1.length ≠ c
    · rw [if_pos hfail]
      simp
    · rw [if_neg hfail]
      have hlen := (not_or.mp hfail).2
      simp only [ne_eq, not_not] at hlen
      rw [hlen]
      by_cases hrem : n - c > 0
      · rw [if_pos hrem]
        apply ih
        rcases hcn with h | h
        · have := hc0 h
          omega
        · omega
      · rw [if_neg hrem]
        simp

/-! ### The record of reads -/

theorem f_read_reads (file : FIL) (site : Site) (off n : Nat) :
    (f_read file site off n).2.2.reads
      = file.reads
        ++ [⟨site, n, (f_read file site off n).2.1.length, (f_read file site off n).1, off⟩] := by
  simp only [f_read]
  split_ifs <;> rfl

theorem allComplete_append_one (log : List Transfer) (t : Transfer) (h : allComplete log)
    (ht : ¬ t.short) : allComplete (log ++ [t]) := by
  intro x hx
  rcases List.mem_append.mp hx with h1 | h1
  · exact h x h1
  · rw [List.mem_singleton.mp h1]
    exact ht

/-- After a read that makes the caller return `res`: the record is as it should be, provided
a short read at this site leads to `res`. -/
theorem shortOnlyLast_after_read (file : FIL) (site : Site) (off n : Nat) (res : Bool)
    (h : allComplete file.reads)
    (hres : (f_read file site off n).2.1.length < n →
      res = decide (site = .nextPage ∧ (f_read file site off n).1 = .FR_OK)) :
    shortOnlyLast (f_read file site off n).2.2.reads (some res) := by
  rw [f_read_reads]
  by_cases hs : (f_read file site off n).2.1.length < n
  · exact Or.inr ⟨_, _, rfl, h, hs, by rw [hres hs]⟩
  · exact Or.inl (allComplete_append_one _ _ h hs)

theorem allComplete_after_read (file : FIL) (site : Site) (off n : Nat)
    (h : allComplete file.reads) (hlen : (f_read file site off n).2.1.length = n) :
    allComplete (f_read file site off n).2.2.reads := by
  rw [f_read_reads]
  exact allComplete_append_one _ _ h (by simp only [Transfer.short, hlen]; omega)

theorem readChunks_reads (env : Env) :
    ∀ fuel (file : FIL) (buf : Mem) (off n : Nat), allComplete file.reads →
      ((readChunks env fuel file buf off n).1 = some false →
          shortOnlyLast (readChunks env fuel file buf off n).2.1.reads (some false))
        ∧ ((readChunks env fuel file buf off n).1 ≠ some false →
            allComplete (readChunks env fuel file buf off n).2.1.reads) := by
  intro fuel
  induction fuel with
  | zero =>
    intro file buf off n h
    exact ⟨fun hh => by simp [readChunks] at hh, fun _ => h⟩
  | succ fuel ih =>
    intro file buf off n h
    simp only [readChunks]
    generalize (if n < env.MIN_SS then n else env.MIN_SS) = c
    by_cases hfail : (f_read file .body off c).1 ≠ .FR_OK ∨ (f_read file .body off c).2.1.length ≠ c
    · rw [if_pos hfail]
      refine ⟨fun _ => shortOnlyLast_after_read _ _ _ _ false h (fun _ => by simp), fun hh => ?_⟩
      exact absurd rfl hh
    · rw [if_neg hfail]
      have hlen := (not_or.mp hfail).2
      simp only [ne_eq, not_not] at hlen
      have hc := allComplete_after_read file .body _ _ h hlen
      by_cases hrem : n - (f_read file .body off c).2.1.length > 0
      · rw [if_pos hrem]
        exact ih _ _ _ _ hc
      · rw [if_neg hrem]
        exact ⟨fun hh => by simp at hh, fun _ => hc⟩

/-- What one pass of the page loop does to the record of reads. -/
theorem LoadZ80Snapshot.body_reads (env : Env) (m : Machine) (pageSize pageNumber : Nat)
    (h : allComplete m.file.reads) :
    match LoadZ80Snapshot.body env m pageSize pageNumber with
    | .ret r m' => shortOnlyLast m'.file.reads (some r)
    | .again m' _ _ => allComplete m'.file.reads
    | .stuck m' => allComplete m'.file.reads := by
  simp only [LoadZ80Snapshot.body]
  generalize (if decide (pageSize ≠ 0xFFFF) = false then 0x4000 else pageSize) = ps
  generalize decide (pageSize ≠ 0xFFFF) = isCompressed
  by_cases hpn : pageNumber = 8 ∨ pageNumber = 4 ∨ pageNumber = 5
  · rw [if_pos hpn]
    have hc := readChunks_reads env (ps + 1) m.file m.buffer1 0 ps h
    generalize readChunks env (ps + 1) m.file m.buffer1 0 ps = rd at hc
    obtain ⟨res, file, buf⟩ := rd
    obtain ⟨hc1, hc2⟩ := hc
    simp only at hc1 hc2
    match res with
    | none => exact hc2 (by simp)
    | some false => exact hc1 rfl
    | some true =>
      have hcl : allComplete file.reads := hc2 (by simp)
      dsimp only
      by_cases hres : (f_read file .nextPage 0 3).1 ≠ .FR_OK
      · rw [if_pos hres]
        exact shortOnlyLast_after_read _ _ _ _ false hcl (fun _ => by simp [hres])
      · rw [if_neg hres]
        simp only [ne_eq, not_not] at hres
        by_cases hlen : (f_read file .nextPage 0 3).2.1.length = 3
        · have hcl' := allComplete_after_read _ _ _ _ hcl hlen
          simp only [hlen, if_true]
          generalize (store buf 0 (f_read file .nextPage 0 3).2.1 0
            ||| (store buf 0 (f_read file .nextPage 0 3).2.1 1 <<< 8)) % 65536 = ps'
          by_cases hpos : ps' > 0
          · rw [if_pos hpos]
            exact hcl'
          · rw [if_neg hpos]
            exact Or.inl hcl'
        · simp only [hlen, if_false, gt_iff_lt, Nat.lt_irrefl]
          exact shortOnlyLast_after_read _ _ _ _ true hcl (fun _ => by simp [hres])
  · rw [if_neg hpn]
    split_ifs
    · exact h
    · exact Or.inl h

theorem LoadZ80Snapshot.loop_reads (env : Env) :
    ∀ fuel (m : Machine) (pageSize pageNumber : Nat), allComplete m.file.reads →
      shortOnlyLast (LoadZ80Snapshot.loop env fuel m pageSize pageNumber).2.file.reads
        (LoadZ80Snapshot.loop env fuel m pageSize pageNumber).1 := by
  intro fuel
  induction fuel with
  | zero => intro m _ _ h; exact Or.inl h
  | succ fuel ih =>
    intro m pageSize pageNumber h
    have hb := LoadZ80Snapshot.body_reads env m pageSize pageNumber h
    simp only [LoadZ80Snapshot.loop]
    cases hbody : LoadZ80Snapshot.body env m pageSize pageNumber with
    | ret r m' => rw [hbody] at hb; exact hb
    | again m' ps pn => rw [hbody] at hb; exact ih m' ps pn hb
    | stuck m' => rw [hbody] at hb; exact Or.inl hb

theorem LoadZ80Snapshot_reads (env : Env) (fuel : Nat) (m : Machine)
    (h : allComplete m.file.reads) :
    shortOnlyLast (LoadZ80Snapshot env fuel m).2.file.reads (LoadZ80Snapshot env fuel m).1 := by
  simp only [LoadZ80Snapshot]
  by_cases h1 : (f_read m.file .header 0 34).1 ≠ .FR_OK ∨ (f_read m.file .header 0 34).2.1.length ≠ 34
  · rw [if_pos h1]
    exact shortOnlyLast_after_read _ _ _ _ false h (fun _ => by simp)
  · rw [if_neg h1]
    have h1' := (not_or.mp h1).2
    simp only [ne_eq, not_not] at h1'
    have hc1 := allComplete_after_read _ _ _ _ h h1'
    generalize FileHeader.AdditionalBlockLength (ReadState env
      (FileHeader.read (store m.buffer1 0 (f_read m.file Site.header 0 34).2.1)) m.cpu m.screen).1
      + 3 - 2 = n
    by_cases h2 : (f_read (f_read m.file .header 0 34).2.2 .extension 0 n).1 ≠ .FR_OK
        ∨ (f_read (f_read m.file .header 0 34).2.2 .extension 0 n).2.1.length ≠ n
    · rw [if_pos h2]
      exact shortOnlyLast_after_read _ _ _ _ false hc1 (fun _ => by simp)
    · rw [if_neg h2]
      have h2' := (not_or.mp h2).2
      simp only [ne_eq, not_not] at h2'
      exact LoadZ80Snapshot.loop_reads env fuel _ _ _ (allComplete_after_read _ _ _ _ hc1 h2')

theorem shortOnlyLast_elim (log : List Transfer) (res : Option Bool)
    (h : shortOnlyLast log res) (pre post : List Transfer) (t : Transfer)
    (hlog : log = pre ++ t :: post) (hs : t.short) :
    post = [] ∧ res = some (decide (t.site = .nextPage ∧ t.result = .FR_OK)) := by
  rcases h with hc | ⟨pre', t', hl, hc, hs', hres⟩
  · exact absurd hs (hc t (by rw [hlog]; simp))
  · rw [hl] at hlog
    have hrev := congrArg List.reverse hlog
    simp only [List.reverse_append, List.reverse_cons, List.reverse_nil, List.nil_append,
      List.singleton_append, List.append_assoc] at hrev
    cases hp : post.reverse with
    | nil =>
      rw [hp, List.nil_append] at hrev
      have ht : t' = t := (List.cons.inj hrev).1
      have hpost : post = [] := by
        have := congrArg List.reverse hp
        simpa using this
      rw [← ht]
      exact ⟨hpost, hres⟩
    | cons x xs =>
      rw [hp, List.cons_append] at hrev
      have hmem : t ∈ pre'.reverse := by
        rw [(List.cons.inj hrev).2]
        simp
      exact absurd hs (hc t (List.mem_reverse.mp hmem))

set_option maxRecDepth 100000 in
/-- C9 (as stated, refuted): on a stream that ends right after its only page, the read of
the next page header asks for 3 bytes and gets none, and `LoadZ80Snapshot` returns
success. -/
theorem LoadZ80Snapshot_short_read_success :
    (LoadZ80Snapshot plainEnv 1 (loadMachine onePageStream)).1 = some true
      ∧ ∃ t ∈ (LoadZ80Snapshot plainEnv 1 (loadMachine onePageStream)).2.file.reads,
          t.transferred < t.requested := by
  decide

/-- C9 (amended): whatever the stream and the device do, a read of `LoadZ80Snapshot` that
moves fewer bytes than requested is the last read it issues, and the call returns: failure
for the header read, the extension read and the page-body reads (and for any read on which
the device reports an error), success when the short read is the 3-byte read of the next
page header and the device reports no error. -/
theorem LoadZ80Snapshot_short_read (env : Env) (fuel : Nat) (m : Machine)
    (hlog : m.file.reads = []) (pre post : List Transfer) (t : Transfer)
    (hreads : (LoadZ80Snapshot env fuel m).2.file.reads = pre ++ t :: post)
    (hshort : t.transferred < t.requested) :
    post = []
      ∧ (LoadZ80Snapshot env fuel m).1
          = some (decide (t.site = Site.nextPage ∧ t.result = FRESULT.FR_OK)) :=
  shortOnlyLast_elim _ _
    (LoadZ80Snapshot_reads env fuel m (by rw [hlog]; intro x hx; simp at hx)) pre post t hreads
    hshort

set_option maxRecDepth 100000 in
/-- C9 (amended) on the stream that ends inside its first page body: the third read asks for
5 bytes and gets 4; it is the last one and the call returns failure. -/
theorem LoadZ80Snapshot_short_read_witness :
    ([] : List Transfer) = []
      ∧ (LoadZ80Snapshot plainEnv 1 (loadMachine truncatedStream)).1
          = some (decide ((⟨Site.body, 5, 4, FRESULT.FR_OK, 0⟩ : Transfer).site = Site.nextPage
              ∧ (⟨Site.body, 5, 4, FRESULT.FR_OK, 0⟩ : Transfer).result = FRESULT.FR_OK)) :=
  LoadZ80Snapshot_short_read plainEnv 1 (loadMachine truncatedStream) rfl
    [⟨Site.header, 34, 34, FRESULT.FR_OK, 0⟩, ⟨Site.extension, 55, 55, FRESULT.FR_OK, 0⟩] []
    ⟨Site.body, 5, 4, FRESULT.FR_OK, 0⟩ (by decide) (by decide)

/-! ## Lemmas on saving -/

theorem slice_append (m : Mem) (off a b : Nat) :
    slice m off (a + b) = slice m off a ++ slice m (off + a) b := by
  induction a generalizing off with
  | zero => simp [slice_zero]
  | succ a ih =>
    have e : a + 1 + b = (a + b) + 1 := by omega
    rw [e, slice_succ, slice_succ, ih (off + 1), List.cons_append]
    have e2 : off + 1 + a = off + (a + 1) := by omega
    rw [e2]

theorem slice_drop (m : Mem) (off n k : Nat) (h : k ≤ n) :
    (slice m off n).drop k = slice m (off + k) (n - k) := by
  have e : n = k + (n - k) := by omega
  have hl : (slice m off k).length = k := length_slice m off k
  conv_lhs => rw [e, slice_append]
  exact List.drop_left' hl

theorem f_write_success (file : FIL) (data : List Nat)
    (h1 : (f_write file data).1 = .FR_OK) (h2 : (f_write file data).2.1 = data.length) :
    (f_write file data).2.2.output = file.output ++ data := by
  by_cases hf : file.faultAfter = some 0
  · simp [f_write, hf] at h1
  · simp only [f_write, if_neg hf] at h2 ⊢
    rw [List.take_of_length_le (by omega)]

theorem f_write_ok (file : FIL) (data : List Nat) (hf : file.faultAfter = none)
    (hroom : data.length ≤ file.room) :
    (f_write file data).1 = .FR_OK ∧ (f_write file data).2.1 = data.length
      ∧ (f_write file data).2.2.faultAfter = none
      ∧ (f_write file data).2.2.room = file.room - data.length := by
  simp [f_write, hf, hroom]

/-- A chunked write that ends normally has appended the `n` bytes at `offset`. -/
theorem writeChunks_success (env : Env) :
    ∀ fuel (file : FIL) (buffer : Mem) (off n : Nat),
      (writeChunks env fuel file buffer off n).1 = some true →
      (writeChunks env fuel file buffer off n).2.output = file.output ++ slice buffer off n := by
  intro fuel
  induction fuel with
  | zero => intro file buffer off n h; simp [writeChunks] at h
  | succ fuel ih =>
    intro file buffer off n
    simp only [writeChunks]
    have hcn : (if n < env.MIN_SS then n else env.MIN_SS) ≤ n := by split_ifs <;> omega
    generalize (if n < env.MIN_SS then n else env.MIN_SS) = c at hcn
    by_cases hfail : (f_write file (slice buffer off c)).1 ≠ .FR_OK
        ∨ (f_write file (slice buffer off c)).2.1 ≠ c
    · rw [if_pos hfail]
      intro h
      simp at h
    · rw [if_neg hfail]
      obtain ⟨h1, h2⟩ := not_or.mp hfail
      simp only [ne_eq, not_not] at h1 h2
      have hout := f_write_success file (slice buffer off c) h1 (by rw [h2, length_slice])
      have hn : n = c + (n - c) := by omega
      rw [h2]
      by_cases hrem : n - c > 0
      · rw [if_pos hrem]
        intro h
        rw [ih _ _ _ _ h, hout, List.append_assoc, ← slice_append, ← hn]
      · rw [if_neg hrem]
        intro _
        have hc : c = n := by omega
        rw [hout, hc]

/-- On a healthy device with enough room a chunked write ends normally. -/
theorem writeChunks_ok (env : Env) (hss : 0 < env.MIN_SS) :
    ∀ fuel (file : FIL) (buffer : Mem) (off n : Nat), file.faultAfter = none →
      n ≤ file.room → n < fuel →
      (writeChunks env fuel file buffer off n).1 = some true
        ∧ (writeChunks env fuel file buffer off n).2.faultAfter = none
        ∧ (writeChunks env fuel file buffer off n).2.room = file.room - n := by
  intro fuel
  induction fuel with
  | zero => intro file buffer off n _ _ h; omega
  | succ fuel ih =>
    intro file buffer off n hf hroom hfuel
    simp only [writeChunks]
    by_cases hlt : env.MIN_SS < n
    · have hc : (if n < env.MIN_SS then n else env.MIN_SS) = env.MIN_SS := by
        rw [if_neg (by omega)]
      obtain ⟨w1, w2, w3, w4⟩ := f_write_ok file (slice buffer off env.MIN_SS) hf
        (by rw [length_slice]; omega)
      rw [length_slice] at w2 w4
      simp only [hc]
      rw [w1, w2, if_neg (by simp), if_pos (by omega)]
      obtain ⟨i1, i2, i3⟩ := ih (f_write file (slice buffer off env.MIN_SS)).2.2 buffer
        (off + env.MIN_SS) (n - env.MIN_SS) w3 (by rw [w4]; omega) (by omega)
      refine ⟨i1, i2, ?_⟩
      rw [i3, w4]
      omega
    · have hc : (if n < env.MIN_SS then n else env.MIN_SS) = n := by
        split_ifs <;> omega
      obtain ⟨w1, w2, w3, w4⟩ := f_write_ok file (slice buffer off n) hf
        (by rw [length_slice]; omega)
      rw [length_slice] at w2 w4
      simp only [hc]
      rw [w1, w2, if_neg (by simp), if_neg (by omega)]
      exact ⟨rfl, w3, w4⟩

/-- With a positive sector size the chunked write needs no more than `n + 1` iterations. -/
theorem writeChunks_terminates (env : Env) (hss : 0 < env.MIN_SS) :
    ∀ fuel (file : FIL) (buffer : Mem) (off n : Nat), n < fuel →
      (writeChunks env fuel file buffer off n).1 ≠ none := by
  intro fuel
  induction fuel with
  | zero => intro file buffer off n h; omega
  | succ fuel ih =>
    intro file buffer off n hfuel
    simp only [writeChunks]
    have hcn : n ≤ env.MIN_SS ∨ (if n < env.MIN_SS then n else env.MIN_SS) = env.MIN_SS := by
      split_ifs <;> omega
    have hc0 : n ≤ env.MIN_SS → (if n < env.MIN_SS then n else env.MIN_SS) = n := by
      intro h; split_ifs <;> omega
    generalize (if n < env.MIN_SS then n else env.MIN_SS) = c at hcn hc0
    by_cases hfail : (f_write file (slice buffer off c)).1 ≠ .FR_OK
        ∨ (f_write file (slice buffer off c)).2.1 ≠ c
    · rw [if_pos hfail]
      simp
    · rw [if_neg hfail]
      have hlen := (not_or.mp hfail).2
      simp only [ne_eq, not_not] at hlen
      rw [hlen]
      by_cases hrem : n - c > 0
      · rw [if_pos hrem]
        apply ih
        rcases hcn with h | h
        · have := hc0 h
          omega
        · omega
      · rw [if_neg hrem]
        simp

theorem length_le16 (v : Nat) : (le16 v).length = 2 := rfl

theorem FileHeader.length_bytes (h : FileHeader) : h.bytes.length = 34 := by
  simp [FileHeader.bytes, length_le16]

theorem slice_store_store (m : Mem) (a z : List Nat) :
    slice (store (store m 0 a) a.length z) 0 (a.length + z.length) = a ++ z := by
  have h := store_store_append m 0 a z
  rw [Nat.zero_add] at h
  rw [h, ← List.length_append]
  exact slice_store m 0 (a ++ z)

/-- A page body of `SaveZ80Snapshot` that ends normally has appended the record of the
page and left CPU, screen and RAM alone. -/
theorem SaveZ80Snapshot.page_success (env : Env) (m : Machine) (pn : Nat)
    (h : (SaveZ80Snapshot.page env m pn).1 = some true) :
    (SaveZ80Snapshot.page env m pn).2.file.output
        = m.file.output ++ rawRecord pn (SaveZ80Snapshot.payload env m pn)
      ∧ (SaveZ80Snapshot.page env m pn).2.RamBuffer = m.RamBuffer
      ∧ (SaveZ80Snapshot.page env m pn).2.screen = m.screen
      ∧ (SaveZ80Snapshot.page env m pn).2.cpu = m.cpu := by
  simp only [SaveZ80Snapshot.page] at h ⊢
  have hs : slice (store m.buffer1 0 [0xFF, 0xFF, pn]) 0 3 = [0xFF, 0xFF, pn] :=
    slice_store m.buffer1 0 [0xFF, 0xFF, pn]
  rw [hs] at h ⊢
  by_cases hfail : (f_write m.file [0xFF, 0xFF, pn]).1 ≠ .FR_OK
      ∨ (f_write m.file [0xFF, 0xFF, pn]).2.1 ≠ 3
  · rw [if_pos hfail] at h
    simp at h
  · rw [if_neg hfail] at h ⊢
    obtain ⟨h1, h2⟩ := not_or.mp hfail
    simp only [ne_eq, not_not] at h1 h2
    have hout := f_write_success m.file [0xFF, 0xFF, pn] h1 h2
    by_cases h8 : pn = 8
    · subst h8
      simp only [if_true] at h ⊢
      have hw := writeChunks_success env _ _ _ _ _ h
      simp only at hw
      refine ⟨?_, by trivial, by trivial, by trivial⟩
      rw [hw, hout, List.append_assoc]
      rfl
    · simp only [h8, if_false] at h ⊢
      have hw := writeChunks_success env _ _ _ _ _ h
      simp only at hw
      refine ⟨?_, by trivial, by trivial, by trivial⟩
      rw [hw, hout, List.append_assoc]
      simp only [rawRecord, SaveZ80Snapshot.payload, h8, if_false]
      split_ifs <;> rfl

/-- On a healthy device with room for the record, a page body ends normally. -/
theorem SaveZ80Snapshot.page_ok (env : Env) (hss : 0 < env.MIN_SS) (m : Machine) (pn : Nat)
    (hf : m.file.faultAfter = none) (hroom : 3 + 0x4000 ≤ m.file.room) :
    (SaveZ80Snapshot.page env m pn).1 = some true
      ∧ (SaveZ80Snapshot.page env m pn).2.file.faultAfter = none
      ∧ (SaveZ80Snapshot.page env m pn).2.file.room = m.file.room - (3 + 0x4000) := by
  simp only [SaveZ80Snapshot.page]
  have hs : slice (store m.buffer1 0 [0xFF, 0xFF, pn]) 0 3 = [0xFF, 0xFF, pn] :=
    slice_store m.buffer1 0 [0xFF, 0xFF, pn]
  rw [hs]
  obtain ⟨w1, w2, w3, w4⟩ := f_write_ok m.file [0xFF, 0xFF, pn] hf
    (by simp only [List.length_cons, List.length_nil]; omega)
  simp only [List.length_cons, List.length_nil, Nat.reduceAdd] at w2 w4
  rw [w1, w2, if_neg (by simp)]
  by_cases h8 : pn = 8
  · subst h8
    simp only [if_true]
    obtain ⟨c1, c2, c3⟩ := writeChunks_ok env hss (0x4000 + 1)
      (f_write m.file [0xFF, 0xFF, 8]).2.2 (SaveZ80Snapshot.screenPage env m) 0 0x4000 w3
      (by rw [w4]; omega) (by omega)
    refine ⟨c1, c2, ?_⟩
    show (writeChunks env (0x4000 + 1) (f_write m.file [0xFF, 0xFF, 8]).2.2
      (SaveZ80Snapshot.screenPage env m) 0 0x4000).2.room = _
    rw [c3, w4]
    omega
  · simp only [h8, if_false]
    obtain ⟨c1, c2, c3⟩ := writeChunks_ok env hss (0x4000 + 1)
      (f_write m.file [0xFF, 0xFF, pn]).2.2 m.RamBuffer
      (if pn = 4 then 0x8000 - 0x5B00 else 0xC000 - 0x5B00) 0x4000 w3
      (by rw [w4]; omega) (by omega)
    refine ⟨c1, c2, ?_⟩
    show (writeChunks env (0x4000 + 1) (f_write m.file [0xFF, 0xFF, pn]).2.2
      m.RamBuffer (if pn = 4 then 0x8000 - 0x5B00 else 0xC000 - 0x5B00) 0x4000).2.room = _
    rw [c3, w4]
    omega

theorem SaveZ80Snapshot.pages_cons (env : Env) (m : Machine) (pn : Nat) (rest : List Nat)
    (h : (SaveZ80Snapshot.page env m pn).1 = some true) :
    SaveZ80Snapshot.pages env m (pn :: rest)
      = SaveZ80Snapshot.pages env (SaveZ80Snapshot.page env m pn).2 rest := by
  rw [SaveZ80Snapshot.pages]
  rcases hp : SaveZ80Snapshot.page env m pn with ⟨r, m'⟩
  rw [hp] at h
  simp only at h
  subst h
  rfl

theorem SaveZ80Snapshot.pages_cons_success (env : Env) (m : Machine) (pn : Nat)
    (rest : List Nat) (h : (SaveZ80Snapshot.pages env m (pn :: rest)).1 = some true) :
    (SaveZ80Snapshot.page env m pn).1 = some true := by
  rw [SaveZ80Snapshot.pages] at h
  rcases hp : SaveZ80Snapshot.page env m pn with ⟨r, m'⟩
  rw [hp] at h
  match r, h with
  | some true, _ => rfl
  | some false, h => simp at h
  | none, h => simp at h

theorem SaveZ80Snapshot.payload_congr (env : Env) (m1 m2 : Machine) (pn : Nat) (h8 : pn ≠ 8)
    (h : m1.RamBuffer = m2.RamBuffer) :
    SaveZ80Snapshot.payload env m1 pn = SaveZ80Snapshot.payload env m2 pn := by
  simp only [SaveZ80Snapshot.payload, if_neg h8, h]

/-- The first write of `SaveZ80Snapshot`: the 34 header bytes and 52 zero bytes. -/
theorem SaveZ80Snapshot.header_area (b1 : Mem) (h : FileHeader) :
    slice (store (store b1 0 h.bytes) 34 (List.replicate 52 0)) 0 86
      = h.bytes ++ List.replicate 52 0 := by
  have e := slice_store_store b1 h.bytes (List.replicate 52 0)
  rw [FileHeader.length_bytes, List.length_replicate] at e
  exact e

/-- What a successful `SaveZ80Snapshot` has written: the header from `SaveState`, 52 zero
bytes and the three raw records 8, 4, 5; RAM is left alone. -/
theorem SaveZ80Snapshot_output (env : Env) (m : Machine)
    (h : (SaveZ80Snapshot env m).1 = some true) :
    (SaveZ80Snapshot env m).2.file.output
        = m.file.output ++ (SaveState (FileHeader.read m.buffer1) m.cpu m.screen).bytes
          ++ List.replicate 52 0 ++ rawRecord 8 (SaveZ80Snapshot.payload env m 8)
          ++ rawRecord 4 (SaveZ80Snapshot.payload env m 4)
          ++ rawRecord 5 (SaveZ80Snapshot.payload env m 5)
      ∧ (SaveZ80Snapshot env m).2.RamBuffer = m.RamBuffer := by
  have habl : (SaveState (FileHeader.read m.buffer1) m.cpu m.screen).AdditionalBlockLength = 54 :=
    rfl
  simp only [SaveZ80Snapshot, habl, Nat.reduceAdd, Nat.reduceSub,
    SaveZ80Snapshot.header_area] at h ⊢
  have hbl := FileHeader.length_bytes (SaveState (FileHeader.read m.buffer1) m.cpu m.screen)
  generalize (SaveState (FileHeader.read m.buffer1) m.cpu m.screen).bytes = hb at h hbl ⊢
  by_cases hfail : (f_write m.file (hb ++ List.replicate 52 0)).1 ≠ .FR_OK
      ∨ (f_write m.file (hb ++ List.replicate 52 0)).2.1 ≠ 86
  · rw [if_pos hfail] at h
    simp at h
  · rw [if_neg hfail] at h ⊢
    obtain ⟨h1, h2⟩ := not_or.mp hfail
    simp only [ne_eq, not_not] at h1 h2
    have hlen : (hb ++ List.replicate 52 0).length = 86 := by
      rw [List.length_append, hbl, List.length_replicate]
    · have hout := f_write_success m.file (hb ++ List.replicate 52 0) h1 (by rw [h2, hlen])
      generalize hm0 : ({ m with
        buffer1 := store (store m.buffer1 0 hb) 34 (List.replicate 52 0)
        file := (f_write m.file (hb ++ List.replicate 52 0)).2.2 } : Machine) = m0 at h ⊢
      have hm0f : m0.file.output = m.file.output ++ (hb ++ List.replicate 52 0) := by
        rw [← hm0]; exact hout
      have hm0r : m0.RamBuffer = m.RamBuffer := by rw [← hm0]
      have hm0p : SaveZ80Snapshot.payload env m0 8 = SaveZ80Snapshot.payload env m 8 := by
        rw [← hm0]; rfl
      have p8 := SaveZ80Snapshot.pages_cons_success env m0 8 [4, 5] h
      rw [SaveZ80Snapshot.pages_cons env m0 8 [4, 5] p8] at h ⊢
      obtain ⟨o8, r8, _, _⟩ := SaveZ80Snapshot.page_success env m0 8 p8
      generalize (SaveZ80Snapshot.page env m0 8).2 = m1 at h o8 r8 ⊢
      have p4 := SaveZ80Snapshot.pages_cons_success env m1 4 [5] h
      rw [SaveZ80Snapshot.pages_cons env m1 4 [5] p4] at h ⊢
      obtain ⟨o4, r4, _, _⟩ := SaveZ80Snapshot.page_success env m1 4 p4
      generalize (SaveZ80Snapshot.page env m1 4).2 = m2 at h o4 r4 ⊢
      have p5 := SaveZ80Snapshot.pages_cons_success env m2 5 [] h
      rw [SaveZ80Snapshot.pages_cons env m2 5 [] p5]
      obtain ⟨o5, r5, _, _⟩ := SaveZ80Snapshot.page_success env m2 5 p5
      simp only [SaveZ80Snapshot.pages]
      refine ⟨?_, by rw [r5, r4, r8, hm0r]⟩
      rw [o5, o4, o8, hm0f, hm0p,
        SaveZ80Snapshot.payload_congr env m2 m 5 (by decide) (by rw [r4, r8, hm0r]),
        SaveZ80Snapshot.payload_congr env m1 m 4 (by decide) (by rw [r8, hm0r])]
      simp only [List.append_assoc]

/-- On a healthy device with room for the 49247 bytes of a snapshot, `SaveZ80Snapshot`
returns success. -/
theorem SaveZ80Snapshot_ok (env : Env) (hss : 0 < env.MIN_SS) (m : Machine)
    (hf : m.file.faultAfter = none) (hroom : 49247 ≤ m.file.room) :
    (SaveZ80Snapshot env m).1 = some true := by
  have habl : (SaveState (FileHeader.read m.buffer1) m.cpu m.screen).AdditionalBlockLength = 54 :=
    rfl
  simp only [SaveZ80Snapshot, habl, Nat.reduceAdd, Nat.reduceSub, SaveZ80Snapshot.header_area]
  have hbl := FileHeader.length_bytes (SaveState (FileHeader.read m.buffer1) m.cpu m.screen)
  generalize (SaveState (FileHeader.read m.buffer1) m.cpu m.screen).bytes = hb at hbl ⊢
  have hlen : (hb ++ List.replicate 52 0).length = 86 := by
    rw [List.length_append, hbl, List.length_replicate]
  obtain ⟨w1, w2, w3, w4⟩ := f_write_ok m.file (hb ++ List.replicate 52 0) hf
    (by rw [hlen]; omega)
  rw [hlen] at w2 w4
  rw [w1, w2, if_neg (by simp)]
  generalize hm0 : ({ m with
    buffer1 := store (store m.buffer1 0 hb) 34 (List.replicate 52 0)
    file := (f_write m.file (hb ++ List.replicate 52 0)).2.2 } : Machine) = m0
  have f0 : m0.file.faultAfter = none := by rw [← hm0]; exact w3
  have r0 : m0.file.room = m.file.room - 86 := by rw [← hm0]; exact w4
  obtain ⟨p8, f8, r8⟩ := SaveZ80Snapshot.page_ok env hss m0 8 f0 (by rw [r0]; omega)
  rw [SaveZ80Snapshot.pages_cons env m0 8 [4, 5] p8]
  generalize (SaveZ80Snapshot.page env m0 8).2 = m1 at f8 r8 ⊢
  obtain ⟨p4, f4, r4⟩ := SaveZ80Snapshot.page_ok env hss m1 4 f8 (by rw [r8, r0]; omega)
  rw [SaveZ80Snapshot.pages_cons env m1 4 [5] p4]
  generalize (SaveZ80Snapshot.page env m1 4).2 = m2 at f4 r4 ⊢
  obtain ⟨p5, _, _⟩ := SaveZ80Snapshot.page_ok env hss m2 5 f4 (by rw [r4, r8, r0]; omega)
  rw [SaveZ80Snapshot.pages_cons env m2 5 [] p5]
  rfl

theorem SaveState_bytes_extLength (h : FileHeader) (cpu : Z80_STATE) (scr : SpectrumScreen) :
    (SaveState h cpu scr).bytes.getD 30 0 = 54 ∧ (SaveState h cpu scr).bytes.getD 31 0 = 0 := by
  simp [FileHeader.bytes, SaveState, le16]

theorem SaveZ80Snapshot.length_payload (env : Env) (m : Machine) (pn : Nat) :
    (SaveZ80Snapshot.payload env m pn).length = 0x4000 := by
  simp only [SaveZ80Snapshot.payload]
  split_ifs <;> exact length_slice _ _ _

/-- Loading what `SaveZ80Snapshot` has written: success, and the RAM image is assembled
from what the decoder makes of the three saved payloads. -/
theorem load_after_save (env : Env) (hss : 0 < env.MIN_SS) (ms ml : Machine) (fuel : Nat)
    (hfuel : 3 ≤ fuel) (hsave : (SaveZ80Snapshot env ms).1 = some true)
    (hempty : ms.file.output = [])
    (hin : ml.file.input = (SaveZ80Snapshot env ms).2.file.output)
    (hf : ml.file.faultAfter = none) :
    (LoadZ80Snapshot env fuel ml).1 = some true
      ∧ (LoadZ80Snapshot env fuel ml).2.RamBuffer
          = store (store (memcpy ml.RamBuffer 0
                (store ml.buffer2 0 (rawDecode (SaveZ80Snapshot.payload env ms 8))) 0x1B00 0x2500)
              0x2500 (rawDecode (SaveZ80Snapshot.payload env ms 4)))
            0x6500 (rawDecode (SaveZ80Snapshot.payload env ms 5)) := by
  obtain ⟨hout, _⟩ := SaveZ80Snapshot_output env ms hsave
  rw [hempty, List.nil_append] at hout
  obtain ⟨e30, e31⟩ := SaveState_bytes_extLength (FileHeader.read ms.buffer1) ms.cpu ms.screen
  obtain ⟨r1, _, r3⟩ := LoadZ80Snapshot.three_raw_pages env ml fuel
    (SaveState (FileHeader.read ms.buffer1) ms.cpu ms.screen).bytes (List.replicate 52 0)
    (SaveZ80Snapshot.payload env ms 8) (SaveZ80Snapshot.payload env ms 4)
    (SaveZ80Snapshot.payload env ms 5) [] hss hfuel hf (FileHeader.length_bytes _) e30 e31
    (List.length_replicate _ _) (SaveZ80Snapshot.length_payload _ _ _)
    (SaveZ80Snapshot.length_payload _ _ _) (SaveZ80Snapshot.length_payload _ _ _)
    (Or.inl (by decide))
    (by simp only [hin, hout, rawRecord, List.append_assoc, List.cons_append, List.nil_append,
      List.append_nil])
  exact ⟨r1, r3⟩

/-- A page that starts with the end marker and has at least one more byte decodes to
nothing. -/
theorem DecompressPage_marker_first (page : Mem) (L : Nat) (hL : 4 < L)
    (hm : endMarkerAt page 0) (c : Bool) (k : Nat) : DecompressPage page L c k = [] := by
  obtain ⟨n, rfl⟩ : ∃ n, L = n + 1 := ⟨L - 1, by omega⟩
  rw [DecompressPage, DecompressPage.loop]
  rw [if_pos (by omega), if_pos ⟨by omega, hm⟩]

theorem ofList_slice (m : Mem) (off n i : Nat) (h : i < n) :
    ofList (slice m off n) i = m (off + i) :=
  slice_getD m off n i h

theorem no_endMarker_slice (m : Mem) (off n : Nat) (h : ∀ a, m a ≠ 0xED) :
    ¬ [0x00, 0xED, 0xED, 0x00] <:+: slice m off n := by
  apply no_endMarker_of_no_ED
  intro x hx
  simp only [slice, List.mem_map] at hx
  obtain ⟨i, _, rfl⟩ := hx
  exact h _

theorem slice_three_banks (m : Mem) :
    slice m 0 0xA500 = slice m 0 0x2500 ++ (slice m 0x2500 0x4000 ++ slice m 0x6500 0x4000) := by
  have e := slice_append m 0 0x2500 (0x4000 + 0x4000)
  have e2 := slice_append m (0 + 0x2500) 0x4000 0x4000
  simp only [Nat.reduceAdd] at e e2
  rw [e, e2]

theorem screenPage_ram (env : Env) (m : Machine) (i : Nat) (h : i < 0x2500) :
    SaveZ80Snapshot.screenPage env m (0x1B00 + i) = m.RamBuffer i := by
  have e : 0 + (0x1B00 + i - 0x1B00) = i := by omega
  simp only [SaveZ80Snapshot.screenPage]
  rw [memcpy_apply_in _ _ _ _ _ _ (by omega) (by omega), e]

theorem SaveZ80Snapshot.payload_eight (env : Env) (m : Machine) :
    SaveZ80Snapshot.payload env m 8 = slice (SaveZ80Snapshot.screenPage env m) 0 0x4000 := by
  simp [SaveZ80Snapshot.payload]

theorem SaveZ80Snapshot.payload_four (env : Env) (m : Machine) :
    SaveZ80Snapshot.payload env m 4 = slice m.RamBuffer 0x2500 0x4000 := by
  simp [SaveZ80Snapshot.payload]

theorem SaveZ80Snapshot.payload_five (env : Env) (m : Machine) :
    SaveZ80Snapshot.payload env m 5 = slice m.RamBuffer 0x6500 0x4000 := by
  simp [SaveZ80Snapshot.payload]

theorem loadMachine_input (l : List Nat) : (loadMachine l).file.input = l := rfl

theorem loadMachine_healthy (l : List Nat) : (loadMachine l).file.faultAfter = none := rfl

theorem saveMachine_empty (ram : Mem) (room : Nat) : (saveMachine ram room).file.output = [] :=
  rfl

theorem saveMachine_healthy (ram : Mem) (room : Nat) :
    (saveMachine ram room).file.faultAfter = none := rfl

theorem saveMachine_room (ram : Mem) (room : Nat) : (saveMachine ram room).file.room = room :=
  rfl

theorem payload_markedRam :
    rawDecode (SaveZ80Snapshot.payload plainEnv (saveMachine markedRam 49247) 4) = [] := by
  have hp : SaveZ80Snapshot.payload plainEnv (saveMachine markedRam 49247) 4
      = slice markedRam 0x2500 0x4000 := SaveZ80Snapshot.payload_four _ _
  rw [hp, rawDecode]
  apply DecompressPage_marker_first _ _ (by decide)
  refine ⟨?_, ?_, ?_, ?_⟩
  · rw [ofList_slice _ _ _ _ (by decide)]; decide
  · rw [ofList_slice _ _ _ _ (by decide)]; decide
  · rw [ofList_slice _ _ _ _ (by decide)]; decide
  · rw [ofList_slice _ _ _ _ (by decide)]; decide

/-! ## Save and load together -/

/-- C2: the round trip of memory fails on a RAM image that contains the end marker.  The
image that is zero except for `ED ED` at 0x2501 and 0x2502 is saved with success and the
stream is loaded with success, but the loader stops page 4 at its first byte:
`RamBuffer[0x2500]` keeps the byte `AA` it had before the load, so `RamBuffer[0..0xA500)`
is not the saved image. -/
theorem save_load_marked_ram_lost :
    (SaveZ80Snapshot plainEnv (saveMachine markedRam 49247)).1 = some true
      ∧ (LoadZ80Snapshot plainEnv 3 (loadMachine
          (SaveZ80Snapshot plainEnv (saveMachine markedRam 49247)).2.file.output)).1 = some true
      ∧ slice (LoadZ80Snapshot plainEnv 3 (loadMachine
          (SaveZ80Snapshot plainEnv (saveMachine markedRam 49247)).2.file.output)).2.RamBuffer
            0 0xA500
          ≠ slice markedRam 0 0xA500 := by
  have hsave := SaveZ80Snapshot_ok plainEnv (by decide) (saveMachine markedRam 49247)
    (saveMachine_healthy _ _) (Nat.le_of_eq (saveMachine_room _ _).symm)
  obtain ⟨l1, l2⟩ := load_after_save plainEnv (by decide) (saveMachine markedRam 49247)
    (loadMachine (SaveZ80Snapshot plainEnv (saveMachine markedRam 49247)).2.file.output) 3
    (Nat.le_refl 3) hsave (saveMachine_empty _ _) (loadMachine_input _) (loadMachine_healthy _)
  refine ⟨hsave, l1, ?_⟩
  intro hc
  have h0 := congrArg (fun l => l.getD 0x2500 0) hc
  simp only [slice_getD _ 0 0xA500 0x2500 (by decide)] at h0
  rw [l2, payload_markedRam, store_apply_lt _ _ _ _ (by omega), store_nil,
    memcpy_apply_out _ _ _ _ _ _ (Or.inr (by omega))] at h0
  exact absurd h0 (by decide)

/-- Round trip of a RAM image free of the end marker: if `SaveZ80Snapshot` succeeds, starting with an empty file, and none of the
three 16384-byte page payloads it wrote contains `00 ED ED 00`, then `LoadZ80Snapshot`
reading the written stream on a device without fault, from any RAM content and any scratch
buffers, returns success and leaves `RamBuffer[0..0xA500)` equal to the saved RAM image. -/
theorem save_load_roundtrip (env : Env) (ms ml : Machine) (fuel : Nat) (hss : 0 < env.MIN_SS)
    (hfuel : 3 ≤ fuel) (hsave : (SaveZ80Snapshot env ms).1 = some true)
    (hempty : ms.file.output = [])
    (hn8 : ¬ [0x00, 0xED, 0xED, 0x00] <:+: SaveZ80Snapshot.payload env ms 8)
    (hn4 : ¬ [0x00, 0xED, 0xED, 0x00] <:+: SaveZ80Snapshot.payload env ms 4)
    (hn5 : ¬ [0x00, 0xED, 0xED, 0x00] <:+: SaveZ80Snapshot.payload env ms 5)
    (hin : ml.file.input = (SaveZ80Snapshot env ms).2.file.output)
    (hf : ml.file.faultAfter = none) :
    (LoadZ80Snapshot env fuel ml).1 = some true
      ∧ slice (LoadZ80Snapshot env fuel ml).2.RamBuffer 0 0xA500 = slice ms.RamBuffer 0 0xA500 := by
  obtain ⟨l1, l2⟩ := load_after_save env hss ms ml fuel hfuel hsave hempty hin hf
  refine ⟨l1, ?_⟩
  rw [l2, rawDecode_eq_self _ (SaveZ80Snapshot.length_payload env ms 8) hn8,
    rawDecode_eq_self _ (SaveZ80Snapshot.length_payload env ms 4) hn4,
    rawDecode_eq_self _ (SaveZ80Snapshot.length_payload env ms 5) hn5]
  obtain ⟨a1, a2, a3⟩ := ram_after_three_pages ml.RamBuffer ml.buffer2
    (SaveZ80Snapshot.payload env ms 8) (SaveZ80Snapshot.payload env ms 4)
    (SaveZ80Snapshot.payload env ms 5) (SaveZ80Snapshot.length_payload env ms 8)
    (SaveZ80Snapshot.length_payload env ms 4) (SaveZ80Snapshot.length_payload env ms 5)
  rw [slice_three_banks, a1, a2, a3, slice_three_banks ms.RamBuffer]
  have h8 : (SaveZ80Snapshot.payload env ms 8).drop 0x1B00 = slice ms.RamBuffer 0 0x2500 := by
    rw [SaveZ80Snapshot.payload_eight, slice_drop _ _ _ _ (by omega)]
    refine slice_congr _ _ _ _ _ ?_
    intro i hi
    have e : 0 + 0x1B00 + i = 0x1B00 + i := by omega
    have hi' : i < 0x2500 := by omega
    rw [e, screenPage_ram env ms i hi', Nat.zero_add]
  rw [h8, SaveZ80Snapshot.payload_four, SaveZ80Snapshot.payload_five]

theorem screenPage_onesRam_no_ED (a : Nat) :
    SaveZ80Snapshot.screenPage plainEnv (saveMachine onesRam 49247) a ≠ 0xED := by
  simp only [SaveZ80Snapshot.screenPage, memcpy, saveMachine, blankScreen, plainEnv, onesRam]
  split_ifs <;> decide

theorem payload_onesRam_no_marker (pn : Nat) :
    ¬ [0x00, 0xED, 0xED, 0x00] <:+: SaveZ80Snapshot.payload plainEnv (saveMachine onesRam 49247) pn := by
  simp only [SaveZ80Snapshot.payload]
  split_ifs
  · exact no_endMarker_slice _ _ _ screenPage_onesRam_no_ED
  · exact no_endMarker_slice _ _ _ (fun _ => show (1 : Nat) ≠ 0xED by decide)
  · exact no_endMarker_slice _ _ _ (fun _ => show (1 : Nat) ≠ 0xED by decide)

/-- The round trip of a marker-free image, on a RAM image of all `01` and a blank screen. -/
theorem save_load_roundtrip_witness :
    (LoadZ80Snapshot plainEnv 3 (loadMachine
        (SaveZ80Snapshot plainEnv (saveMachine onesRam 49247)).2.file.output)).1 = some true
      ∧ slice (LoadZ80Snapshot plainEnv 3 (loadMachine
          (SaveZ80Snapshot plainEnv (saveMachine onesRam 49247)).2.file.output)).2.RamBuffer
            0 0xA500
          = slice (saveMachine onesRam 49247).RamBuffer 0 0xA500 :=
  save_load_roundtrip plainEnv (saveMachine onesRam 49247)
    (loadMachine (SaveZ80Snapshot plainEnv (saveMachine onesRam 49247)).2.file.output) 3
    (by decide) (Nat.le_refl 3)
    (SaveZ80Snapshot_ok plainEnv (by decide) (saveMachine onesRam 49247)
      (saveMachine_healthy _ _) (Nat.le_of_eq (saveMachine_room _ _).symm))
    (saveMachine_empty _ _) (payload_onesRam_no_marker 8) (payload_onesRam_no_marker 4)
    (payload_onesRam_no_marker 5) (loadMachine_input _) (loadMachine_healthy _)

/-! ## Further properties of the decoder -/

/-- The decoder sees a page only through the bytes from its current index on: moving the
page `d` bytes up in memory and starting `d` bytes later gives the same output. -/
theorem DecompressPage.loop_shift (p q : Mem) (d L : Nat) (c : Bool) (k : Nat)
    (hpq : ∀ j, p (d + j) = q j) :
    ∀ fuel i size, DecompressPage.loop p (d + L) c k fuel (d + i) size
      = DecompressPage.loop q L c k fuel i size := by
  intro fuel
  induction fuel with
  | zero => intros; rfl
  | succ fuel ih =>
    intro i size
    have e1 : d + i + 1 = d + (i + 1) := by omega
    have e2 : d + i + 2 = d + (i + 2) := by omega
    have e3 : d + i + 3 = d + (i + 3) := by omega
    have e4 : d + i + 4 = d + (i + 4) := by omega
    have c1 : (d + i < d + L) = (i < L) := by simp
    have c2 : (d + (i + 4) < d + L) = (i + 4 < L) := by simp
    simp only [DecompressPage.loop, e1, e2, e3, e4, hpq, ih, c1, c2]

/-- C15: the escape `ED ED n v` at the start of a compressed page, followed by at least one
more byte, yields `n` copies of `v` (none when `n = 0`), and the decoder then goes on exactly
as it would on the rest of the page alone. -/
theorem DecompressPage_escape_resume (n v : Nat) (rest : List Nat) (hne : rest ≠ []) :
    DecompressPage (ofList (0xED :: 0xED :: n :: v :: rest)) (4 + rest.length) true 0
      = List.replicate n v ++ DecompressPage (ofList rest) rest.length true 0 := by
  have hpos : 0 < rest.length := List.length_pos.mpr hne
  have hfuel : 4 + rest.length = (rest.length + 3) + 1 := by omega
  have hshift := DecompressPage.loop_shift (ofList (0xED :: 0xED :: n :: v :: rest))
    (ofList rest) 4 rest.length true 0
    (fun j => by rw [Nat.add_comm 4 j]; simp [ofList]) (rest.length + 3) 0 0
  rw [DecompressPage, DecompressPage, hfuel, DecompressPage.loop_uncapped_succ, ← hfuel]
  rw [if_pos (by omega), if_neg (by simp [ofList]),
    if_pos ⟨by omega, rfl, by simp [ofList], by simp [ofList]⟩]
  have h2 : ofList (0xED :: 0xED :: n :: v :: rest) (0 + 2) = n := by simp [ofList]
  have h3 : ofList (0xED :: 0xED :: n :: v :: rest) (0 + 3) = v := by simp [ofList]
  rw [h2, h3]
  simp only [Nat.add_zero, Nat.zero_add] at hshift ⊢
  rw [hshift, DecompressPage.loop_fuel_add (ofList rest) rest.length true 0 rest.length 0 0
    (by omega) 3]

/-- C15 on the page `ED ED 03 07 09`: three bytes `07`, then what the one-byte page `09`
gives. -/
theorem DecompressPage_escape_resume_witness :
    DecompressPage (ofList (0xED :: 0xED :: 3 :: 7 :: [9])) (4 + [9].length) true 0
      = List.replicate 3 7 ++ DecompressPage (ofList [9]) [9].length true 0 :=
  DecompressPage_escape_resume 3 7 [9] (by decide)

/-- C18: a raw page (`isCompressed = false`, no cap) that nowhere contains the four
consecutive bytes `00 ED ED 00` is stored unchanged: same bytes, same length. -/
theorem DecompressPage_raw_copy (l : List Nat) (hno : ¬ [0x00, 0xED, 0xED, 0x00] <:+: l) :
    DecompressPage (ofList l) l.length false 0 = l
      ∧ (DecompressPage (ofList l) l.length false 0).length = l.length := by
  have h := DecompressPage_raw_uncapped l hno
  exact ⟨h, by rw [h]⟩

/-- C18 on the raw page `ED ED 05 00`, which is copied although it looks like an escape. -/
theorem DecompressPage_raw_copy_witness :
    DecompressPage (ofList [0xED, 0xED, 5, 0]) [0xED, 0xED, 5, 0].length false 0
        = [0xED, 0xED, 5, 0]
      ∧ (DecompressPage (ofList [0xED, 0xED, 5, 0]) [0xED, 0xED, 5, 0].length false 0).length
        = [0xED, 0xED, 5, 0].length :=
  DecompressPage_raw_copy [0xED, 0xED, 5, 0] (by decide)

theorem DecompressPage.traced_fst (page : Mem) (L : Nat) (c : Bool) (k : Nat) :
    ∀ fuel i size, (DecompressPage.traced page L c k fuel i size).1
      = DecompressPage.loop page L c k fuel i size := by
  intro fuel
  induction fuel with
  | zero => intros; rfl
  | succ fuel ih =>
    intro i size
    simp only [DecompressPage.traced, DecompressPage.loop]
    split_ifs <;> simp only [ih]

theorem DecompressPage.markerReads_le (page : Mem) (i j : Nat)
    (h : j ∈ DecompressPage.markerReads page i) : j ≤ i + 3 := by
  simp only [DecompressPage.markerReads] at h
  split_ifs at h <;> simp at h <;> omega

theorem DecompressPage.escapeReads_le (page : Mem) (c : Bool) (i j : Nat)
    (h : j ∈ DecompressPage.escapeReads page c i) : j ≤ i + 1 := by
  simp only [DecompressPage.escapeReads] at h
  split_ifs at h <;> simp at h <;> omega

theorem DecompressPage.traced_reads_lt (page : Mem) (L : Nat) (c : Bool) (k : Nat) :
    ∀ fuel i size, ∀ j ∈ (DecompressPage.traced page L c k fuel i size).2, j < L := by
  intro fuel
  induction fuel with
  | zero => intro i size j hj; simp [DecompressPage.traced] at hj
  | succ fuel ih =>
    intro i size j hj
    simp only [DecompressPage.traced] at hj
    by_cases hi : i < L
    · rw [if_pos hi] at hj
      by_cases h4 : i + 4 < L
      · have hm : ∀ x ∈ DecompressPage.markerReads page i, x < L := fun x hx => by
          have := DecompressPage.markerReads_le page i x hx
          omega
        have he : ∀ x ∈ DecompressPage.escapeReads page c i, x < L := fun x hx => by
          have := DecompressPage.escapeReads_le page c i x hx
          omega
        split_ifs at hj
        · exact hm j hj
        · simp only [List.mem_append, List.mem_cons, List.mem_singleton, List.not_mem_nil,
            or_false] at hj
          rcases hj with (h | h) | h | h
          · exact hm j h
          · exact he j h
          · omega
          · omega
        · simp only [List.mem_append, List.mem_cons, List.mem_singleton, List.not_mem_nil,
            or_false] at hj
          rcases hj with ((h | h) | h | h) | h
          · exact hm j h
          · exact he j h
          · omega
          · omega
          · exact ih _ _ j h
        · simp only [List.mem_append, List.mem_singleton] at hj
          rcases hj with (h | h) | h
          · exact hm j h
          · exact he j h
          · omega
        · simp only [List.mem_append, List.mem_singleton] at hj
          rcases hj with ((h | h) | h) | h
          · exact hm j h
          · exact he j h
          · omega
          · exact ih _ _ j h
      · simp only [h4, false_and, if_false, List.nil_append] at hj
        split_ifs at hj
        · simp only [List.mem_singleton] at hj
          omega
        · simp only [List.singleton_append, List.mem_cons] at hj
          rcases hj with h | h
          · omega
          · exact ih _ _ j h
    · rw [if_neg hi] at hj
      simp at hj

/-- C19: every index at which `DecompressPage` reads its source page (the lookahead of the
end-marker test and of the escape test, the count and value bytes of an escape, the byte of
a literal) is below `pageLength`, whatever the page, the flag and the cap are; the traced
run stores the same bytes as `DecompressPage`. -/
theorem DecompressPage_reads_in_bounds (page : Mem) (pageLength : Nat) (isCompressed : Bool)
    (maxSize : Nat) :
    (DecompressPage.traced page pageLength isCompressed maxSize pageLength 0 0).1
        = DecompressPage page pageLength isCompressed maxSize
      ∧ ∀ j ∈ DecompressPage.reads page pageLength isCompressed maxSize, j < pageLength :=
  ⟨DecompressPage.traced_fst page pageLength isCompressed maxSize pageLength 0 0,
    DecompressPage.traced_reads_lt page pageLength isCompressed maxSize pageLength 0 0⟩

/-! ## Further properties of the header codec -/

theorem and_0x80_mod (r : Nat) : r &&& 0x80 = (r % 256) &&& 0x80 := by
  have e : r % 256 = r &&& 255 := (Nat.and_pow_two_sub_one_eq_mod r 8).symm
  rw [e, Nat.and_assoc]
  rfl

theorem testBit7_mod (r : Nat) : (r % 256).testBit 7 = r.testBit 7 := by
  have e : (256 : Nat) = 2 ^ 8 := by norm_num
  rw [e, Nat.testBit_mod_two_pow]
  simp

set_option maxRecDepth 100000 in
theorem flags1_layout : ∀ r, r < 256 → ∀ b, b < 8 →
    ((((r &&& 0x80) >>> 7) ||| (b <<< 1)) % 256).testBit 0 = r.testBit 7 ∧
    (((((r &&& 0x80) >>> 7) ||| (b <<< 1)) % 256) >>> 1) &&& 7 = b ∧
    ((((r &&& 0x80) >>> 7) ||| (b <<< 1)) % 256) >>> 4 = 0 := by
  decide

/-- The border setting that `ReadState` stores is `FromSpectrumColor` of the index
`ReadState.borderColor` of the header handed in, for every header. -/
theorem ReadState_BorderColor (env : Env) (header : FileHeader) (cpu : Z80_STATE)
    (screen : SpectrumScreen) :
    (ReadState env header cpu screen).2.2.BorderColor
      = env.FromSpectrumColor (ReadState.borderColor header) := by
  simp only [ReadState, ReadState.borderColor]
  split_ifs <;> rfl

/-- C16: the flags byte (offset 12) written by `SaveState` has bit 0 equal to bit 7 of R,
bits 1-3 equal to the low three bits of the border setting and bits 4-7 zero; it is at most
15, so never the sentinel `0xFF`; `ReadState` on that header takes the border index
`border AND 7` from it, so that the border setting it stores is `FromSpectrumColor` of
`border AND 7` whatever the colour transform is, and it gives R the same bit 7. -/
theorem SaveState_flags_byte (env : Env) (header0 : FileHeader) (cpu cpu0 : Z80_STATE)
    (screen screen0 : SpectrumScreen) :
    (SaveState header0 cpu screen).Flags1.testBit 0 = cpu.r.testBit 7
      ∧ ((SaveState header0 cpu screen).Flags1 >>> 1) &&& 7 = screen.BorderColor &&& 7
      ∧ (SaveState header0 cpu screen).Flags1 >>> 4 = 0
      ∧ (SaveState header0 cpu screen).Flags1 ≤ 15
      ∧ (SaveState header0 cpu screen).Flags1 ≠ 0xFF
      ∧ ReadState.borderColor (SaveState header0 cpu screen) = screen.BorderColor &&& 7
      ∧ (ReadState env (SaveState header0 cpu screen) cpu0 screen0).2.2.BorderColor
          = env.FromSpectrumColor (screen.BorderColor &&& 7)
      ∧ (ReadState env (SaveState header0 cpu screen) cpu0 screen0).2.2
          = { screen0 with BorderColor := env.FromSpectrumColor (screen.BorderColor &&& 7) }
      ∧ (ReadState env (SaveState header0 cpu screen) cpu0 screen0).2.1.r.testBit 7
          = cpu.r.testBit 7 := by
  have hb : screen.BorderColor &&& 0x07 < 8 := Nat.lt_succ_of_le Nat.and_le_right
  have hr : cpu.r % 256 < 256 := Nat.mod_lt _ (by decide)
  obtain ⟨l1, l2, l3⟩ := flags1_layout (cpu.r % 256) hr _ hb
  obtain ⟨g1, g2, g3, g4⟩ := flags1_bits (cpu.r % 256) hr _ hb
  rw [← and_0x80_mod] at l1 l2 l3 g1 g2 g3 g4
  rw [testBit7_mod] at l1
  rw [Nat.mod_mod] at g2
  have hf : (SaveState header0 cpu screen).Flags1
      = (((cpu.r &&& 0x80) >>> 7) ||| ((screen.BorderColor &&& 0x07) <<< 1)) % 256 := rfl
  have hbc : ReadState.borderColor (SaveState header0 cpu screen) = screen.BorderColor &&& 7 := by
    simp only [ReadState.borderColor, hf, if_neg g1]
    exact g3
  refine ⟨by rw [hf]; exact l1, by rw [hf]; exact l2, by rw [hf]; exact l3, by rw [hf]; exact g4,
    by rw [hf]; exact g1, hbc, ?_, ?_, ?_⟩
  · rw [ReadState_BorderColor, hbc]
  · have hne : ¬ (SaveState header0 cpu screen).Flags1 = 255 := by rw [hf]; exact g1
    have hidx : ((SaveState header0 cpu screen).Flags1 &&& 0x0E) >>> 1
        = screen.BorderColor &&& 7 := by
      rw [← hbc]
      simp only [ReadState.borderColor, if_neg hne]
    simp only [ReadState, if_neg hne, hidx]
  · have hne : ¬ (SaveState header0 cpu screen).Flags1 = 255 := by rw [hf]; exact g1
    simp only [ReadState, if_neg hne]
    have hrr : (SaveState header0 cpu screen).RefreshRegister = cpu.r % 256 := rfl
    rw [hrr, hf, g2, testBit7_mod]

/-! ## Properties of the saver -/

theorem SaveState_bytes_version (h : FileHeader) (cpu : Z80_STATE) (scr : SpectrumScreen) :
    (SaveState h cpu scr).bytes.getD 6 0 = 0 ∧ (SaveState h cpu scr).bytes.getD 7 0 = 0 := by
  simp [FileHeader.bytes, SaveState, le16]

/-- C13: on a device that takes every write in full (no fault, room for 49247 bytes)
`SaveZ80Snapshot` returns success, and what it has appended to the file is, in order: the
34 header bytes of `SaveState` (version field 0, extended-length field 54), 52 zero bytes,
and the three records `FF FF 08`, `FF FF 04`, `FF FF 05`, each with a 16384-byte payload;
49247 bytes in all. -/
theorem SaveZ80Snapshot_framing (env : Env) (m : Machine) (hss : 0 < env.MIN_SS)
    (hf : m.file.faultAfter = none) (hroom : 49247 ≤ m.file.room) :
    (SaveZ80Snapshot env m).1 = some true
      ∧ (SaveZ80Snapshot env m).2.file.output
          = m.file.output ++ (SaveState (FileHeader.read m.buffer1) m.cpu m.screen).bytes
            ++ List.replicate 52 0 ++ rawRecord 8 (SaveZ80Snapshot.payload env m 8)
            ++ rawRecord 4 (SaveZ80Snapshot.payload env m 4)
            ++ rawRecord 5 (SaveZ80Snapshot.payload env m 5)
      ∧ (SaveState (FileHeader.read m.buffer1) m.cpu m.screen).bytes.length = 34
      ∧ (SaveState (FileHeader.read m.buffer1) m.cpu m.screen).bytes.getD 6 0 = 0
      ∧ (SaveState (FileHeader.read m.buffer1) m.cpu m.screen).bytes.getD 7 0 = 0
      ∧ (SaveState (FileHeader.read m.buffer1) m.cpu m.screen).bytes.getD 30 0 = 54
      ∧ (SaveState (FileHeader.read m.buffer1) m.cpu m.screen).bytes.getD 31 0 = 0
      ∧ (SaveZ80Snapshot.payload env m 8).length = 16384
      ∧ (SaveZ80Snapshot.payload env m 4).length = 16384
      ∧ (SaveZ80Snapshot.payload env m 5).length = 16384
      ∧ (SaveZ80Snapshot env m).2.file.output.length = m.file.output.length + 49247 := by
  have hok := SaveZ80Snapshot_ok env hss m hf hroom
  obtain ⟨hout, _⟩ := SaveZ80Snapshot_output env m hok
  obtain ⟨v6, v7⟩ := SaveState_bytes_version (FileHeader.read m.buffer1) m.cpu m.screen
  obtain ⟨e30, e31⟩ := SaveState_bytes_extLength (FileHeader.read m.buffer1) m.cpu m.screen
  refine ⟨hok, hout, FileHeader.length_bytes _, v6, v7, e30, e31,
    SaveZ80Snapshot.length_payload _ _ _, SaveZ80Snapshot.length_payload _ _ _,
    SaveZ80Snapshot.length_payload _ _ _, ?_⟩
  have hlen := congrArg List.length hout
  simp only [List.length_append, FileHeader.length_bytes, List.length_replicate, rawRecord,
    List.length_cons, List.length_nil, SaveZ80Snapshot.length_payload] at hlen
  omega

/-- C13 on a RAM image of all `01`, a blank screen and a medium with room for exactly
49247 bytes. -/
theorem SaveZ80Snapshot_framing_witness :
    (SaveZ80Snapshot plainEnv (saveMachine onesRam 49247)).1 = some true
      ∧ (SaveZ80Snapshot plainEnv (saveMachine onesRam 49247)).2.file.output.length
          = (saveMachine onesRam 49247).file.output.length + 49247 :=
  have h := SaveZ80Snapshot_framing plainEnv (saveMachine onesRam 49247) (by decide)
    (saveMachine_healthy _ _) (Nat.le_of_eq (saveMachine_room _ _).symm)
  ⟨h.1, h.2.2.2.2.2.2.2.2.2.2⟩

theorem slice_split3 (m : Mem) (a b c : Nat) :
    slice m 0 (a + b + c) = slice m 0 a ++ slice m a b ++ slice m (a + b) c := by
  rw [slice_append, slice_append, Nat.zero_add, Nat.zero_add]

/-- The page-8 buffer of `SaveZ80Snapshot` when pixels and attributes fill `0x1B00` bytes and
the transformed attributes are bytes. -/
theorem SaveZ80Snapshot.screenPage_layout (env : Env) (m : Machine)
    (hcount : m.screen.pixelCount + m.screen.attributeCount = 0x1B00)
    (hbyte : ∀ i, i < m.screen.attributeCount →
      env.ToSpectrumColor (m.screen.Attributes i) < 256) :
    slice (SaveZ80Snapshot.screenPage env m) 0 0x4000
      = slice m.screen.Pixels 0 m.screen.pixelCount
        ++ (slice m.screen.Attributes 0 m.screen.attributeCount).map env.ToSpectrumColor
        ++ slice m.RamBuffer 0 0x2500 := by
  have e : (0x4000 : Nat) = m.screen.pixelCount + m.screen.attributeCount + 0x2500 := by omega
  refine (congrArg (slice (SaveZ80Snapshot.screenPage env m) 0) e).trans ?_
  rw [slice_split3]
  have p1 : slice (SaveZ80Snapshot.screenPage env m) 0 m.screen.pixelCount
      = slice m.screen.Pixels 0 m.screen.pixelCount := by
    refine slice_congr _ _ _ _ _ ?_
    intro i hi
    simp only [SaveZ80Snapshot.screenPage]
    rw [memcpy_apply_out _ _ _ _ _ _ (Or.inl (by omega)), if_neg (by omega),
      memcpy_apply_in _ _ _ _ _ _ (by omega) (by omega)]
    congr 1
    omega
  have p2 : slice (SaveZ80Snapshot.screenPage env m) m.screen.pixelCount
        m.screen.attributeCount
      = (slice m.screen.Attributes 0 m.screen.attributeCount).map env.ToSpectrumColor := by
    simp only [slice, List.map_map]
    apply List.map_congr_left
    intro i hi
    have hi' : i < m.screen.attributeCount := List.mem_range.mp hi
    have e1 : m.screen.pixelCount + i - m.screen.pixelCount = i := by omega
    simp only [SaveZ80Snapshot.screenPage, Function.comp]
    rw [memcpy_apply_out _ _ _ _ _ _ (Or.inl (by omega)), if_pos ⟨by omega, by omega⟩, e1,
      Nat.mod_eq_of_lt (hbyte i hi'), Nat.zero_add]
  have p3 : slice (SaveZ80Snapshot.screenPage env m)
        (m.screen.pixelCount + m.screen.attributeCount) 0x2500
      = slice m.RamBuffer 0 0x2500 := by
    rw [hcount]
    refine slice_congr _ _ _ _ _ ?_
    intro i hi
    rw [screenPage_ram env m i hi, Nat.zero_add]
  rw [p1, p2, p3]

/-- C17: when pixel and attribute counts add up to `0x1B00` (and `ToSpectrumColor` yields
bytes on the attributes), a successful `SaveZ80Snapshot` has written as payload of page 8
the pixel bytes, then `ToSpectrumColor` of each attribute in order, then
`RamBuffer[0..0x2500)` (so at payload offset `0x1B00`); as payload of page 4
`RamBuffer[0x2500..0x6500)` and as payload of page 5 `RamBuffer[0x6500..0xA500)`. -/
theorem SaveZ80Snapshot_payloads (env : Env) (m : Machine)
    (hcount : m.screen.pixelCount + m.screen.attributeCount = 0x1B00)
    (hbyte : ∀ i, i < m.screen.attributeCount →
      env.ToSpectrumColor (m.screen.Attributes i) < 256)
    (hsave : (SaveZ80Snapshot env m).1 = some true) :
    (SaveZ80Snapshot env m).2.file.output
        = m.file.output ++ (SaveState (FileHeader.read m.buffer1) m.cpu m.screen).bytes
          ++ List.replicate 52 0
          ++ rawRecord 8 (slice m.screen.Pixels 0 m.screen.pixelCount
              ++ (slice m.screen.Attributes 0 m.screen.attributeCount).map env.ToSpectrumColor
              ++ slice m.RamBuffer 0 0x2500)
          ++ rawRecord 4 (slice m.RamBuffer 0x2500 0x4000)
          ++ rawRecord 5 (slice m.RamBuffer 0x6500 0x4000)
      ∧ (slice m.screen.Pixels 0 m.screen.pixelCount
          ++ (slice m.screen.Attributes 0 m.screen.attributeCount).map env.ToSpectrumColor).length
        = 0x1B00 := by
  obtain ⟨hout, _⟩ := SaveZ80Snapshot_output env m hsave
  rw [SaveZ80Snapshot.payload_eight, SaveZ80Snapshot.payload_four, SaveZ80Snapshot.payload_five,
    SaveZ80Snapshot.screenPage_layout env m hcount hbyte] at hout
  refine ⟨hout, ?_⟩
  rw [List.length_append, List.length_map, length_slice, length_slice, hcount]

/-- C17 on a RAM image of all `01` and a blank screen of 6144 pixel bytes and 768
attributes. -/
theorem SaveZ80Snapshot_payloads_witness :
    (SaveZ80Snapshot plainEnv (saveMachine onesRam 49247)).2.file.output
        = (saveMachine onesRam 49247).file.output
          ++ (SaveState (FileHeader.read (saveMachine onesRam 49247).buffer1)
              (saveMachine onesRam 49247).cpu (saveMachine onesRam 49247).screen).bytes
          ++ List.replicate 52 0
          ++ rawRecord 8 (slice (saveMachine onesRam 49247).screen.Pixels 0
                (saveMachine onesRam 49247).screen.pixelCount
              ++ (slice (saveMachine onesRam 49247).screen.Attributes 0
                (saveMachine onesRam 49247).screen.attributeCount).map plainEnv.ToSpectrumColor
              ++ slice (saveMachine onesRam 49247).RamBuffer 0 0x2500)
          ++ rawRecord 4 (slice (saveMachine onesRam 49247).RamBuffer 0x2500 0x4000)
          ++ rawRecord 5 (slice (saveMachine onesRam 49247).RamBuffer 0x6500 0x4000)
      ∧ (slice (saveMachine onesRam 49247).screen.Pixels 0
            (saveMachine onesRam 49247).screen.pixelCount
          ++ (slice (saveMachine onesRam 49247).screen.Attributes 0
            (saveMachine onesRam 49247).screen.attributeCount).map
              plainEnv.ToSpectrumColor).length
        = 0x1B00 :=
  SaveZ80Snapshot_payloads plainEnv (saveMachine onesRam 49247) (by decide)
    (fun _ _ => show (0 : Nat) < 256 by decide)
    (SaveZ80Snapshot_ok plainEnv (by decide) (saveMachine onesRam 49247)
      (saveMachine_healthy _ _) (Nat.le_of_eq (saveMachine_room _ _).symm))

/-! ## The bare screen image -/

/-- A chunked read that asks for more than the stream holds returns failure. -/
theorem readChunks_short (env : Env) (hss : 0 < env.MIN_SS) :
    ∀ fuel (file : FIL) (buf : Mem) (off n : Nat), file.faultAfter = none →
      file.input.length < n → n < fuel →
      (readChunks env fuel file buf off n).1 = some false := by
  intro fuel
  induction fuel with
  | zero => intro file buf off n _ _ h; omega
  | succ fuel ih =>
    intro file buf off n hf hn hfuel
    by_cases hlt : env.MIN_SS < n
    · have hc : (if n < env.MIN_SS then n else env.MIN_SS) = env.MIN_SS := by
        rw [if_neg (by omega)]
      obtain ⟨r1, r2, r3, r4⟩ := f_read_ok file .body off env.MIN_SS hf
      simp only [readChunks, hc]
      rw [r1, r2]
      by_cases hfull : (List.take env.MIN_SS file.input).length = env.MIN_SS
      · rw [hfull, if_neg (by simp), if_pos (by omega)]
        have hge : env.MIN_SS ≤ file.input.length := by
          rw [List.length_take] at hfull
          omega
        exact ih _ _ _ _ r4 (by rw [r3, List.length_drop]; omega) (by omega)
      · rw [if_pos (Or.inr hfull)]
    · have hc : (if n < env.MIN_SS then n else env.MIN_SS) = n := by
        split_ifs <;> omega
      obtain ⟨r1, r2, r3, r4⟩ := f_read_ok file .body off n hf
      have hlen : (List.take n file.input).length ≠ n := by
        rw [List.length_take]; omega
      simp only [readChunks, hc]
      rw [r1, r2, if_pos (Or.inr hlen)]

/-- C14: on a finite byte stream without device error `LoadScreenshot` returns success
exactly when at least 6912 bytes remain (failure otherwise); on success `buffer1[0..6912)`
holds the next 6912 bytes of the stream and exactly those have been consumed. -/
theorem LoadScreenshot_block_copy (env : Env) (m : Machine) (hss : 0 < env.MIN_SS)
    (hf : m.file.faultAfter = none) :
    ((LoadScreenshot env m).1 = some true ↔ 6912 ≤ m.file.input.length)
      ∧ (m.file.input.length < 6912 → (LoadScreenshot env m).1 = some false)
      ∧ (6912 ≤ m.file.input.length →
          slice (LoadScreenshot env m).2.buffer1 0 6912 = m.file.input.take 6912
            ∧ (LoadScreenshot env m).2.file.input = m.file.input.drop 6912) := by
  have hfail : m.file.input.length < 6912 → (LoadScreenshot env m).1 = some false := by
    intro hlt
    have h := readChunks_short env hss (6912 + 1) m.file m.buffer1 0 6912 hf hlt (by omega)
    simp only [LoadScreenshot, h]
  have hgood : 6912 ≤ m.file.input.length →
      (LoadScreenshot env m).1 = some true
        ∧ slice (LoadScreenshot env m).2.buffer1 0 6912 = m.file.input.take 6912
        ∧ (LoadScreenshot env m).2.file.input = m.file.input.drop 6912 := by
    intro hge
    obtain ⟨c1, c2, c3, c4⟩ := readChunks_complete env hss (6912 + 1) m.file m.buffer1 0 6912 hf
      hge (by omega)
    have hl : (m.file.input.take 6912).length = 6912 := by
      rw [List.length_take]; omega
    simp only [LoadScreenshot, c1]
    refine ⟨trivial, ?_, c2⟩
    show slice (readChunks env (6912 + 1) m.file m.buffer1 0 6912).2.2 0 6912 = _
    rw [c4]
    have hs := slice_store m.buffer1 0 (m.file.input.take 6912)
    rw [hl] at hs
    exact hs
  refine ⟨⟨fun h => ?_, fun h => (hgood h).1⟩, hfail, fun h => (hgood h).2⟩
  by_contra hlt
  rw [hfail (by omega)] at h
  exact absurd h (by decide)

/-! ## Transfers stay inside `buffer1` -/

theorem allInBuffer_nil : allInBuffer [] := fun _ h => absurd h (List.not_mem_nil _)

theorem allInBuffer_append_one (log : List Transfer) (t : Transfer) (h : allInBuffer log)
    (ht : t.inBuffer) : allInBuffer (log ++ [t]) := by
  intro x hx
  rcases List.mem_append.mp hx with h1 | h1
  · exact h x h1
  · rw [List.mem_singleton.mp h1]
    exact ht

theorem f_read_length_le (file : FIL) (site : Site) (off n : Nat) :
    (f_read file site off n).2.1.length ≤ n := by
  simp only [f_read]
  split_ifs
  · exact Nat.zero_le _
  · simp only [List.length_take]
    exact Nat.min_le_left _ _

/-- A read of at most `n` bytes to `&buffer1[off]` with `off + n ≤ 0x4000` stays inside the
buffer. -/
theorem f_read_inBuffer (file : FIL) (site : Site) (off n : Nat) (h : allInBuffer file.reads)
    (hcap : off + n ≤ 0x4000) : allInBuffer (f_read file site off n).2.2.reads := by
  rw [f_read_reads]
  refine allInBuffer_append_one _ _ h ?_
  have := f_read_length_le file site off n
  show off + (f_read file site off n).2.1.length ≤ 0x4000
  omega

/-- The chunked read of `n` bytes to `&buffer1[off]` with `off + n ≤ 0x4000` stays inside
the buffer, however it ends. -/
theorem readChunks_inBuffer (env : Env) :
    ∀ fuel (file : FIL) (buf : Mem) (off n : Nat), allInBuffer file.reads →
      off + n ≤ 0x4000 → allInBuffer (readChunks env fuel file buf off n).2.1.reads := by
  intro fuel
  induction fuel with
  | zero => intro file buf off n h _; exact h
  | succ fuel ih =>
    intro file buf off n h hcap
    simp only [readChunks]
    have hcn : (if n < env.MIN_SS then n else env.MIN_SS) ≤ n := by
      split_ifs <;> omega
    generalize (if n < env.MIN_SS then n else env.MIN_SS) = c at hcn
    have hr := f_read_inBuffer file .body off c h (by omega)
    have hl := f_read_length_le file .body off c
    by_cases hfail : (f_read file .body off c).1 ≠ .FR_OK ∨ (f_read file .body off c).2.1.length ≠ c
    · rw [if_pos hfail]
      exact hr
    · rw [if_neg hfail]
      by_cases hrem : n - (f_read file .body off c).2.1.length > 0
      · rw [if_pos hrem]
        exact ih _ _ _ _ hr (by omega)
      · rw [if_neg hrem]
        exact hr

/-- A pass of the page loop of `LoadZ80Snapshot` over a record whose body fits `buffer1`
stays inside the buffer. -/
theorem LoadZ80Snapshot.body_inBuffer (env : Env) (m : Machine) (pageSize pageNumber : Nat)
    (h : allInBuffer m.file.reads)
    (hcap : (if pageSize = 0xFFFF then 0x4000 else pageSize) ≤ 0x4000) :
    allInBuffer (LoadZ80Snapshot.body env m pageSize pageNumber).machine.file.reads := by
  have hL : (if decide (pageSize ≠ 0xFFFF) = false then 0x4000 else pageSize)
      = (if pageSize = 0xFFFF then 0x4000 else pageSize) := by
    by_cases h : pageSize = 0xFFFF <;> simp [h]
  simp only [LoadZ80Snapshot.body, hL]
  generalize (if pageSize = 0xFFFF then 0x4000 else pageSize) = ps at hcap
  generalize decide (pageSize ≠ 0xFFFF) = isCompressed
  by_cases hpn : pageNumber = 8 ∨ pageNumber = 4 ∨ pageNumber = 5
  · rw [if_pos hpn]
    have hc := readChunks_inBuffer env (ps + 1) m.file m.buffer1 0 ps h (by omega)
    generalize readChunks env (ps + 1) m.file m.buffer1 0 ps = rd at hc
    obtain ⟨res, file, buf⟩ := rd
    simp only at hc
    match res with
    | none => exact hc
    | some false => exact hc
    | some true =>
      have hn := f_read_inBuffer file .nextPage 0 3 hc (by omega)
      dsimp only
      split_ifs <;> exact hn
  · rw [if_neg hpn]
    split_ifs <;> exact h

/-- A pass of the page loop of `LoadScreenFromZ80Snapshot` over a record whose body fits
`buffer1` stays inside the buffer. -/
theorem LoadScreenFromZ80Snapshot.pass_inBuffer (env : Env) (m : Machine)
    (pageSize pageNumber : Nat) (h : allInBuffer m.file.reads)
    (hcap : (if pageSize = 0xFFFF then 0x4000 else pageSize) ≤ 0x4000) :
    allInBuffer (LoadScreenFromZ80Snapshot.body env m pageSize pageNumber).machine.file.reads := by
  have hL : (if decide (pageSize ≠ 0xFFFF) = false then 0x4000 else pageSize)
      = (if pageSize = 0xFFFF then 0x4000 else pageSize) := by
    by_cases h : pageSize = 0xFFFF <;> simp [h]
  simp only [LoadScreenFromZ80Snapshot.body, LoadScreenFromZ80Snapshot.bodyTraced, hL]
  generalize (if pageSize = 0xFFFF then 0x4000 else pageSize) = ps at hcap
  generalize decide (pageSize ≠ 0xFFFF) = isCompressed
  have hc := readChunks_inBuffer env (ps + 1) m.file m.buffer1 0 ps h (by omega)
  generalize readChunks env (ps + 1) m.file m.buffer1 0 ps = rd at hc
  obtain ⟨res, file, buf⟩ := rd
  simp only at hc
  match res with
  | none => exact hc
  | some false => exact hc
  | some true =>
    have hn := f_read_inBuffer file .nextPage 0 3 hc (by omega)
    dsimp only
    split_ifs <;> exact hn

theorem loadMachine_fresh (l : List Nat) : allInBuffer (loadMachine l).file.reads :=
  allInBuffer_nil

/-! ## The extended-length field -/

/-- The two header reads of `LoadZ80Snapshot` for any extended-length field `E ≥ 2` with
`E + 1 ≤ 0x4000`: after the 34-byte header it reads `E + 1` bytes, the `E - 2` that remain of
the header and a page header `a b c`, which fit `buffer1`, and enters the page loop; the
value of `E` is not looked at otherwise. -/
theorem LoadZ80Snapshot.start_any (env : Env) (fuel : Nat) (m : Machine)
    (hdr ext : List Nat) (a b c : Nat) (rest : List Nat) (E : Nat)
    (hf : m.file.faultAfter = none) (hlog : allInBuffer m.file.reads) (hhdr : hdr.length = 34)
    (hE : hdr.getD 30 0 + 256 * hdr.getD 31 0 = E) (hext : ext.length + 2 = E)
    (hcap : E + 1 ≤ 0x4000)
    (hin : m.file.input = hdr ++ ext ++ a :: b :: c :: rest) :
    ∃ m0 : Machine,
      LoadZ80Snapshot env fuel m
          = LoadZ80Snapshot.loop env fuel m0 ((a ||| (b <<< 8)) % 65536) c
        ∧ m0.file.input = rest ∧ m0.file.faultAfter = none
        ∧ m0.buffer2 = m.buffer2 ∧ m0.RamBuffer = m.RamBuffer
        ∧ allInBuffer m0.file.reads := by
  obtain ⟨r1, r2, r3, r4⟩ := f_read_ok m.file .header 0 34 hf
  have hin' : m.file.input = hdr ++ (ext ++ a :: b :: c :: rest) := by
    rw [hin, List.append_assoc]
  have ht : m.file.input.take 34 = hdr := by rw [hin', ← hhdr, List.take_left]
  have hd : m.file.input.drop 34 = ext ++ a :: b :: c :: rest := by
    rw [hin', ← hhdr, List.drop_left]
  rw [ht] at r2
  rw [hd] at r3
  obtain ⟨s1, s2, s3, s4⟩ := f_read_ok (f_read m.file .header 0 34).2.2 .extension 0
    (ext.length + 3) r4
  rw [r3] at s2 s3
  have hsplit : ext ++ a :: b :: c :: rest = (ext ++ [a, b, c]) ++ rest := by simp
  have ht2 : (ext ++ a :: b :: c :: rest).take (ext.length + 3) = ext ++ [a, b, c] := by
    rw [hsplit]
    exact List.take_left' (by simp)
  have hd2 : (ext ++ a :: b :: c :: rest).drop (ext.length + 3) = rest := by
    rw [hsplit]
    exact List.drop_left' (by simp)
  rw [ht2] at s2
  rw [hd2] at s3
  have habl : (FileHeader.read (store m.buffer1 0 hdr)).AdditionalBlockLength = E := by
    simp only [FileHeader.read, rd16]
    rw [store_apply_in _ _ _ _ (by omega) (by omega), store_apply_in _ _ _ _ (by omega) (by omega)]
    simp only [Nat.sub_zero]
    exact hE
  have habl' : FileHeader.AdditionalBlockLength
      (ReadState env (FileHeader.read (store m.buffer1 0 hdr)) m.cpu m.screen).1 + 3 - 2
        = ext.length + 3 := by
    have : FileHeader.AdditionalBlockLength
        (ReadState env (FileHeader.read (store m.buffer1 0 hdr)) m.cpu m.screen).1 = E := by
      simp only [ReadState]
      split_ifs <;> simp only [habl]
    rw [this]
    omega
  have hbytes : ∀ (X : Mem) (i : Nat), i < 3 →
      store X 0 (ext ++ [a, b, c]) (ext.length + i) = [a, b, c].getD i 0 := by
    intro X i hi
    rw [store_apply_in _ _ _ _ (by omega) (by simp; omega),
      List.getD_append_right _ _ _ _ (by omega)]
    congr 1
    omega
  have e0 := fun X => hbytes X 0 (by omega)
  have e1 := fun X => hbytes X 1 (by omega)
  have e2 := fun X => hbytes X 2 (by omega)
  have hlen3 : (ext ++ [a, b, c]).length = ext.length + 3 := by simp
  have hsub : ext.length + 3 - 3 = ext.length := by omega
  simp only [Nat.add_zero] at e0
  have hl : allInBuffer (f_read (f_read m.file .header 0 34).2.2 .extension 0
      (ext.length + 3)).2.2.reads :=
    f_read_inBuffer _ _ _ _ (f_read_inBuffer _ _ _ _ hlog (by omega)) (by omega)
  simp only [LoadZ80Snapshot, r1, r2, hhdr, habl', s1, s2, ne_eq, not_true_eq_false, or_self,
    if_false, hlen3, hsub, e0, e1, e2]
  refine Exists.intro ?w ⟨?h1, ?h2, ?h3, ?h4, ?h5, ?h6⟩
  case h1 => exact rfl
  case h2 => exact s3
  case h3 => exact s4
  case h4 => exact rfl
  case h5 => exact rfl
  case h6 => exact hl

/-- The load of three raw records 8, 4, 5 behind a header with any extended-length field that
fits `buffer1`. -/
theorem LoadZ80Snapshot.three_raw_pages_any (env : Env) (m : Machine) (fuel : Nat)
    (hdr ext P8 P4 P5 tail : List Nat) (E : Nat) (hss : 0 < env.MIN_SS) (hfuel : 3 ≤ fuel)
    (hf : m.file.faultAfter = none) (hlog : allInBuffer m.file.reads) (hhdr : hdr.length = 34)
    (hE : hdr.getD 30 0 + 256 * hdr.getD 31 0 = E) (hext : ext.length + 2 = E)
    (hcap : E + 1 ≤ 0x4000)
    (h8 : P8.length = 0x4000) (h4 : P4.length = 0x4000) (h5 : P5.length = 0x4000)
    (htail : tail.length < 3 ∨ ∃ id rest, tail = 0 :: 0 :: id :: rest)
    (hin : m.file.input = hdr ++ ext ++ 0xFF :: 0xFF :: 8 :: (P8 ++ 0xFF :: 0xFF :: 4 ::
      (P4 ++ 0xFF :: 0xFF :: 5 :: (P5 ++ tail)))) :
    (LoadZ80Snapshot env fuel m).1 = some true
      ∧ (LoadZ80Snapshot env fuel m).2.buffer2 = store m.buffer2 0 (rawDecode P8)
      ∧ (LoadZ80Snapshot env fuel m).2.RamBuffer
          = store (store (memcpy m.RamBuffer 0 (store m.buffer2 0 (rawDecode P8)) 0x1B00 0x2500)
              0x2500 (rawDecode P4)) 0x6500 (rawDecode P5)
      ∧ allInBuffer (LoadZ80Snapshot env fuel m).2.file.reads := by
  obtain ⟨f, rfl⟩ : ∃ f, fuel = f + 3 := ⟨fuel - 3, by omega⟩
  obtain ⟨m0, e0, i0, f0, b0, r0, l0⟩ := LoadZ80Snapshot.start_any env (f + 3) m hdr ext 0xFF 0xFF
    8 _ E hf hlog hhdr hE hext hcap hin
  obtain ⟨m1, e1, i1, f1, b1, r1⟩ := LoadZ80Snapshot.body_raw_next env hss m0 8 P8 0xFF 0xFF 4 _
    (Or.inl rfl) f0 i0 h8
  obtain ⟨m2, e2, i2, f2, b2, r2⟩ := LoadZ80Snapshot.body_raw_next env hss m1 4 P4 0xFF 0xFF 5 _
    (Or.inr (Or.inl rfl)) f1 i1 h4
  rw [pageSize_raw] at e0 e1 e2
  rw [if_pos (by decide)] at e1 e2
  have l1 : allInBuffer m1.file.reads := by
    have h := LoadZ80Snapshot.body_inBuffer env m0 0xFFFF 8 l0 (by decide)
    rw [e1] at h
    exact h
  have l2 : allInBuffer m2.file.reads := by
    have h := LoadZ80Snapshot.body_inBuffer env m1 0xFFFF 4 l1 (by decide)
    rw [e2] at h
    exact h
  have l3 := LoadZ80Snapshot.body_inBuffer env m2 0xFFFF 5 l2 (by decide)
  rw [e0, LoadZ80Snapshot.loop_again env (f + 2) m0 m1 _ _ _ _ e1,
    LoadZ80Snapshot.loop_again env (f + 1) m1 m2 _ _ _ _ e2]
  have hb2 : m2.buffer2 = store m.buffer2 0 (rawDecode P8) := by
    rw [b2, if_neg (by decide), b1, if_pos rfl, b0]
  have hr2 : m2.RamBuffer
      = store (memcpy m.RamBuffer 0 (store m.buffer2 0 (rawDecode P8)) 0x1B00 0x2500) 0x2500
          (rawDecode P4) := by
    rw [r2, if_neg (by decide), if_pos rfl, r1, if_pos rfl, b0, r0]
  rcases htail with hshort | ⟨id, rest, rfl⟩
  · obtain ⟨m3, e3, b3, r3⟩ := LoadZ80Snapshot.body_raw_last env hss m2 5 P5 tail hshort
      (Or.inr (Or.inr rfl)) f2 i2 h5
    rw [e3] at l3
    rw [LoadZ80Snapshot.loop_ret env f m2 m3 _ _ _ e3]
    refine ⟨rfl, ?_, ?_, l3⟩
    · show m3.buffer2 = _
      rw [b3, if_neg (by decide), hb2]
    · show m3.RamBuffer = _
      rw [r3, if_neg (by decide), if_neg (by decide), hr2]
  · obtain ⟨m3, e3, _, _, b3, r3⟩ := LoadZ80Snapshot.body_raw_next env hss m2 5 P5 0 0 id rest
      (Or.inr (Or.inr rfl)) f2 i2 h5
    rw [if_neg (by decide)] at e3
    rw [e3] at l3
    rw [LoadZ80Snapshot.loop_ret env f m2 m3 _ _ _ e3]
    refine ⟨rfl, ?_, ?_, l3⟩
    · show m3.buffer2 = _
      rw [b3, if_neg (by decide), hb2]
    · show m3.RamBuffer = _
      rw [r3, if_neg (by decide), if_neg (by decide), hr2]

set_option maxRecDepth 100000 in
/-- C12 (as stated, refuted): a stream whose extended-length field is 23, not 54, is not
rejected: `LoadZ80Snapshot` reads 24 further bytes, loads the page that follows and returns
success, with every read inside `buffer1`. -/
theorem LoadZ80Snapshot_length23_accepted :
    length23Stream.getD 30 0 + 256 * length23Stream.getD 31 0 = 23
      ∧ (LoadZ80Snapshot plainEnv 1 (loadMachine length23Stream)).1 = some true
      ∧ allInBuffer (LoadZ80Snapshot plainEnv 1 (loadMachine length23Stream)).2.file.reads := by
  decide

/-- C12 (amended): the extended-length field is not tested.  For every value `E` of the
field, 54 or not, with `2 ≤ E` and `E + 1 ≤ 0x4000` (so that the `E + 1` bytes of the second
read fit `buffer1`), a stream made of the 34-byte header, `E - 2` further bytes, the raw
records 8, 4, 5 with 16384-byte payloads free of `00 ED ED 00`, and then nothing or a record
with length field 0, is loaded with success on a device without fault; memory is filled as
for `E = 54`, and no read stores past the `0x4000` bytes of `buffer1`. -/
theorem LoadZ80Snapshot_any_extLength (env : Env) (m : Machine) (fuel : Nat)
    (hdr ext P8 P4 P5 tail : List Nat) (E : Nat) (hss : 0 < env.MIN_SS) (hfuel : 3 ≤ fuel)
    (hf : m.file.faultAfter = none) (hlog : allInBuffer m.file.reads) (hhdr : hdr.length = 34)
    (hE : hdr.getD 30 0 + 256 * hdr.getD 31 0 = E) (hE2 : 2 ≤ E) (hEcap : E + 1 ≤ 0x4000)
    (hext : ext.length = E - 2)
    (h8 : P8.length = 16384) (h4 : P4.length = 16384) (h5 : P5.length = 16384)
    (hn8 : ¬ [0x00, 0xED, 0xED, 0x00] <:+: P8) (hn4 : ¬ [0x00, 0xED, 0xED, 0x00] <:+: P4)
    (hn5 : ¬ [0x00, 0xED, 0xED, 0x00] <:+: P5)
    (htail : tail = [] ∨ ∃ id rest, tail = 0 :: 0 :: id :: rest)
    (hin : m.file.input = hdr ++ ext ++ rawRecord 8 P8 ++ rawRecord 4 P4 ++ rawRecord 5 P5
      ++ tail) :
    (LoadZ80Snapshot env fuel m).1 = some true
      ∧ slice (LoadZ80Snapshot env fuel m).2.buffer2 0 0x4000 = P8
      ∧ slice (LoadZ80Snapshot env fuel m).2.RamBuffer 0 0x2500 = P8.drop 0x1B00
      ∧ slice (LoadZ80Snapshot env fuel m).2.RamBuffer 0x2500 0x4000 = P4
      ∧ slice (LoadZ80Snapshot env fuel m).2.RamBuffer 0x6500 0x4000 = P5
      ∧ allInBuffer (LoadZ80Snapshot env fuel m).2.file.reads := by
  have htail' : tail.length < 3 ∨ ∃ id rest, tail = 0 :: 0 :: id :: rest := by
    rcases htail with rfl | h
    · exact Or.inl (by decide)
    · exact Or.inr h
  obtain ⟨r1, r2, r3, r4⟩ := LoadZ80Snapshot.three_raw_pages_any env m fuel hdr ext P8 P4 P5 tail
    E hss hfuel hf hlog hhdr hE (by omega) hEcap h8 h4 h5 htail'
    (by simp only [hin, rawRecord, List.append_assoc, List.cons_append, List.nil_append])
  rw [rawDecode_eq_self P8 h8 hn8] at r2 r3
  rw [rawDecode_eq_self P4 h4 hn4, rawDecode_eq_self P5 h5 hn5] at r3
  have hram := ram_after_three_pages m.RamBuffer m.buffer2 P8 P4 P5 h8 h4 h5
  rw [← r3] at hram
  refine ⟨r1, ?_, hram.1, hram.2.1, hram.2.2, r4⟩
  rw [r2]
  have := slice_store m.buffer2 0 P8
  rw [h8] at this
  exact this

/-- C12 (amended) on a stream with extended-length field 23 and 21 further header bytes. -/
theorem LoadZ80Snapshot_any_extLength_witness :
    (LoadZ80Snapshot plainEnv 3 (loadMachine (header23 ++ List.replicate 21 0
        ++ rawRecord 8 (List.replicate 16384 1) ++ rawRecord 4 (List.replicate 16384 2)
        ++ rawRecord 5 (List.replicate 16384 3) ++ []))).1 = some true
      ∧ slice (LoadZ80Snapshot plainEnv 3 (loadMachine (header23 ++ List.replicate 21 0
        ++ rawRecord 8 (List.replicate 16384 1) ++ rawRecord 4 (List.replicate 16384 2)
        ++ rawRecord 5 (List.replicate 16384 3) ++ []))).2.buffer2 0 0x4000
          = List.replicate 16384 1
      ∧ slice (LoadZ80Snapshot plainEnv 3 (loadMachine (header23 ++ List.replicate 21 0
        ++ rawRecord 8 (List.replicate 16384 1) ++ rawRecord 4 (List.replicate 16384 2)
        ++ rawRecord 5 (List.replicate 16384 3) ++ []))).2.RamBuffer 0 0x2500
          = (List.replicate 16384 1).drop 0x1B00
      ∧ slice (LoadZ80Snapshot plainEnv 3 (loadMachine (header23 ++ List.replicate 21 0
        ++ rawRecord 8 (List.replicate 16384 1) ++ rawRecord 4 (List.replicate 16384 2)
        ++ rawRecord 5 (List.replicate 16384 3) ++ []))).2.RamBuffer 0x2500 0x4000
          = List.replicate 16384 2
      ∧ slice (LoadZ80Snapshot plainEnv 3 (loadMachine (header23 ++ List.replicate 21 0
        ++ rawRecord 8 (List.replicate 16384 1) ++ rawRecord 4 (List.replicate 16384 2)
        ++ rawRecord 5 (List.replicate 16384 3) ++ []))).2.RamBuffer 0x6500 0x4000
          = List.replicate 16384 3
      ∧ allInBuffer (LoadZ80Snapshot plainEnv 3 (loadMachine (header23 ++ List.replicate 21 0
        ++ rawRecord 8 (List.replicate 16384 1) ++ rawRecord 4 (List.replicate 16384 2)
        ++ rawRecord 5 (List.replicate 16384 3) ++ []))).2.file.reads :=
  LoadZ80Snapshot_any_extLength plainEnv _ 3 header23 (List.replicate 21 0)
    (List.replicate 16384 1) (List.replicate 16384 2) (List.replicate 16384 3) [] 23
    (by decide) (Nat.le_refl 3) (loadMachine_healthy _) (loadMachine_fresh _) (by decide)
    (by decide) (by decide) (by decide)
    (List.length_replicate _ _)
    (List.length_replicate _ _) (List.length_replicate _ _) (List.length_replicate _ _)
    (no_endMarker_of_no_ED _ (fun x hx => by rw [List.eq_of_mem_replicate hx]; decide))
    (no_endMarker_of_no_ED _ (fun x hx => by rw [List.eq_of_mem_replicate hx]; decide))
    (no_endMarker_of_no_ED _ (fun x hx => by rw [List.eq_of_mem_replicate hx]; decide))
    (Or.inl rfl) (loadMachine_input _)

/-- C14 on a stream of 6913 bytes: the first 6912 are loaded, one is left. -/
theorem LoadScreenshot_block_copy_witness :
    ((LoadScreenshot plainEnv (loadMachine (List.replicate 6912 7 ++ [1]))).1 = some true
        ↔ 6912 ≤ (loadMachine (List.replicate 6912 7 ++ [1])).file.input.length)
      ∧ ((loadMachine (List.replicate 6912 7 ++ [1])).file.input.length < 6912 →
          (LoadScreenshot plainEnv (loadMachine (List.replicate 6912 7 ++ [1]))).1 = some false)
      ∧ (6912 ≤ (loadMachine (List.replicate 6912 7 ++ [1])).file.input.length →
          slice (LoadScreenshot plainEnv (loadMachine (List.replicate 6912 7 ++ [1]))).2.buffer1
              0 6912
            = (loadMachine (List.replicate 6912 7 ++ [1])).file.input.take 6912
          ∧ (LoadScreenshot plainEnv (loadMachine (List.replicate 6912 7 ++ [1]))).2.file.input
            = (loadMachine (List.replicate 6912 7 ++ [1])).file.input.drop 6912) :=
  LoadScreenshot_block_copy plainEnv (loadMachine (List.replicate 6912 7 ++ [1]))
    (show 0 < 512 by decide) (loadMachine_healthy _)

/-! ## The screen-only loader -/

theorem LoadScreenFromZ80Snapshot.decodeLength_le (pageSize : Nat) :
    LoadScreenFromZ80Snapshot.decodeLength pageSize ≤ 6912 := by
  unfold LoadScreenFromZ80Snapshot.decodeLength
  split_ifs <;> omega

/-- The instrumented decoder with the arguments of the page-8 branch of
`LoadScreenFromZ80Snapshot`: every offset read is below 6912 and at most 6912 bytes come
out. -/
theorem LoadScreenFromZ80Snapshot.decode_bounds (buffer1 : Mem) (pageSize : Nat)
    (isCompressed : Bool) :
    (∀ j ∈ (DecompressPage.traced buffer1 (LoadScreenFromZ80Snapshot.decodeLength pageSize)
        isCompressed 6912 (LoadScreenFromZ80Snapshot.decodeLength pageSize) 0 0).2, j < 6912)
      ∧ (DecompressPage.traced buffer1 (LoadScreenFromZ80Snapshot.decodeLength pageSize)
        isCompressed 6912 (LoadScreenFromZ80Snapshot.decodeLength pageSize) 0 0).1.length
          ≤ 6912 := by
  have hL := LoadScreenFromZ80Snapshot.decodeLength_le pageSize
  constructor
  · intro j hj
    have := DecompressPage.traced_reads_lt buffer1
      (LoadScreenFromZ80Snapshot.decodeLength pageSize) isCompressed 6912
      (LoadScreenFromZ80Snapshot.decodeLength pageSize) 0 0 j hj
    omega
  · have h := DecompressPage.loop_capped buffer1
      (LoadScreenFromZ80Snapshot.decodeLength pageSize) isCompressed 6912 (by omega)
      (LoadScreenFromZ80Snapshot.decodeLength pageSize) 0 0 (by omega)
    rw [DecompressPage.traced_fst, h, List.length_take]
    exact Nat.min_le_left _ _

/-- The access log of a pass is empty, or it is the log of one run of the instrumented
decoder on the clamped length with cap 6912 and destination `0x2000`. -/
theorem LoadScreenFromZ80Snapshot.bodyTraced_log (env : Env) (m : Machine)
    (pageSize pageNumber : Nat) :
    (LoadScreenFromZ80Snapshot.bodyTraced env m pageSize pageNumber).2 = ([], [])
      ∨ ∃ (buf : Mem) (L : Nat) (c : Bool),
          (LoadScreenFromZ80Snapshot.bodyTraced env m pageSize pageNumber).2
            = ((DecompressPage.traced buf (LoadScreenFromZ80Snapshot.decodeLength L) c 6912
                  (LoadScreenFromZ80Snapshot.decodeLength L) 0 0).2,
                (List.range (DecompressPage.traced buf
                  (LoadScreenFromZ80Snapshot.decodeLength L) c 6912
                  (LoadScreenFromZ80Snapshot.decodeLength L) 0 0).1.length).map
                  (fun j => 0x2000 + j)) := by
  simp only [LoadScreenFromZ80Snapshot.bodyTraced]
  generalize (if decide (pageSize ≠ 0xFFFF) = false then 0x4000 else pageSize) = L
  generalize decide (pageSize ≠ 0xFFFF) = c
  generalize readChunks env (L + 1) m.file m.buffer1 0 L = rd
  obtain ⟨res, file, buf⟩ := rd
  match res with
  | none => exact Or.inl rfl
  | some false => exact Or.inl rfl
  | some true =>
    by_cases h8 : pageNumber = 8
    · refine Or.inr ⟨buf, L, c, ?_⟩
      simp only [h8, if_true]
    · refine Or.inl ?_
      simp only [if_neg h8]

/-- C20: in every pass of the page loop of `LoadScreenFromZ80Snapshot` (any state, any
declared length, raw or compressed, any page number), the `DecompressPage` call of the pass
reads only offsets below 6912 of `buffer1` and stores at most 6912 bytes, all at offsets in
`[0x2000, 0x3B00)`; every offset read lies below every offset stored to, and all of them lie
below `0x4000`.  Apart from the three bytes of the next page header, the pass changes
`buffer1` after the body read only at the offsets the call stores to. -/
theorem LoadScreenFromZ80Snapshot_decode_in_buffer (env : Env) (m : Machine)
    (pageSize pageNumber : Nat) :
    (∀ j ∈ (LoadScreenFromZ80Snapshot.bodyTraced env m pageSize pageNumber).2.1, j < 6912)
      ∧ (LoadScreenFromZ80Snapshot.bodyTraced env m pageSize pageNumber).2.2.length ≤ 6912
      ∧ (∀ a ∈ (LoadScreenFromZ80Snapshot.bodyTraced env m pageSize pageNumber).2.2,
          0x2000 ≤ a ∧ a < 0x3B00)
      ∧ (∀ j ∈ (LoadScreenFromZ80Snapshot.bodyTraced env m pageSize pageNumber).2.1,
          ∀ a ∈ (LoadScreenFromZ80Snapshot.bodyTraced env m pageSize pageNumber).2.2, j < a)
      ∧ (∀ j ∈ (LoadScreenFromZ80Snapshot.bodyTraced env m pageSize pageNumber).2.1,
          j < 0x4000)
      ∧ (∀ a ∈ (LoadScreenFromZ80Snapshot.bodyTraced env m pageSize pageNumber).2.2,
          a < 0x4000)
      ∧ (∀ a, 3 ≤ a →
          a ∉ (LoadScreenFromZ80Snapshot.bodyTraced env m pageSize pageNumber).2.2 →
          (LoadScreenFromZ80Snapshot.body env m pageSize pageNumber).machine.buffer1 a
            = (readChunks env ((if pageSize = 0xFFFF then 0x4000 else pageSize) + 1) m.file
                m.buffer1 0 (if pageSize = 0xFFFF then 0x4000 else pageSize)).2.2 a) := by
  have hlog := LoadScreenFromZ80Snapshot.bodyTraced_log env m pageSize pageNumber
  have hreads : ∀ j ∈ (LoadScreenFromZ80Snapshot.bodyTraced env m pageSize pageNumber).2.1,
      j < 6912 := by
    intro j hj
    rcases hlog with h | ⟨buf, L, c, h⟩
    · rw [h] at hj
      exact absurd hj (List.not_mem_nil _)
    · rw [h] at hj
      exact (LoadScreenFromZ80Snapshot.decode_bounds buf L c).1 j hj
  have hwrites : ∀ a ∈ (LoadScreenFromZ80Snapshot.bodyTraced env m pageSize pageNumber).2.2,
      0x2000 ≤ a ∧ a < 0x3B00 := by
    intro a ha
    rcases hlog with h | ⟨buf, L, c, h⟩
    · rw [h] at ha
      exact absurd ha (List.not_mem_nil _)
    · rw [h] at ha
      obtain ⟨w, hw, rfl⟩ := List.mem_map.mp ha
      have hw' := List.mem_range.mp hw
      have := (LoadScreenFromZ80Snapshot.decode_bounds buf L c).2
      omega
  have hlen : (LoadScreenFromZ80Snapshot.bodyTraced env m pageSize pageNumber).2.2.length
      ≤ 6912 := by
    rcases hlog with h | ⟨buf, L, c, h⟩
    · rw [h]
      exact Nat.zero_le _
    · rw [h]
      show ((List.range _).map _).length ≤ 6912
      rw [List.length_map, List.length_range]
      exact (LoadScreenFromZ80Snapshot.decode_bounds buf L c).2
  refine ⟨hreads, hlen, hwrites, ?_, ?_, ?_, ?_⟩
  · intro j hj a ha
    have := hreads j hj
    have := hwrites a ha
    omega
  · intro j hj
    have := hreads j hj
    omega
  · intro a ha
    have := hwrites a ha
    omega
  · intro a h3
    have hL : (if decide (pageSize ≠ 0xFFFF) = false then 0x4000 else pageSize)
        = (if pageSize = 0xFFFF then 0x4000 else pageSize) := by
      by_cases h : pageSize = 0xFFFF <;> simp [h]
    simp only [LoadScreenFromZ80Snapshot.body, LoadScreenFromZ80Snapshot.bodyTraced, hL]
    generalize (if pageSize = 0xFFFF then 0x4000 else pageSize) = L
    generalize decide (pageSize ≠ 0xFFFF) = c
    generalize readChunks env (L + 1) m.file m.buffer1 0 L = rd
    obtain ⟨res, file, buf⟩ := rd
    match res with
    | none => exact fun _ => rfl
    | some false => exact fun _ => rfl
    | some true =>
      have hnext : ∀ (X : Mem) (l : List Nat), l.length ≤ 3 → store X 0 l a = X a :=
        fun X l hl => store_apply_ge _ _ _ _ (by omega)
      have hl3 : (f_read file .nextPage 0 3).2.1.length ≤ 3 := by
        simp only [f_read]
        split_ifs
        · exact Nat.zero_le _
        · simp only [List.length_take]
          exact Nat.min_le_left _ _
      have hout : ∀ (X : Mem) (l : List Nat),
          a ∉ (List.range l.length).map (fun j => 0x2000 + j) → store X 0x2000 l a = X a := by
        intro X l hnot
        by_cases h1 : a < 0x2000
        · exact store_apply_lt _ _ _ _ h1
        · by_cases h2 : 0x2000 + l.length ≤ a
          · exact store_apply_ge _ _ _ _ h2
          · exact absurd (List.mem_map.mpr ⟨a - 0x2000, List.mem_range.mpr (by omega),
              by omega⟩) hnot
      have hm : ∀ (p q : Prop) [Decidable p] [Decidable q] (mm : Machine) (x y : Nat),
          (if p then Step.ret false mm else if q then Step.again mm x y
            else Step.ret true mm).machine = mm := by
        intro p q _ _ mm x y
        split_ifs <;> rfl
      dsimp only
      rw [hm]
      by_cases h8 : pageNumber = 8
      · simp only [h8, if_true]
        intro ha
        rw [hnext _ _ hl3, hout _ _ ha]
      · simp only [if_neg h8]
        intro _
        rw [hnext _ _ hl3]

set_option maxRecDepth 100000 in
/-- C20 on a pass over a one-byte compressed page 8: the call reads offset 0 and stores to
offset `0x2000`. -/
theorem LoadScreenFromZ80Snapshot_decode_in_buffer_witness :
    (LoadScreenFromZ80Snapshot.bodyTraced plainEnv (loadMachine [0x55]) 1 8).2
        = ([0], [0x2000])
      ∧ (∀ j ∈ (LoadScreenFromZ80Snapshot.bodyTraced plainEnv (loadMachine [0x55]) 1 8).2.1,
          j < 6912)
      ∧ (∀ a ∈ (LoadScreenFromZ80Snapshot.bodyTraced plainEnv (loadMachine [0x55]) 1 8).2.2,
          0x2000 ≤ a ∧ a < 0x3B00) :=
  ⟨by decide,
    (LoadScreenFromZ80Snapshot_decode_in_buffer plainEnv (loadMachine [0x55]) 1 8).1,
    (LoadScreenFromZ80Snapshot_decode_in_buffer plainEnv (loadMachine [0x55]) 1 8).2.2.1⟩

theorem LoadScreenFromZ80Snapshot.pass_again (env : Env) (fuel : Nat) (m m' : Machine)
    (ps pn ps' pn' : Nat)
    (h : LoadScreenFromZ80Snapshot.body env m ps pn = Step.again m' ps' pn') :
    LoadScreenFromZ80Snapshot.loop env (fuel + 1) m ps pn
      = LoadScreenFromZ80Snapshot.loop env fuel m' ps' pn' := by
  simp only [LoadScreenFromZ80Snapshot.loop, h]

theorem LoadScreenFromZ80Snapshot.pass_ret (env : Env) (fuel : Nat) (m m' : Machine)
    (ps pn : Nat) (r : Bool) (h : LoadScreenFromZ80Snapshot.body env m ps pn = Step.ret r m') :
    LoadScreenFromZ80Snapshot.loop env (fuel + 1) m ps pn = (some r, m') := by
  simp only [LoadScreenFromZ80Snapshot.loop, h]

theorem PageRecord.bodyLength_eq (r : PageRecord) :
    (if decide (r.size ≠ 0xFFFF) = false then 0x4000 else r.size) = r.bodyLength := by
  unfold PageRecord.bodyLength
  by_cases h : r.size = 0xFFFF <;> simp [h]

/-- One pass of the screen-only loader over a record whose body is wholly there: the body is
read, whatever the page number, and the next three bytes decide how the loop goes on. -/
theorem LoadScreenFromZ80Snapshot.body_complete (env : Env) (hss : 0 < env.MIN_SS)
    (m : Machine) (r : PageRecord) (rest : List Nat) (hf : m.file.faultAfter = none)
    (hin : m.file.input = r.body ++ rest) (hc : r.body.length = r.bodyLength) :
    ∃ m' : Machine,
      LoadScreenFromZ80Snapshot.body env m r.size r.id
          = (if (if (rest.take 3).length = 3 then
                  (ofList (rest.take 3) 0 ||| (ofList (rest.take 3) 1 <<< 8)) % 65536 else 0) > 0
              then
                Step.again m'
                  (if (rest.take 3).length = 3 then
                    (ofList (rest.take 3) 0 ||| (ofList (rest.take 3) 1 <<< 8)) % 65536 else 0)
                  (if (rest.take 3).length = 3 then ofList (rest.take 3) 2 else r.id)
            else Step.ret true m')
        ∧ m'.file.input = rest.drop 3 ∧ m'.file.faultAfter = none := by
  obtain ⟨c1, c2, c3, c4⟩ := readChunks_complete env hss (r.bodyLength + 1) m.file m.buffer1 0
    r.bodyLength hf (by rw [hin, List.length_append, hc]; omega) (by omega)
  have hdrop : m.file.input.drop r.bodyLength = rest := by rw [hin, ← hc, List.drop_left]
  rw [hdrop] at c2
  obtain ⟨q1, q2, q3, q4⟩ := f_read_ok
    (readChunks env (r.bodyLength + 1) m.file m.buffer1 0 r.bodyLength).2.1 .nextPage 0 3 c3
  rw [c2] at q2 q3
  have hb : ∀ (X : Mem) (i : Nat), i < 3 → (rest.take 3).length = 3 →
      store X 0 (rest.take 3) i = ofList (rest.take 3) i := by
    intro X i hi hl
    rw [store_apply_in _ _ _ _ (by omega) (by omega)]
    rfl
  simp only [LoadScreenFromZ80Snapshot.body, LoadScreenFromZ80Snapshot.bodyTraced,
    PageRecord.bodyLength_eq, c1, q1, q2, ne_eq, not_true_eq_false, if_false]
  by_cases hl : (rest.take 3).length = 3
  · simp only [hl, if_true, hb _ 0 (by omega) hl, hb _ 1 (by omega) hl, hb _ 2 (by omega) hl]
    refine Exists.intro ?w ⟨?h1, ?h2, ?h3⟩
    case h1 => exact rfl
    case h2 => exact q3
    case h3 => exact q4
  · simp only [hl, if_false]
    refine Exists.intro ?w ⟨?h1, ?h2, ?h3⟩
    case h1 => exact rfl
    case h2 => exact q3
    case h3 => exact q4

/-- The page loop of the screen-only loader on a sequence of complete records that fit
`buffer1`, followed by the end of the stream, one or two stray bytes, or a record with length
field 0. -/
theorem LoadScreenFromZ80Snapshot.loop_records (env : Env) (hss : 0 < env.MIN_SS)
    (tail : List Nat) (htail : tail.length < 3 ∨ ∃ id rest, tail = 0 :: 0 :: id :: rest) :
    ∀ (rs : List PageRecord) (r : PageRecord) (m : Machine) (fuel : Nat),
      m.file.faultAfter = none → allInBuffer m.file.reads →
      m.file.input = r.body ++ (recordsBytes rs ++ tail) →
      (r.complete ∧ r.fits) → (∀ x ∈ rs, x.complete ∧ x.fits) → rs.length < fuel →
      (LoadScreenFromZ80Snapshot.loop env fuel m r.size r.id).1 = some true
        ∧ allInBuffer (LoadScreenFromZ80Snapshot.loop env fuel m r.size r.id).2.file.reads := by
  intro rs
  induction rs with
  | nil =>
    intro r m fuel hf hlog hin hr _ hfuel
    have hb := LoadScreenFromZ80Snapshot.pass_inBuffer env m r.size r.id hlog hr.2
    obtain ⟨f, rfl⟩ : ∃ f, fuel = f + 1 := ⟨fuel - 1, by simp at hfuel; omega⟩
    obtain ⟨m', e, _, _⟩ := LoadScreenFromZ80Snapshot.body_complete env hss m r
      (recordsBytes [] ++ tail) hf hin hr.1.2
    simp only [recordsBytes, List.nil_append] at e
    rcases htail with hshort | ⟨id, rest, rfl⟩
    · have hl : ¬ (tail.take 3).length = 3 := by
        rw [List.length_take]; omega
      simp only [hl, if_false] at e
      rw [if_neg (by omega)] at e
      rw [e] at hb
      rw [LoadScreenFromZ80Snapshot.pass_ret env f m m' _ _ _ e]
      exact ⟨rfl, hb⟩
    · have e' : LoadScreenFromZ80Snapshot.body env m r.size r.id = Step.ret true m' := by
        rw [e]
        simp [ofList]
      rw [e'] at hb
      rw [LoadScreenFromZ80Snapshot.pass_ret env f m m' _ _ _ e']
      exact ⟨rfl, hb⟩
  | cons r2 rs ih =>
    intro r m fuel hf hlog hin hr hrs hfuel
    have hb := LoadScreenFromZ80Snapshot.pass_inBuffer env m r.size r.id hlog hr.2
    obtain ⟨f, rfl⟩ : ∃ f, fuel = f + 1 := ⟨fuel - 1, by simp at hfuel; omega⟩
    obtain ⟨m', e, i', f'⟩ := LoadScreenFromZ80Snapshot.body_complete env hss m r
      (recordsBytes (r2 :: rs) ++ tail) hf hin hr.1.2
    have hrest : recordsBytes (r2 :: rs) ++ tail
        = r2.lo :: r2.hi :: r2.id :: (r2.body ++ (recordsBytes rs ++ tail)) := by
      simp only [recordsBytes, PageRecord.bytes, List.cons_append, List.append_assoc]
    rw [hrest] at e i'
    have h2 := hrs r2 (List.mem_cons_self _ _)
    have hpos : 0 < (r2.lo ||| (r2.hi <<< 8)) % 65536 := h2.1.1
    have e' : LoadScreenFromZ80Snapshot.body env m r.size r.id
        = Step.again m' r2.size r2.id := by
      rw [e]
      simp only [List.take_succ_cons, List.take_zero, List.length_cons, List.length_nil,
        if_true, ofList, List.getD_cons_zero, List.getD_cons_succ]
      rw [if_pos hpos]
      rfl
    rw [e'] at hb
    rw [LoadScreenFromZ80Snapshot.pass_again env f m m' _ _ _ _ e']
    refine ih r2 m' f f' hb ?_ h2 (fun x hx => hrs x (List.mem_cons_of_mem _ hx)) ?_
    · rw [i']
      rfl
    · simp at hfuel
      omega

/-- The two header reads of `LoadScreenFromZ80Snapshot`: after the 34-byte header it reads
the rest of the extended header and a page header `a b c`, which fit `buffer1`, and enters
the page loop. -/
theorem LoadScreenFromZ80Snapshot.header_reads (env : Env) (fuel : Nat) (m : Machine)
    (hdr ext : List Nat) (a b c : Nat) (rest : List Nat)
    (hf : m.file.faultAfter = none) (hlog : allInBuffer m.file.reads) (hhdr : hdr.length = 34)
    (hext : ext.length + 2 = hdr.getD 30 0 + 256 * hdr.getD 31 0)
    (hcap : ext.length + 3 ≤ 0x4000)
    (hin : m.file.input = hdr ++ ext ++ a :: b :: c :: rest) :
    ∃ m0 : Machine,
      LoadScreenFromZ80Snapshot env fuel m
          = LoadScreenFromZ80Snapshot.loop env fuel m0 ((a ||| (b <<< 8)) % 65536) c
        ∧ m0.file.input = rest ∧ m0.file.faultAfter = none
        ∧ allInBuffer m0.file.reads := by
  obtain ⟨r1, r2, r3, r4⟩ := f_read_ok m.file .header 0 34 hf
  have hin' : m.file.input = hdr ++ (ext ++ a :: b :: c :: rest) := by
    rw [hin, List.append_assoc]
  have ht : m.file.input.take 34 = hdr := by rw [hin', ← hhdr, List.take_left]
  have hd : m.file.input.drop 34 = ext ++ a :: b :: c :: rest := by
    rw [hin', ← hhdr, List.drop_left]
  rw [ht] at r2
  rw [hd] at r3
  obtain ⟨s1, s2, s3, s4⟩ := f_read_ok (f_read m.file .header 0 34).2.2 .extension 0
    (ext.length + 3) r4
  rw [r3] at s2 s3
  have hsplit : ext ++ a :: b :: c :: rest = (ext ++ [a, b, c]) ++ rest := by simp
  have ht2 : (ext ++ a :: b :: c :: rest).take (ext.length + 3) = ext ++ [a, b, c] := by
    rw [hsplit]
    exact List.take_left' (by simp)
  have hd2 : (ext ++ a :: b :: c :: rest).drop (ext.length + 3) = rest := by
    rw [hsplit]
    exact List.drop_left' (by simp)
  rw [ht2] at s2
  rw [hd2] at s3
  have habl : (FileHeader.read (store m.buffer1 0 hdr)).AdditionalBlockLength + 3 - 2
      = ext.length + 3 := by
    have : (FileHeader.read (store m.buffer1 0 hdr)).AdditionalBlockLength
        = hdr.getD 30 0 + 256 * hdr.getD 31 0 := by
      simp only [FileHeader.read, rd16]
      rw [store_apply_in _ _ _ _ (by omega) (by omega),
        store_apply_in _ _ _ _ (by omega) (by omega)]
    rw [this]
    omega
  have hbytes : ∀ (X : Mem) (i : Nat), i < 3 →
      store X 0 (ext ++ [a, b, c]) (ext.length + i) = [a, b, c].getD i 0 := by
    intro X i hi
    rw [store_apply_in _ _ _ _ (by omega) (by simp; omega),
      List.getD_append_right _ _ _ _ (by omega)]
    congr 1
    omega
  have e0 := fun X => hbytes X 0 (by omega)
  have e1 := fun X => hbytes X 1 (by omega)
  have e2 := fun X => hbytes X 2 (by omega)
  have hlen3 : (ext ++ [a, b, c]).length = ext.length + 3 := by simp
  have hsub : ext.length + 3 - 3 = ext.length := by omega
  simp only [Nat.add_zero] at e0
  have hl : allInBuffer (f_read (f_read m.file .header 0 34).2.2 .extension 0
      (ext.length + 3)).2.2.reads :=
    f_read_inBuffer _ _ _ _ (f_read_inBuffer _ _ _ _ hlog (by omega)) (by omega)
  simp only [LoadScreenFromZ80Snapshot, r1, r2, hhdr, habl, s1, s2, ne_eq, not_true_eq_false,
    or_self, if_false, hlen3, hsub, e0, e1, e2]
  refine Exists.intro ?w ⟨?h1, ?h2, ?h3, ?h4⟩
  case h1 => exact rfl
  case h2 => exact s3
  case h3 => exact s4
  case h4 => exact hl

set_option maxRecDepth 100000 in
/-- C11 (as stated, refuted): the screen-only loader does not stop after page 8.  On a stream
whose header and page-8 record are complete and which goes on with a page-4 record that
announces 5 bytes and holds 2, the page is decoded to `buffer1[0x2000..]` and the load then
fails, with every read inside `buffer1`; the same stream cut after page 8 is loaded with
success. -/
theorem LoadScreenFromZ80Snapshot_fails_after_screen :
    screenThenTruncated = onePageStream ++ [5, 0, 4, 1, 2]
      ∧ (LoadScreenFromZ80Snapshot plainEnv 5 (loadMachine onePageStream)).1 = some true
      ∧ (LoadScreenFromZ80Snapshot plainEnv 5 (loadMachine screenThenTruncated)).1 = some false
      ∧ (LoadScreenFromZ80Snapshot plainEnv 5 (loadMachine screenThenTruncated)).2.buffer1
          0x2000 = 0x55
      ∧ allInBuffer
          (LoadScreenFromZ80Snapshot plainEnv 5 (loadMachine screenThenTruncated)).2.file.reads := by
  decide

/-- C11 (amended): the screen-only loader reads every record of the stream, page 8 or not.
On a device without fault, when the 34-byte header, the rest of the extended header and every
record are complete and fit the `0x4000` bytes of `buffer1` (the extended header with the
first page header, and each record body), and the records are followed by the end of the
stream, by one or two stray bytes or by a record with length field 0,
`LoadScreenFromZ80Snapshot` returns success (given one pass of fuel for each record) and no
read stores past the end of `buffer1`. -/
theorem LoadScreenFromZ80Snapshot_complete_records (env : Env) (m : Machine) (fuel : Nat)
    (hdr ext : List Nat) (r : PageRecord) (rs : List PageRecord) (tail : List Nat)
    (hss : 0 < env.MIN_SS) (hfuel : (r :: rs).length ≤ fuel)
    (hf : m.file.faultAfter = none) (hlog : allInBuffer m.file.reads) (hhdr : hdr.length = 34)
    (hext : ext.length + 2 = hdr.getD 30 0 + 256 * hdr.getD 31 0)
    (hcap : ext.length + 3 ≤ 0x4000)
    (hc : ∀ x ∈ r :: rs, x.complete ∧ x.fits)
    (htail : tail.length < 3 ∨ ∃ id rest, tail = 0 :: 0 :: id :: rest)
    (hin : m.file.input = hdr ++ ext ++ recordsBytes (r :: rs) ++ tail) :
    (LoadScreenFromZ80Snapshot env fuel m).1 = some true
      ∧ allInBuffer (LoadScreenFromZ80Snapshot env fuel m).2.file.reads := by
  have hin' : m.file.input
      = hdr ++ ext ++ r.lo :: r.hi :: r.id :: (r.body ++ (recordsBytes rs ++ tail)) := by
    rw [hin]
    simp only [recordsBytes, PageRecord.bytes, List.cons_append, List.append_assoc]
  obtain ⟨m0, e0, i0, f0, l0⟩ := LoadScreenFromZ80Snapshot.header_reads env fuel m hdr ext r.lo
    r.hi r.id _ hf hlog hhdr hext hcap hin'
  rw [e0]
  exact LoadScreenFromZ80Snapshot.loop_records env hss tail htail rs r m0 fuel f0 l0 i0
    (hc r (List.mem_cons_self _ _)) (fun x hx => hc x (List.mem_cons_of_mem _ hx))
    (by simp only [List.length_cons] at hfuel; omega)

/-- C11 (amended) on a stream with a compressed page 8 of one byte and a compressed page 4 of
two bytes, both complete. -/
theorem LoadScreenFromZ80Snapshot_complete_records_witness :
    (LoadScreenFromZ80Snapshot plainEnv 2 (loadMachine (sampleHeader ++ List.replicate 52 0
        ++ recordsBytes [⟨1, 0, 8, [0x55]⟩, ⟨2, 0, 4, [1, 2]⟩] ++ []))).1 = some true
      ∧ allInBuffer (LoadScreenFromZ80Snapshot plainEnv 2 (loadMachine (sampleHeader
        ++ List.replicate 52 0
        ++ recordsBytes [⟨1, 0, 8, [0x55]⟩, ⟨2, 0, 4, [1, 2]⟩] ++ []))).2.file.reads :=
  LoadScreenFromZ80Snapshot_complete_records plainEnv _ 2 sampleHeader (List.replicate 52 0)
    ⟨1, 0, 8, [0x55]⟩ [⟨2, 0, 4, [1, 2]⟩] [] (show 0 < 512 by decide) (Nat.le_refl 2)
    (loadMachine_healthy _) (loadMachine_fresh _) (by decide) (by decide) (by decide)
    (fun x hx => by
      simp only [List.mem_cons, List.mem_singleton, List.not_mem_nil, or_false] at hx
      rcases hx with rfl | rfl
      · exact ⟨⟨by decide, by decide⟩, show (1 : Nat) ≤ 0x4000 by decide⟩
      · exact ⟨⟨by decide, by decide⟩, show (2 : Nat) ≤ 0x4000 by decide⟩)
    (Or.inl (by decide)) (loadMachine_input _)

end Z80Snapshot
